import Mathlib

/-!
# Worker thread operation scheduler (qt-workerThread)

A shallow embedding of `AbstractOperation`, `QueueHandler::OperationsQueue` and
`QueueHandler` (files `abstractoperation.{h,cpp}`, `queuehandler.{h,cpp}`,
`sentineloperation.h`), followed by the properties established about them.

Conventions of the embedding

* An `AbstractOperation*` is a natural number, `0` being the null pointer;
  the objects live in a heap `Nat → AbstractOperation` carried by the handler.
* `int` identifiers are integers; the status word `m_status` is the bit
  pattern of the C++ `int`, a natural number below `2 ^ 32`.
* A `QSemaphore::acquire` that would block makes the enclosing function
  return `none`; so does dereferencing a null operation pointer.
* Calls that leave the repository (virtual hooks of user operations, Qt
  timers, `QMetaObject::invokeMethod`, signal emissions) are recorded, in
  order, in the `trace` of the handler.
-/

namespace WorkerThread

/-! ## abstractoperation.h : status word -/

/-- Enumerator `AbstractOperation::OperationNotStarted`. -/
def OperationNotStarted : Nat := 0x00010000
/-- Enumerator `AbstractOperation::OperationRunning`. -/
def OperationRunning : Nat := 0x00020000
/-- Enumerator `AbstractOperation::OperationSuccess`. -/
def OperationSuccess : Nat := 0x00040000
/-- Enumerator `AbstractOperation::OperationTimedOut`. -/
def OperationTimedOut : Nat := 0x00080000
/-- Enumerator `AbstractOperation::OperationCancelled`. -/
def OperationCancelled : Nat := 0x00100000
/-- Enumerator `AbstractOperation::OperationFailed`. -/
def OperationFailed : Nat := 0x00F00000
/-- Constant `AbstractOperation::MASK_OperationStatus`. -/
def MASK_OperationStatus : Nat := 0xFFFF0000
/-- Constant `AbstractOperation::MASK_OperationCustomStatusCode`. -/
def MASK_OperationCustomStatusCode : Nat := 0x0000FFFF
/-- Constant `KDefaultTimeoutOperation`, in milliseconds. -/
def KDefaultTimeoutOperation : Int := 4 * 1000
/-- Macro `KSENTINEL_OPERATION` of `sentineloperation.h`. -/
def KSENTINEL_OPERATION : Int := 0

/-- Bytes of a `QByteArray`. -/
abbrev QByteArray := List Char

/-- Qt library `QByteArray::indexOf(char)`: position of the first occurrence,
`-1` when there is none. -/
def QByteArray.indexOf (b : QByteArray) (c : Char) : Int :=
  match b.indexOf? c with
  | some i => (i : Int)
  | none => -1

/-- Qt library `QByteArray::left(int len)`: the whole array when `len` is at
least its size, the empty array when `len` is negative, the first `len` bytes
otherwise. -/
def QByteArray.left (b : QByteArray) (len : Int) : QByteArray :=
  if (b.length : Int) ≤ len then b
  else if len < 0 then []
  else b.take len.toNat

/-- Data members of `AbstractOperation`, with the value `vid` that the virtual
`id()` of the object returns. -/
structure AbstractOperation where
  /-- Result of the virtual `id()`. -/
  vid : Int
  /-- Member `m_observer`, a `QObject*` (`0` is null). -/
  m_observer : Nat
  /-- Member `m_slotToBeCalled`. -/
  m_slotToBeCalled : QByteArray
  /-- Member `m_status`. -/
  m_status : Nat
  /-- Member `m_queueHandler`: whether it points to the handler. -/
  m_queueHandler : Bool
deriving DecidableEq, Repr

namespace AbstractOperation

/-- Constructor `AbstractOperation(QObject* aObserver, const char* aSlot)`
for an object whose `id()` returns `vid`; `m_queueHandler` starts unset. -/
def new (vid : Int) (aObserver : Nat) (aSlot : List Char) : AbstractOperation :=
  { vid := vid
    m_observer := aObserver
    m_slotToBeCalled := if aObserver ≠ 0 then aSlot.drop 1 else []
    m_status := OperationNotStarted
    m_queueHandler := false }

/-- Method `setQueueHandler`. -/
def setQueueHandler (o : AbstractOperation) : AbstractOperation :=
  { o with m_queueHandler := true }

/-- Method `setStatus`. -/
def setStatus (o : AbstractOperation) (aStatus : Nat) : AbstractOperation :=
  let statusTemp := o.m_status
  { o with m_status := aStatus ||| (MASK_OperationCustomStatusCode &&& statusTemp) }

/-- Method `status`. -/
def status (o : AbstractOperation) : Nat :=
  o.m_status &&& MASK_OperationStatus

/-- Method `setCustomCode`; `aCode` is the bit pattern of the `int` argument. -/
def setCustomCode (o : AbstractOperation) (aCode : Nat) : AbstractOperation :=
  { o with m_status := o.m_status &&& (MASK_OperationCustomStatusCode &&& aCode) }

/-- Method `customCode`. -/
def customCode (o : AbstractOperation) : Nat :=
  o.m_status &&& MASK_OperationCustomStatusCode

/-- Method `success`. -/
def success (o : AbstractOperation) : AbstractOperation :=
  o.setStatus OperationSuccess

/-- Method `failed`. -/
def failed (o : AbstractOperation) : AbstractOperation :=
  o.setStatus OperationFailed

end AbstractOperation

/-- Modelled from the spec: the constructor and `id()` of `SentinelOperation`
(`sentineloperation.cpp` is not among the sources). The spec describes it as a
distinguished operation whose id equals the sentinel constant `0` and which
carries no work; it is built without observer. -/
def SentinelOperation.new : AbstractOperation :=
  AbstractOperation.new KSENTINEL_OPERATION 0 []

/-! ## queuehandler.h : OperationsQueue -/

/-- A `QHash<int, AbstractOperation*>` as an association list with at most one
entry per key. -/
abbrev QHash := List (Int × Nat)

/-- Qt library `QHash::insert`: replaces the value of an existing key. -/
def QHash.insert (h : QHash) (k : Int) (v : Nat) : QHash :=
  h.filter (fun e => e.1 ≠ k) ++ [(k, v)]

/-- Qt library `QHash::take`: removes the key and returns its value, the null
pointer when the key is absent. -/
def QHash.take (h : QHash) (k : Int) : Nat × QHash :=
  ((h.lookup k).getD 0, h.filter (fun e => e.1 ≠ k))

/-- Key set of the hash. -/
def QHash.keys (h : QHash) : List Int := h.map Prod.fst

/-- The struct `QueueHandler::OperationsQueue`. -/
structure OperationsQueue where
  /-- Member `m_queue`, head first. -/
  m_queue : List Int
  /-- Member `m_hash`. -/
  m_hash : QHash
deriving DecidableEq, Repr

namespace OperationsQueue

/-- A default constructed `OperationsQueue`. -/
def empty : OperationsQueue := ⟨[], []⟩

/-- Method `contains`. -/
def contains (q : OperationsQueue) (aId : Int) : Bool := q.m_queue.contains aId

/-- Method `count`. -/
def count (q : OperationsQueue) : Nat := q.m_queue.length

/-- Method `head`; `QQueue::head` requires a non-empty queue. -/
def head (q : OperationsQueue) : Option Int := q.m_queue.head?

/-- Method `add`. -/
def add (q : OperationsQueue) (aId : Int) (aOp : Nat) : OperationsQueue :=
  { m_queue := q.m_queue ++ [aId], m_hash := q.m_hash.insert aId aOp }

/-- Method `remove`: `removeOne` on the queue, `take` on the hash. -/
def remove (q : OperationsQueue) (aId : Int) : Nat × OperationsQueue :=
  let r := q.m_hash.take aId
  (r.1, { m_queue := q.m_queue.erase aId, m_hash := r.2 })

/-- Method `dequeue`. -/
def dequeue (q : OperationsQueue) : Nat × OperationsQueue :=
  match q.m_queue with
  | [] => (0, q)
  | headId :: rest =>
    let r := q.m_hash.take headId
    (r.1, { m_queue := rest, m_hash := r.2 })

/-- The operation the hash holds for `aId`, the null pointer when the id is
absent (what `m_hash.value(aId)` returns). -/
def value (q : OperationsQueue) (aId : Int) : Nat := (q.m_hash.lookup aId).getD 0

/-- Method `enqueue`. -/
def enqueue (q : OperationsQueue) (aId : Int) (aOp : Nat) : OperationsQueue :=
  { m_queue := q.m_queue ++ [aId], m_hash := q.m_hash.insert aId aOp }

end OperationsQueue

/-! ## queuehandler.h / queuehandler.cpp : QueueHandler -/

/-- Signals of `QueueHandler`. -/
inductive Signal
  | operationRetrieved
  | operationNeeded
  | cleanUpAndExit
  | exit
  | emptyQueue
deriving DecidableEq, Repr

/-- Calls that leave the handler, in the order in which they are made. -/
inductive Event
  /-- A signal emission, `emit sig()`. -/
  | emit (sig : Signal)
  /-- Entry of `endOperation` with a non-null operation, together with the value
  of `status()` of that operation at that moment. -/
  | endOperation (aOperation : Nat) (status : Nat)
  /-- The call `QMetaObject::invokeMethod(observer, method, ..., aOperation)`. -/
  | invokeMethod (observer : Nat) (method : QByteArray) (aOperation : Nat)
  /-- The virtual hook `cleanThreadSpecificResources()` of an operation. -/
  | cleanThreadSpecificResources (aOperation : Nat)
  /-- The virtual hook `cancel()` of an operation. -/
  | cancel (aOperation : Nat)
  /-- The virtual `execute()` of an operation. -/
  | execute (aOperation : Nat)
  /-- The call `killTimer(id)`. -/
  | killTimer (id : Int)
  /-- The call `QObject::startTimer(interval)` and the id it returned. -/
  | startTimer (interval : Int) (id : Int)
  /-- The call `QTimer::singleShot(0, this, SLOT(doCancelAllOperations()))`. -/
  | singleShot
  /-- The log line of the macro `INCONSISTENT_STATE()`. -/
  | inconsistentState
deriving DecidableEq, Repr

/-- States of the `QStateMachine` built by the constructor of `QueueHandler`. -/
inductive MachineState
  | waiting
  | processing
  | exiting
  | exit
deriving DecidableEq, Repr

/-- Selects one of the two `OperationsQueue` members of the handler (the
reference parameter `aOperationQueue`). -/
inductive QueueRef
  | normal
  | high
deriving DecidableEq, Repr

/-- Data members of `QueueHandler`, the heap of operation objects, the state of
the state machine owned by the handler and the trace of outgoing calls. -/
structure QueueHandler where
  /-- The operation objects, by address. -/
  heap : Nat → AbstractOperation
  /-- Available permits of the semaphore `m_operationWait`. -/
  m_operationWait : Nat
  /-- Member `m_currentOperationCanContinue`. -/
  m_currentOperationCanContinue : Bool
  /-- Member `m_exitThread`. -/
  m_exitThread : Bool
  /-- Member `m_cancelAllOperations`. -/
  m_cancelAllOperations : Bool
  /-- Member `m_normalPriorityQueue`. -/
  m_normalPriorityQueue : OperationsQueue
  /-- Member `m_highPriorityQueue`. -/
  m_highPriorityQueue : OperationsQueue
  /-- Member `m_currentOperation` (`0` is null). -/
  m_currentOperation : Nat
  /-- Member `m_timerId`. -/
  m_timerId : Int
  /-- Active state of `s_machine`. -/
  machineState : MachineState
  /-- Whether the `entered()` slot of the active state has still to run. -/
  machineEntering : Bool
  /-- Signal events posted to `s_machine` and not yet processed. -/
  machineEvents : List Signal
  /-- Number of posted single-shot calls of `doCancelAllOperations`. -/
  scheduledCancelAll : Nat
  /-- Outgoing calls made so far. -/
  trace : List Event

namespace QueueHandler

/-- Constructor of `QueueHandler`. The members `m_currentOperationCanContinue`
and `m_timerId` are not initialised by it and hold the given values; the state
machine is started with `waiting` as initial state. -/
def new (heap : Nat → AbstractOperation) (canContinue : Bool) (timerId : Int) :
    QueueHandler :=
  { heap := heap
    m_operationWait := 0
    m_currentOperationCanContinue := canContinue
    m_exitThread := false
    m_cancelAllOperations := false
    m_normalPriorityQueue := OperationsQueue.empty
    m_highPriorityQueue := OperationsQueue.empty
    m_currentOperation := 0
    m_timerId := timerId
    machineState := MachineState.waiting
    machineEntering := true
    machineEvents := []
    scheduledCancelAll := 0
    trace := [] }

/-- Transition table installed by the constructor (`addTransition` calls). -/
def transition : MachineState → Signal → Option MachineState
  | .waiting, .operationNeeded => some .waiting
  | .waiting, .operationRetrieved => some .processing
  | .waiting, .cleanUpAndExit => some .exiting
  | .processing, .operationNeeded => some .waiting
  | .exiting, .exit => some .exit
  | _, _ => none

/-- Appends an outgoing call to the trace. -/
def log (s : QueueHandler) (e : Event) : QueueHandler :=
  { s with trace := s.trace ++ [e] }

/-- Statement `emit sig()`: the emission is recorded and posted to `s_machine`. -/
def emit (s : QueueHandler) (sig : Signal) : QueueHandler :=
  { s with trace := s.trace ++ [Event.emit sig], machineEvents := s.machineEvents ++ [sig] }

/-- Call `m_operationWait.acquire(n)`; `none` when it would block. -/
def acquire (s : QueueHandler) (n : Nat) : Option QueueHandler :=
  if n ≤ s.m_operationWait then some { s with m_operationWait := s.m_operationWait - n }
  else none

/-- Call `m_operationWait.release(n)`. -/
def release (s : QueueHandler) (n : Nat) : QueueHandler :=
  { s with m_operationWait := s.m_operationWait + n }

/-- The queue a `QueueRef` denotes. -/
def queue (s : QueueHandler) : QueueRef → OperationsQueue
  | .normal => s.m_normalPriorityQueue
  | .high => s.m_highPriorityQueue

/-- Assignment through a `QueueRef`. -/
def setQueue (s : QueueHandler) (w : QueueRef) (q : OperationsQueue) : QueueHandler :=
  match w with
  | .normal => { s with m_normalPriorityQueue := q }
  | .high => { s with m_highPriorityQueue := q }

/-- Applies a method of `AbstractOperation` to the object at address `p`. -/
def modifyOp (s : QueueHandler) (p : Nat) (f : AbstractOperation → AbstractOperation) :
    QueueHandler :=
  { s with heap := Function.update s.heap p (f (s.heap p)) }

/-- Method `setCurrentOperationCanContinue`. -/
def setCurrentOperationCanContinue (s : QueueHandler) (aCanContinue : Bool) : QueueHandler :=
  { s with m_currentOperationCanContinue := aCanContinue }

/-- Method `setCancelAllOperations`. -/
def setCancelAllOperations (s : QueueHandler) (aHasToCancelAll : Bool) : QueueHandler :=
  { s with m_cancelAllOperations := aHasToCancelAll }

/-- Method `setTerminateThread`. -/
def setTerminateThread (s : QueueHandler) (aHasToTerminate : Bool) : QueueHandler :=
  { s with m_exitThread := aHasToTerminate }

/-- Method `endOperation`. -/
def endOperation (s : QueueHandler) (aOperation : Nat) : QueueHandler :=
  if aOperation ≠ 0 then
    let observer := (s.heap aOperation).m_observer
    let callbackMethodFullSig := (s.heap aOperation).m_slotToBeCalled
    let parenthesis := callbackMethodFullSig.indexOf '('
    let callbackMethod := callbackMethodFullSig.left parenthesis
    let s1 := s.log (Event.endOperation aOperation (s.heap aOperation).status)
    if observer ≠ 0 then s1.log (Event.invokeMethod observer callbackMethod aOperation)
    else s1
  else s

/-- Method `removeOperationFromQueue`. -/
def removeOperationFromQueue (s : QueueHandler) (aId : Int) (w : QueueRef) :
    Option QueueHandler :=
  let r := (s.queue w).remove aId
  let operation := r.1
  let s1 := s.setQueue w r.2
  if operation ≠ 0 then
    let s2 := s1.modifyOp operation (fun o => o.setStatus OperationCancelled)
    let s3 := s2.log (Event.cleanThreadSpecificResources operation)
    let s4 := s3.endOperation operation
    s4.acquire 1
  else some s1

/-- Method `addOperationToQueue`. -/
def addOperationToQueue (s : QueueHandler) (aOperation : Nat) (w : QueueRef) :
    Option QueueHandler :=
  if aOperation = 0 then none
  else
    match s.removeOperationFromQueue (s.heap aOperation).vid w with
    | none => none
    | some s1 =>
      let s2 := s1.setQueue w ((s1.queue w).enqueue (s1.heap aOperation).vid aOperation)
      let s3 := s2.modifyOp aOperation AbstractOperation.setQueueHandler
      some (s3.modifyOp aOperation (fun o => o.setStatus OperationNotStarted))

/-- Method `addOperation`. -/
def addOperation (s : QueueHandler) (aNewOperation : Nat) : Option QueueHandler :=
  (s.addOperationToQueue aNewOperation QueueRef.normal).map (fun s1 => s1.release 1)

/-- Method `addHighPriorityOperation`. -/
def addHighPriorityOperation (s : QueueHandler) (aNewOperation : Nat) : Option QueueHandler :=
  (s.addOperationToQueue aNewOperation QueueRef.high).map (fun s1 => s1.release 1)

/-- Expression `new SentinelOperation()`, the object being allocated at `p`. -/
def newSentinel (s : QueueHandler) (p : Nat) : QueueHandler :=
  { s with heap := Function.update s.heap p SentinelOperation.new }

/-- Method `cancelAllOperations`; `pN` and `pH` are the addresses returned by the
two `new SentinelOperation()` expressions. -/
def cancelAllOperations (s : QueueHandler) (pN pH : Nat) : Option QueueHandler :=
  match (s.newSentinel pN).addOperationToQueue pN QueueRef.normal with
  | none => none
  | some s2 =>
    match (s2.newSentinel pH).addOperationToQueue pH QueueRef.high with
    | none => none
    | some s4 =>
      let s5 := s4.release 2
      let s6 := s5.setCurrentOperationCanContinue false
      let s7 := s6.setCancelAllOperations true
      some { s7.log Event.singleShot with scheduledCancelAll := s7.scheduledCancelAll + 1 }

/-- Method `doCancelOperation`. -/
def doCancelOperation (s : QueueHandler) (aOperationId : Int) : Option QueueHandler :=
  match s.removeOperationFromQueue aOperationId QueueRef.normal with
  | none => none
  | some s1 =>
    match s1.removeOperationFromQueue aOperationId QueueRef.high with
    | none => none
    | some s2 =>
      let operation := s2.m_currentOperation
      if operation ≠ 0 ∧ (s2.heap operation).vid = aOperationId then
        some { s2.modifyOp operation (fun o => o.setStatus OperationCancelled) with
                m_currentOperationCanContinue := false }
      else some s2

/-- Method `operationFinished`. -/
def operationFinished (s : QueueHandler) : QueueHandler :=
  let s1 :=
    if s.m_currentOperation ≠ 0 then
      let operation := s.m_currentOperation
      let s1 := { s with m_currentOperation := 0 }
      let s2 :=
        if s1.m_timerId ≠ 0 then
          { s1.log (Event.killTimer s1.m_timerId) with m_timerId := 0 }
        else s1
      let s3 := s2.log (Event.cleanThreadSpecificResources operation)
      s3.endOperation operation
    else s
  let s2 :=
    if s1.m_normalPriorityQueue.count = 0 ∧ s1.m_highPriorityQueue.count = 0 then
      s1.emit Signal.emptyQueue
    else s1
  s2.emit Signal.operationNeeded

/-- Method `dequeueOperation`: the returned pointer and the new handler state. -/
def dequeueOperation (s : QueueHandler) (w : QueueRef) : Nat × QueueHandler :=
  if (s.queue w).count ≠ 0 then
    if (s.queue w).head ≠ some KSENTINEL_OPERATION then
      let r := (s.queue w).dequeue
      (r.1, s.setQueue w r.2)
    else (0, s.log Event.inconsistentState)
  else (0, s)

/-- Method `fixCancelAllSemaphore`. -/
def fixCancelAllSemaphore (s : QueueHandler) : QueueHandler :=
  s.release 1

/-- Slot `onWaiting`. -/
def onWaiting (s : QueueHandler) : Option QueueHandler :=
  match s.acquire 1 with
  | none => none
  | some s1 =>
    if s1.m_cancelAllOperations then some s1.fixCancelAllSemaphore
    else if s1.m_exitThread then some (s1.emit Signal.cleanUpAndExit)
    else
      let r := s1.dequeueOperation QueueRef.high
      let r2 :=
        if r.1 = 0 then
          let r1 := r.2.dequeueOperation QueueRef.normal
          if r1.1 = 0 then (r1.1, (r1.2.log Event.inconsistentState).emit Signal.operationNeeded)
          else r1
        else r
      let s2 := { r2.2 with m_currentOperation := r2.1 }
      let s3 := s2.setCurrentOperationCanContinue true
      some (s3.emit Signal.operationRetrieved)

/-- Method `startTimer`; `timerId` is the value returned by `QObject::startTimer`. -/
def startTimer (s : QueueHandler) (aTimeoutInterval : Int) (timerId : Int) : QueueHandler :=
  let s1 := if s.m_timerId ≠ 0 then s.log (Event.killTimer s.m_timerId) else s
  { s1.log (Event.startTimer aTimeoutInterval timerId) with m_timerId := timerId }

/-- Method `AbstractOperation::started` of the operation at `p`; `none` when its
`m_queueHandler` was never set. -/
def started (s : QueueHandler) (p : Nat) (aTimeout : Int) (timerId : Int) :
    Option QueueHandler :=
  let s1 := s.modifyOp p (fun o => o.setStatus OperationRunning)
  if (s1.heap p).m_queueHandler then some (s1.startTimer aTimeout timerId) else none

/-- Method `AbstractOperation::success` of the operation at `p`. -/
def success (s : QueueHandler) (p : Nat) : QueueHandler :=
  s.modifyOp p AbstractOperation.success

/-- Method `AbstractOperation::failed` of the operation at `p`. -/
def failed (s : QueueHandler) (p : Nat) : QueueHandler :=
  s.modifyOp p AbstractOperation.failed

/-- Method `AbstractOperation::finished` of the operation at `p`; `none` when its
`m_queueHandler` was never set. -/
def finished (s : QueueHandler) (p : Nat) : Option QueueHandler :=
  if (s.heap p).status ≠ OperationTimedOut then
    if (s.heap p).m_queueHandler then some s.operationFinished else none
  else some s

/-- Slot `onProcessing`; `timerId` is the value returned by `QObject::startTimer`. -/
def onProcessing (s : QueueHandler) (timerId : Int) : Option QueueHandler :=
  let nextOperation := s.m_currentOperation
  if nextOperation ≠ 0 then
    match s.started nextOperation KDefaultTimeoutOperation timerId with
    | none => none
    | some s1 => some (s1.log (Event.execute nextOperation))
  else some ((s.log Event.inconsistentState).emit Signal.operationNeeded)

/-- One of the two `while` loops of `doCancelAllOperations`, on the queue `w`;
every iteration shortens `m_queue` by one, so `fuel = count()` iterations
suffice. -/
def cancelLoop (w : QueueRef) : Nat → QueueHandler → Option QueueHandler
  | 0, s => some s
  | fuel + 1, s =>
    match (s.queue w).head with
    | none => some s
    | some opId =>
      match s.removeOperationFromQueue opId w with
      | none => none
      | some s1 => if opId = KSENTINEL_OPERATION then some s1 else cancelLoop w fuel s1

/-- Slot `doCancelAllOperations`. -/
def doCancelAllOperations (s : QueueHandler) : Option QueueHandler :=
  match cancelLoop QueueRef.normal s.m_normalPriorityQueue.count s with
  | none => none
  | some s1 =>
    match cancelLoop QueueRef.high s1.m_highPriorityQueue.count s1 with
    | none => none
    | some s2 =>
      let operation := s2.m_currentOperation
      let s3 :=
        if operation ≠ 0 then
          (s2.modifyOp operation (fun o => o.setStatus OperationCancelled)).log
            (Event.cancel operation)
        else s2
      let s4 := s3.setCancelAllOperations false
      some s4.operationFinished

/-- Slot `onExiting`. -/
def onExiting (s : QueueHandler) : Option QueueHandler :=
  (s.doCancelAllOperations).map (fun s1 => s1.emit Signal.exit)

/-- Method `timerEvent`; `event` is the timer id carried by the event, `none`
for a null event pointer. -/
def timerEvent (s : QueueHandler) (event : Option Int) : QueueHandler :=
  match event with
  | none => s
  | some timerId =>
    if timerId = s.m_timerId ∧ s.m_currentOperation ≠ 0 then
      let s1 := s.log (Event.killTimer s.m_timerId)
      let operation := s1.m_currentOperation
      let s2 :=
        if operation ≠ 0 then
          (s1.modifyOp operation (fun o => o.setStatus OperationTimedOut)).log
            (Event.cancel operation)
        else s1.log Event.inconsistentState
      s2.operationFinished
    else s

/-- Method `terminateThread`, up to and including the release of the wake-up
permit. The caller then waits on the rendezvous semaphore `m_semaphore` of
`WorkerThread`, which is not part of the handler. -/
def terminateThread (s : QueueHandler) : QueueHandler :=
  let s1 := s.setCurrentOperationCanContinue false
  let s2 := s1.setTerminateThread true
  s2.release 1

/-- Processing of the state machine: the pending `entered()` slot of the
active state runs if there is one, otherwise the oldest posted signal is taken
and, when the active state has a transition for it, the target state is
entered. `timerId` is passed on to `onProcessing`. -/
def machineStep (s : QueueHandler) (timerId : Int) : Option QueueHandler :=
  if s.machineEntering then
    let s1 := { s with machineEntering := false }
    match s.machineState with
    | .waiting => s1.onWaiting
    | .processing => s1.onProcessing timerId
    | .exiting => s1.onExiting
    | .exit => some s1
  else
    match s.machineEvents with
    | [] => none
    | sig :: rest =>
      match transition s.machineState sig with
      | some target =>
        some { s with machineState := target, machineEntering := true, machineEvents := rest }
      | none => some { s with machineEvents := rest }

/-- The worker thread is back in its event loop: no state entry is pending and
no posted signal waits for the state machine. -/
def idle (s : QueueHandler) : Bool :=
  !s.machineEntering && s.machineEvents.isEmpty

/-- Addresses the handler refers to: the current operation and the values of
both hashes. -/
def referenced (s : QueueHandler) : List Nat :=
  s.m_currentOperation :: (s.m_normalPriorityQueue.m_hash.map Prod.snd ++
    s.m_highPriorityQueue.m_hash.map Prod.snd)

/-- Outgoing calls of `endOperation` for the non-null operation `p` whose object
is `o` and whose `status()` reads `st`: the entry of `endOperation` and, when the
operation has an observer, the call of the callback method. -/
def deliveryEvents (o : AbstractOperation) (p : Nat) (st : Nat) : List Event :=
  Event.endOperation p st ::
    (if o.m_observer ≠ 0 then
      [Event.invokeMethod o.m_observer
        (o.m_slotToBeCalled.left (o.m_slotToBeCalled.indexOf '(')) p]
     else [])

/-- Outgoing calls of `removeOperationFromQueue` for the removed operation `p`,
read in the state `s` before the removal: nothing for the null pointer,
otherwise the clean-up hook followed by the delivery with status Cancelled. -/
def removalEvents (s : QueueHandler) (p : Nat) : List Event :=
  if p = 0 then []
  else Event.cleanThreadSpecificResources p :: deliveryEvents (s.heap p) p OperationCancelled

/-- The heap after `removeOperationFromQueue` has removed the operation `p`:
unchanged for the null pointer, otherwise `p` has received status Cancelled. -/
def cancelledHeap (heap : Nat → AbstractOperation) (p : Nat) : Nat → AbstractOperation :=
  if p = 0 then heap else Function.update heap p ((heap p).setStatus OperationCancelled)

/-- Several `addOperationToQueue` calls in a row, on the same queue. -/
def submitAll (s : QueueHandler) (w : QueueRef) : List Nat → Option QueueHandler
  | [] => some s
  | p :: ps =>
    match s.addOperationToQueue p w with
    | none => none
    | some s1 => submitAll s1 w ps

/-- Repeats `dequeueOperation` on one queue `n` times: the returned pointers in
call order, and the final state. -/
def dequeueMany (w : QueueRef) : Nat → QueueHandler → List Nat × QueueHandler
  | 0, s => ([], s)
  | n + 1, s =>
    let r := s.dequeueOperation w
    let rs := dequeueMany w n r.2
    (r.1 :: rs.1, rs.2)

/-- The queue `w` holds exactly the operations `L`, head first, each under its
own id. -/
def Holds (s : QueueHandler) (w : QueueRef) (L : List Nat) : Prop :=
  (s.queue w).m_queue = L.map (fun p => (s.heap p).vid) ∧
  (s.queue w).m_hash = L.map (fun p => ((s.heap p).vid, p))

end QueueHandler

namespace OperationsQueue

/-- The ordered ids and the keys of the mapping agree, and no id is queued
twice. -/
def Consistent (q : OperationsQueue) : Prop :=
  q.m_queue.Nodup ∧ (∀ k ∈ q.m_queue, k ∈ q.m_hash.keys) ∧ (∀ k ∈ q.m_hash.keys, k ∈ q.m_queue)

instance (q : OperationsQueue) : Decidable q.Consistent := by
  unfold Consistent; infer_instance

/-- No key is mapped to the null pointer. -/
def NonNull (q : OperationsQueue) : Prop :=
  ∀ e ∈ q.m_hash, e.2 ≠ 0

instance (q : OperationsQueue) : Decidable q.NonNull := by
  unfold NonNull; infer_instance

/-- Every key is the id of the operation it is mapped to. -/
def KeyedById (q : OperationsQueue) (heap : Nat → AbstractOperation) : Prop :=
  ∀ e ∈ q.m_hash, (heap e.2).vid = e.1

instance (q : OperationsQueue) (heap : Nat → AbstractOperation) : Decidable (q.KeyedById heap) := by
  unfold KeyedById; infer_instance

end OperationsQueue

/-- A call of one of the methods of `OperationsQueue` that change it. -/
inductive QueueOp
  | enqueue (aId : Int) (aOp : Nat)
  | add (aId : Int) (aOp : Nat)
  | dequeue
  | remove (aId : Int)
deriving DecidableEq, Repr

namespace QueueOp

/-- Effect of the call on the queue. -/
def apply (q : OperationsQueue) : QueueOp → OperationsQueue
  | .enqueue aId aOp => q.enqueue aId aOp
  | .add aId aOp => q.add aId aOp
  | .dequeue => q.dequeue.2
  | .remove aId => (q.remove aId).2

/-- Effect of a sequence of calls, first call first. -/
def applyAll (q : OperationsQueue) : List QueueOp → OperationsQueue
  | [] => q
  | op :: ops => applyAll (apply q op) ops

/-- The call does not insert an id that the queue already contains. -/
def Fresh (q : OperationsQueue) : QueueOp → Prop
  | .enqueue aId _ => q.contains aId = false
  | .add aId _ => q.contains aId = false
  | .dequeue => True
  | .remove _ => True

/-- Every insertion of the sequence inserts an id that is absent at that
moment, as `addOperationToQueue` ensures by removing the id first. -/
def AllFresh (q : OperationsQueue) : List QueueOp → Prop
  | [] => True
  | op :: ops => Fresh q op ∧ AllFresh (apply q op) ops

instance (q : OperationsQueue) (op : QueueOp) : Decidable (Fresh q op) := by
  cases op <;> unfold Fresh <;> infer_instance

/-- Decision procedure for `AllFresh`. -/
def decAllFresh : (q : OperationsQueue) → (ops : List QueueOp) → Decidable (AllFresh q ops)
  | _, [] => isTrue trivial
  | q, op :: ops =>
    match (inferInstance : Decidable (Fresh q op)), decAllFresh (apply q op) ops with
    | isTrue h1, isTrue h2 => isTrue ⟨h1, h2⟩
    | isFalse h1, _ => isFalse (fun h => h1 h.1)
    | _, isFalse h2 => isFalse (fun h => h2 h.2)

instance (q : OperationsQueue) (ops : List QueueOp) : Decidable (AllFresh q ops) :=
  decAllFresh q ops

end QueueOp

/-- A heap in which every operation keeps the default `id()`, its address, and
is observed by the object at address `100` through `SLOT(done(void*))`. -/
def sampleHeap : Nat → AbstractOperation :=
  fun p => AbstractOperation.new (p : Int) 100 ['1', 'd', 'o', 'n', 'e', '(', 'v', 'o', 'i', 'd', '*', ')']

/-- A freshly constructed handler over `sampleHeap`. -/
def sampleHandler : QueueHandler := QueueHandler.new sampleHeap false 0

/-- A handler over `sampleHeap` with operations 3 and 4 in the normal queue,
operation 7 in the high-priority queue, operation 5 current with timer 11
armed, and one permit per queued operation. -/
def sampleBusy : QueueHandler :=
  { sampleHandler with
    m_operationWait := 3
    m_currentOperationCanContinue := true
    m_normalPriorityQueue := { m_queue := [3, 4], m_hash := [(3, 3), (4, 4)] }
    m_highPriorityQueue := { m_queue := [7], m_hash := [(7, 7)] }
    m_currentOperation := 5
    m_timerId := 11
    machineState := MachineState.processing
    machineEntering := false }

/-! ## Runs of the handler -/

/-- The steps of a sequential run of one handler: calls of its public methods,
deliveries of events by the event loop of the worker thread, calls made by an
executing operation, and processing steps of the state machine. -/
inductive Action
  /-- `addOperation(aNewOperation)`. -/
  | addOperation (aNewOperation : Nat)
  /-- `addHighPriorityOperation(aNewOperation)`. -/
  | addHighPriorityOperation (aNewOperation : Nat)
  /-- `cancelAllOperations()`, the two sentinels being allocated at `pN`, `pH`. -/
  | cancelAllOperations (pN pH : Nat)
  /-- `terminateThread()`. -/
  | terminateThread
  /-- A posted single-shot call of `doCancelAllOperations()`. -/
  | doCancelAllOperations
  /-- The posted call `doCancelOperation(aOperationId)`. -/
  | doCancelOperation (aOperationId : Int)
  /-- Delivery of a timer event. -/
  | timerEvent (event : Option Int)
  /-- The operation at `p` calls `started(aTimeout)`. -/
  | started (p : Nat) (aTimeout : Int) (timerId : Int)
  /-- The operation at `p` calls `success()`. -/
  | success (p : Nat)
  /-- The operation at `p` calls `failed()`. -/
  | failed (p : Nat)
  /-- The operation at `p` calls `finished()`. -/
  | finished (p : Nat)
  /-- One processing step of the state machine. -/
  | machine (timerId : Int)
deriving DecidableEq, Repr

/-- A handler together with the number of wake-up permits released by
`terminateThread` that no Waiting entry has consumed yet. -/
structure System where
  /-- The handler. -/
  handler : QueueHandler
  /-- Outstanding pseudo-permits. -/
  pseudoPermits : Nat

namespace System

/-- A freshly constructed handler. -/
def init (heap : Nat → AbstractOperation) (canContinue : Bool) (timerId : Int) : System :=
  { handler := QueueHandler.new heap canContinue timerId, pseudoPermits := 0 }

/-- The Waiting entry that is about to run takes the shutdown branch. -/
def consumesWakeUp (h : QueueHandler) : Bool :=
  h.machineEntering && h.machineState == MachineState.waiting &&
    !h.m_cancelAllOperations && h.m_exitThread

/-- One step of a run; `none` when the step cannot be taken in this state.

* Submitted operations exist and do not carry the reserved sentinel id.
* Sentinels are allocated at distinct addresses the handler does not refer to.
* Events of the worker thread (posted calls, timer events, calls made by an
  operation whose `execute()` has been entered) are delivered only when the
  worker thread is back in its event loop.
* A state entry that would block on the semaphore is not taken. -/
def step (S : System) : Action → Option System
  | .addOperation p =>
    if (S.handler.heap p).vid = KSENTINEL_OPERATION then none
    else (S.handler.addOperation p).map (fun h => { S with handler := h })
  | .addHighPriorityOperation p =>
    if (S.handler.heap p).vid = KSENTINEL_OPERATION then none
    else (S.handler.addHighPriorityOperation p).map (fun h => { S with handler := h })
  | .cancelAllOperations pN pH =>
    if pN = pH ∨ pN ∈ S.handler.referenced ∨ pH ∈ S.handler.referenced then none
    else (S.handler.cancelAllOperations pN pH).map (fun h => { S with handler := h })
  | .terminateThread =>
    some { handler := S.handler.terminateThread, pseudoPermits := S.pseudoPermits + 1 }
  | .doCancelAllOperations =>
    if S.handler.idle ∧ 0 < S.handler.scheduledCancelAll then
      ({ S.handler with scheduledCancelAll := S.handler.scheduledCancelAll - 1 }
        ).doCancelAllOperations.map (fun h => { S with handler := h })
    else none
  | .doCancelOperation aOperationId =>
    if S.handler.idle then
      (S.handler.doCancelOperation aOperationId).map (fun h => { S with handler := h })
    else none
  | .timerEvent event =>
    if S.handler.idle then some { S with handler := S.handler.timerEvent event } else none
  | .started p aTimeout timerId =>
    if S.handler.idle ∧ Event.execute p ∈ S.handler.trace then
      (S.handler.started p aTimeout timerId).map (fun h => { S with handler := h })
    else none
  | .success p =>
    if S.handler.idle ∧ Event.execute p ∈ S.handler.trace then
      some { S with handler := S.handler.success p }
    else none
  | .failed p =>
    if S.handler.idle ∧ Event.execute p ∈ S.handler.trace then
      some { S with handler := S.handler.failed p }
    else none
  | .finished p =>
    if S.handler.idle ∧ Event.execute p ∈ S.handler.trace then
      (S.handler.finished p).map (fun h => { S with handler := h })
    else none
  | .machine timerId =>
    (S.handler.machineStep timerId).map (fun h =>
      { handler := h
        pseudoPermits :=
          if consumesWakeUp S.handler then S.pseudoPermits - 1 else S.pseudoPermits })

/-- A run: the steps are taken in order. -/
def run (S : System) : List Action → Option System
  | [] => some S
  | a :: as =>
    match S.step a with
    | none => none
    | some S1 => run S1 as

end System

/-! ## Invariant of the runs -/

namespace QueueHandler

/-- The posted signals have one of the forms the handler produces: nothing is
posted while a state entry is pending, and otherwise a list that one slot can
have emitted in the active state. -/
def MachineShape (s : QueueHandler) : Prop :=
  s.machineEvents = [] ∨
  (s.machineEntering = false ∧
    (s.machineEvents = [Signal.operationNeeded] ∨
     s.machineEvents = [Signal.emptyQueue, Signal.operationNeeded] ∨
     (s.machineState = MachineState.waiting ∧
       (s.machineEvents = [Signal.operationRetrieved] ∨
        s.machineEvents = [Signal.cleanUpAndExit])) ∨
     (s.machineState = MachineState.exiting ∧
       (s.machineEvents = [Signal.exit] ∨
        s.machineEvents = [Signal.operationNeeded, Signal.exit] ∨
        s.machineEvents = [Signal.emptyQueue, Signal.operationNeeded, Signal.exit]))))

/-- The two states agree on the flags `m_cancelAllOperations` and
`m_exitThread` and on the state machine. -/
def SameControl (s s1 : QueueHandler) : Prop :=
  s1.m_cancelAllOperations = s.m_cancelAllOperations ∧ s1.m_exitThread = s.m_exitThread ∧
  s1.machineState = s.machineState ∧ s1.machineEntering = s.machineEntering ∧
  s1.machineEvents = s.machineEvents

/-- Number of entries of both queues. -/
def queuedCount (s : QueueHandler) : Nat :=
  s.m_normalPriorityQueue.count + s.m_highPriorityQueue.count

/-- Both queues are consistent and hold no null pointer. -/
def QueuesOk (s : QueueHandler) : Prop :=
  ∀ w, (s.queue w).Consistent ∧ (s.queue w).NonNull

/-- The shutdown has been taken up: `cleanUpAndExit` is the one posted signal of
the Waiting state, or the machine is in Exiting or in its final state. -/
def ShuttingDown (s : QueueHandler) : Prop :=
  (s.machineState = MachineState.waiting ∧ s.machineEntering = false ∧
    s.machineEvents = [Signal.cleanUpAndExit]) ∨
  s.machineState = MachineState.exiting ∨ s.machineState = MachineState.exit

end QueueHandler

namespace System

/-- Invariant of the runs of a handler.

* The permits of `m_operationWait` are the entries of both queues plus the
  outstanding pseudo-permits.
* Both queues are consistent and hold no null pointer.
* A sentinel is queued only while `m_cancelAllOperations` is set.
* Pseudo-permits are outstanding only once `m_exitThread` is set.
* The posted signals have one of the forms of `MachineShape`.
* Once `m_exitThread` is set and no pseudo-permit is outstanding, the shutdown
  has been taken up. -/
def Inv (S : System) : Prop :=
  S.handler.m_operationWait = S.handler.queuedCount + S.pseudoPermits ∧
  S.handler.QueuesOk ∧
  (S.handler.m_cancelAllOperations = false →
    ∀ w, KSENTINEL_OPERATION ∉ (S.handler.queue w).m_queue) ∧
  (S.handler.m_exitThread = false → S.pseudoPermits = 0) ∧
  S.handler.MachineShape ∧
  (S.handler.m_exitThread = true → S.pseudoPermits = 0 → S.handler.ShuttingDown)

end System

/-! ## Concrete runs -/

/-- A run over `sampleHeap` in which `cancelAllOperations` is called twice before
the first posted `doCancelAllOperations` runs, up to the moment before the second
posted call runs.

Operation 1 is submitted, dequeued and started (it stays in `execute()`);
operation 2 is submitted; `cancelAllOperations()` is called twice (sentinels at
8, 9 and at 6, 7); operations 3 and 4 are submitted after both calls have
returned; the first posted `doCancelAllOperations()` runs; the worker dequeues
and starts operation 3. -/
def bulkCancelTwiceStart : List Action :=
  [Action.addOperation 1, Action.machine 0, Action.machine 0, Action.machine 11,
   Action.addOperation 2,
   Action.cancelAllOperations 8 9, Action.cancelAllOperations 6 7,
   Action.addOperation 3, Action.addOperation 4,
   Action.doCancelAllOperations,
   Action.machine 0, Action.machine 0, Action.machine 0, Action.machine 12]

/-- The run `bulkCancelTwiceStart` followed by the second posted
`doCancelAllOperations()`. -/
def bulkCancelTwiceRun : List Action :=
  bulkCancelTwiceStart ++ [Action.doCancelAllOperations]

/-- A run over `sampleHeap` in which a bulk-cancelled running operation ends
itself later.

Operation 1 is submitted, dequeued and started (it stays in `execute()`);
`cancelAllOperations()` is called and its posted `doCancelAllOperations()` runs,
which ends operation 1 with status Cancelled; operation 2 is submitted, dequeued
and started; operation 1 then finishes the way the lifecycle contract asks:
`failed()` followed by `finished()`. -/
def staleFinishedAfterBulkCancelRun : List Action :=
  [Action.addOperation 1, Action.machine 0, Action.machine 0, Action.machine 11,
   Action.cancelAllOperations 8 9, Action.doCancelAllOperations,
   Action.machine 0, Action.machine 0,
   Action.addOperation 2, Action.machine 0, Action.machine 0, Action.machine 12,
   Action.failed 1, Action.finished 1]

/-- A run over `sampleHeap` in which a timed-out operation ends itself later.

Operation 1 is submitted, dequeued and started with timer 11 (it stays in
`execute()`); operation 2 is submitted; timer 11 fires, which ends operation 1
with status TimedOut; operation 2 is dequeued and started; operation 1 then
finishes the way the lifecycle contract asks, `success()` followed by
`finished()`; operation 3 is submitted, dequeued and started. -/
def staleFinishedAfterTimeoutRun : List Action :=
  [Action.addOperation 1, Action.machine 0, Action.machine 0, Action.machine 11,
   Action.addOperation 2, Action.timerEvent (some 11),
   Action.machine 0, Action.machine 0, Action.machine 0, Action.machine 12,
   Action.success 1, Action.finished 1,
   Action.addOperation 3,
   Action.machine 0, Action.machine 0, Action.machine 0, Action.machine 0, Action.machine 13]

/-- The run `staleFinishedAfterTimeoutRun` up to the moment at which the
timed-out operation 1 is about to end itself: operation 1 has been ended by
timer 11, operation 2 has been dequeued and started with timer 12. -/
def timedOutThenNextStartedRun : List Action :=
  [Action.addOperation 1, Action.machine 0, Action.machine 0, Action.machine 11,
   Action.addOperation 2, Action.timerEvent (some 11),
   Action.machine 0, Action.machine 0, Action.machine 0, Action.machine 12]

/-- The handler state the run `timedOutThenNextStartedRun` reaches. -/
def sampleAfterTimeout : QueueHandler :=
  match (System.init sampleHeap false 0).run timedOutThenNextStartedRun with
  | some S => S.handler
  | none => sampleHandler

/-- A freshly constructed handler over a heap in which every operation is
observed by the object at address `100` and was constructed with the slot
string `"1done"`, whose callback name `done` carries no parameter signature. -/
def sampleBareSlot : QueueHandler :=
  { sampleHandler with
    heap := fun p => AbstractOperation.new (p : Int) 100 ['1', 'd', 'o', 'n', 'e'] }

/-- A handler about to enter Waiting with a sentinel at the head of both queues
(the sentinel objects at addresses 8 and 9), two permits, neither
`m_cancelAllOperations` nor `m_exitThread` set and one posted
`doCancelAllOperations()`.

The worker thread reaches this state when `cancelAllOperations()` runs on the
caller thread between the two locked sections of a running
`doCancelAllOperations()`: the loops have consumed the earlier sentinels, the
new call queues two sentinels and sets the flag, and the second locked section
then clears the flag. -/
def sampleSentinelHeads : QueueHandler :=
  { sampleHandler with
    heap := Function.update (Function.update sampleHeap 8 SentinelOperation.new) 9
      SentinelOperation.new
    m_operationWait := 2
    m_normalPriorityQueue := { m_queue := [0], m_hash := [(0, 8)] }
    m_highPriorityQueue := { m_queue := [0], m_hash := [(0, 9)] }
    scheduledCancelAll := 1 }

/-- Several processing steps of the state machine in a row. -/
def machineSteps (timerId : Int) : Nat → QueueHandler → Option QueueHandler
  | 0, s => some s
  | n + 1, s =>
    match s.machineStep timerId with
    | none => none
    | some s1 => machineSteps timerId n s1

namespace QueueHandler

/-- Ids that one `while` loop of `doCancelAllOperations` takes off a queue whose
ordered ids are the given list, in that order: the ids up to and including the
first sentinel id, every id when there is no sentinel id. -/
def cancelledIds : List Int → List Int
  | [] => []
  | k :: rest => if k = KSENTINEL_OPERATION then [k] else k :: cancelledIds rest

/-- Ids that the loop leaves in the queue: those behind the first sentinel id,
none when there is no sentinel id. -/
def survivingIds : List Int → List Int
  | [] => []
  | k :: rest => if k = KSENTINEL_OPERATION then rest else survivingIds rest

/-- The heap after `removeOperationFromQueue` has removed the operations `ps`,
one after the other. -/
def cancelledHeapAll (heap : Nat → AbstractOperation) (ps : List Nat) : Nat → AbstractOperation :=
  ps.foldl cancelledHeap heap

/-- Outgoing calls of `removeOperationFromQueue` for the removed operations
`ps`, in that order. -/
def removalEventsAll (s : QueueHandler) : List Nat → List Event
  | [] => []
  | p :: ps => removalEvents s p ++ removalEventsAll s ps

/-- The state in which one `while` loop of `doCancelAllOperations` on the queue
`w` is expected to leave the handler: the ids `cancelledIds` are gone from the
queue and from its hash, the operations the hash held for them have been
removed one after the other, each removal taking a permit. The lemma
`cancelLoop_eq` compares the loop with it. -/
def afterCancelLoop (s : QueueHandler) (w : QueueRef) : QueueHandler :=
  { s.setQueue w
      { m_queue := survivingIds (s.queue w).m_queue
        m_hash := (s.queue w).m_hash.filter
          (fun e => e.1 ∉ cancelledIds (s.queue w).m_queue) } with
    heap := cancelledHeapAll s.heap ((cancelledIds (s.queue w).m_queue).map (s.queue w).value)
    trace := s.trace ++
      removalEventsAll s ((cancelledIds (s.queue w).m_queue).map (s.queue w).value)
    m_operationWait := s.m_operationWait - (cancelledIds (s.queue w).m_queue).length }

end QueueHandler

namespace QueueHandler

/-- Outgoing calls of the last part of `doCancelAllOperations`, behind the two
loops, for the current operation of the state `s`: nothing when there is none,
otherwise its `cancel()` hook, the `killTimer` of an armed timer, its clean-up
hook and its delivery with status Cancelled. -/
def currentCancelEvents (s : QueueHandler) : List Event :=
  if s.m_currentOperation = 0 then []
  else
    Event.cancel s.m_currentOperation ::
      ((if s.m_timerId ≠ 0 then [Event.killTimer s.m_timerId] else []) ++
        Event.cleanThreadSpecificResources s.m_currentOperation ::
          deliveryEvents (s.heap s.m_currentOperation) s.m_currentOperation OperationCancelled)

end QueueHandler

namespace QueueHandler

/-- The operations one `while` loop of `doCancelAllOperations` removes from the
queue `w`, in that order: those the hash holds for the ids `cancelledIds`. -/
def removedOperations (s : QueueHandler) (w : QueueRef) : List Nat :=
  (cancelledIds (s.queue w).m_queue).map (s.queue w).value

/-- The operations the queue `w` holds, head first. -/
def queuedOperations (s : QueueHandler) (w : QueueRef) : List Nat :=
  (s.queue w).m_queue.map (s.queue w).value

end QueueHandler

/-- A run over `sampleHeap` in which the thread is terminated while an operation
executes.

Operation 1 is submitted, dequeued and started (it stays in `execute()`);
operation 3 is submitted to the normal queue and operation 7 to the
high-priority queue; `terminateThread()` is called; operation 1 ends itself with
`success()` and `finished()`, and the state machine returns to Waiting, whose
entry is about to run. -/
def shutdownWhileRunningRun : List Action :=
  [Action.addOperation 1, Action.machine 0, Action.machine 0, Action.machine 11,
   Action.addOperation 3, Action.addHighPriorityOperation 7, Action.terminateThread,
   Action.success 1, Action.finished 1, Action.machine 0]

/-- The state the run `shutdownWhileRunningRun` reaches. -/
def sampleShutdown : System :=
  match (System.init sampleHeap false 0).run shutdownWhileRunningRun with
  | some S => S
  | none => System.init sampleHeap false 0

/-- A handler over `sampleHeap` after `cancelAllOperations()`: operations 1 and 2
wait in the normal queue and operation 5 in the high-priority queue, each
followed by a sentinel (the objects at addresses 8 and 9); operations 3 and 6
were submitted after the call; operation 4 is current with timer 11 armed. -/
def sampleBulkCancel : QueueHandler :=
  { sampleHandler with
    heap := Function.update (Function.update sampleHeap 8 SentinelOperation.new) 9
      SentinelOperation.new
    m_operationWait := 7
    m_cancelAllOperations := true
    m_normalPriorityQueue :=
      { m_queue := [1, 2, 0, 3], m_hash := [(1, 1), (2, 2), (0, 8), (3, 3)] }
    m_highPriorityQueue := { m_queue := [5, 0, 6], m_hash := [(5, 5), (0, 9), (6, 6)] }
    m_currentOperation := 4
    m_timerId := 11
    machineState := MachineState.processing
    machineEntering := false
    scheduledCancelAll := 1 }

/-- A run over `sampleHeap` in which one operation object is submitted to both
queues around a bulk cancellation, up to the moment before the posted
`doCancelAllOperations()` runs.

Operation 3 is submitted to the high-priority queue; `cancelAllOperations()` is
called (sentinels at 8 and 9); operation 3 is submitted again, to the normal
queue; the pending Waiting entry runs and finds `m_cancelAllOperations` set. -/
def sharedOperationStart : List Action :=
  [Action.addHighPriorityOperation 3, Action.cancelAllOperations 8 9, Action.addOperation 3,
   Action.machine 0]

/-- The run `sharedOperationStart` followed by the posted
`doCancelAllOperations()`. -/
def sharedOperationRun : List Action :=
  sharedOperationStart ++ [Action.doCancelAllOperations]

/-- A run over `sampleHeap` after which one operation object waits in both
queues.

Operation 1 is submitted, dequeued and started (it stays in `execute()`);
operation 3 is submitted with `addOperation` and then with
`addHighPriorityOperation`, which looks for an earlier instance in the
high-priority queue only. -/
def sharedInBothQueuesStart : List Action :=
  [Action.addOperation 1, Action.machine 0, Action.machine 0, Action.machine 11,
   Action.addOperation 3, Action.addHighPriorityOperation 3]

/-- The run `sharedInBothQueuesStart` followed by the posted
`doCancelOperation(3)`. -/
def sharedCancelByIdRun : List Action :=
  sharedInBothQueuesStart ++ [Action.doCancelOperation 3]

/-- The run `sharedInBothQueuesStart` followed by `terminateThread()` and the end
of operation 1 (`success()`, `finished()`), up to the moment at which the Waiting
entry is about to run. -/
def sharedShutdownStart : List Action :=
  sharedInBothQueuesStart ++
    [Action.terminateThread, Action.success 1, Action.finished 1, Action.machine 0]

/-- The run `sharedShutdownStart` followed by the Waiting entry, the transition
to Exiting and the Exiting entry. -/
def sharedShutdownRun : List Action :=
  sharedShutdownStart ++ [Action.machine 0, Action.machine 0, Action.machine 0]

/-- The run `sharedInBothQueuesStart` followed by `cancelAllOperations()`
(sentinels at 8 and 9). -/
def sharedBulkCancelStart : List Action :=
  sharedInBothQueuesStart ++ [Action.cancelAllOperations 8 9]

/-- The run `sharedBulkCancelStart` followed by the posted
`doCancelAllOperations()`. -/
def sharedBulkCancelRun : List Action :=
  sharedBulkCancelStart ++ [Action.doCancelAllOperations]

/-- The state `sampleSentinelHeads` after operation 3 has been submitted to the
normal queue and `terminateThread()` has been called: the Waiting entry is
pending, `m_exitThread` is set, `m_cancelAllOperations` is not, the normal queue
holds the sentinel followed by operation 3, the high-priority queue holds the
sentinel, and the semaphore holds the three permits of the entries and the
wake-up permit. -/
def sampleSentinelShutdown : QueueHandler :=
  { sampleHandler with
    heap := Function.update (Function.update sampleHeap 8 SentinelOperation.new) 9
      SentinelOperation.new
    m_operationWait := 4
    m_exitThread := true
    m_normalPriorityQueue := { m_queue := [0, 3], m_hash := [(0, 8), (3, 3)] }
    m_highPriorityQueue := { m_queue := [0], m_hash := [(0, 9)] }
    scheduledCancelAll := 1 }

/-! ## Lemmas on the hash and on `OperationsQueue` -/

theorem QHash.mem_keys_filter (h : QHash) (k k' : Int) :
    k' ∈ QHash.keys (h.filter (fun e => e.1 ≠ k)) ↔ k' ≠ k ∧ k' ∈ QHash.keys h := by
  simp only [QHash.keys, List.mem_map, List.mem_filter, decide_eq_true_eq]
  constructor
  · rintro ⟨e, ⟨he, hne⟩, rfl⟩
    exact ⟨hne, e, he, rfl⟩
  · rintro ⟨hne, e, he, rfl⟩
    exact ⟨e, ⟨he, hne⟩, rfl⟩

theorem QHash.lookup_eq_none_of_not_mem (h : QHash) (k : Int) (hk : k ∉ QHash.keys h) :
    h.lookup k = none := by
  induction h with
  | nil => rfl
  | cons e t ih =>
    obtain ⟨a, b⟩ := e
    simp only [QHash.keys, List.map_cons, List.mem_cons, not_or] at hk
    have hak : (k == a) = false := by
      simpa using hk.1
    simp only [List.lookup_cons, hak]
    exact ih hk.2

theorem QHash.lookup_mem (h : QHash) (k : Int) (hk : k ∈ QHash.keys h) :
    ∃ v, h.lookup k = some v ∧ (k, v) ∈ h := by
  induction h with
  | nil => simp [QHash.keys] at hk
  | cons e t ih =>
    obtain ⟨a, b⟩ := e
    by_cases hak : k = a
    · subst hak
      exact ⟨b, by simp, by simp⟩
    · have hb : (k == a) = false := by simpa using hak
      simp only [QHash.keys, List.map_cons, List.mem_cons, hak, false_or] at hk
      obtain ⟨v, hv, hm⟩ := ih hk
      exact ⟨v, by simp only [List.lookup_cons, hb]; exact hv, List.mem_cons_of_mem _ hm⟩

theorem QHash.lookup_filter_ne (h : QHash) (k k' : Int) (hne : k' ≠ k) :
    (h.filter (fun e => e.1 ≠ k)).lookup k' = h.lookup k' := by
  induction h with
  | nil => rfl
  | cons e t ih =>
    obtain ⟨a, b⟩ := e
    by_cases hak : a = k
    · subst hak
      have hb : (k' == a) = false := by simpa using hne
      have hf : ¬ (decide ((a, b).1 ≠ a) = true) := by simp
      rw [@List.filter_cons_of_neg _ (fun e : Int × Nat => decide (e.1 ≠ a)) (a, b) t hf,
        List.lookup_cons, hb]
      exact ih
    · have hf : decide ((a, b).1 ≠ k) = true := by simpa using hak
      rw [@List.filter_cons_of_pos _ (fun e : Int × Nat => decide (e.1 ≠ k)) (a, b) t hf]
      by_cases hk' : k' = a
      · subst hk'
        simp only [List.lookup_cons_self]
      · have hb : (k' == a) = false := by simpa using hk'
        simp only [List.lookup_cons, hb]
        exact ih

theorem QHash.lookup_insert_ne (h : QHash) (k k' : Int) (v : Nat) (hne : k' ≠ k) :
    (h.insert k v).lookup k' = h.lookup k' := by
  have hb : (k' == k) = false := by simpa using hne
  simp only [QHash.insert, List.lookup_append, QHash.lookup_filter_ne h k k' hne]
  cases h.lookup k' <;> simp [List.lookup_cons, hb]

theorem QHash.mem_keys_insert (h : QHash) (k k' : Int) (v : Nat) :
    k' ∈ QHash.keys (h.insert k v) ↔ k' = k ∨ k' ∈ QHash.keys h := by
  have h1 := QHash.mem_keys_filter h k k'
  simp only [QHash.keys] at h1 ⊢
  simp only [QHash.insert, List.map_append, List.mem_append, h1, List.map_cons, List.map_nil,
    List.mem_singleton]
  constructor
  · rintro (⟨_, hm⟩ | he)
    · exact Or.inr hm
    · exact Or.inl he
  · rintro (he | hm)
    · exact Or.inr he
    · by_cases hk : k' = k
      · exact Or.inr hk
      · exact Or.inl ⟨hk, hm⟩

namespace OperationsQueue

theorem empty_consistent : OperationsQueue.empty.Consistent := by
  simp [Consistent, OperationsQueue.empty, QHash.keys]

theorem remove_consistent (q : OperationsQueue) (k : Int) (hq : q.Consistent) :
    (q.remove k).2.Consistent := by
  obtain ⟨hnd, h1, h2⟩ := hq
  refine ⟨hnd.erase k, ?_, ?_⟩
  · intro k' hk'
    have := (List.Nodup.mem_erase_iff hnd).mp hk'
    exact (QHash.mem_keys_filter _ _ _).mpr ⟨this.1, h1 _ this.2⟩
  · intro k' hk'
    have := (QHash.mem_keys_filter _ _ _).mp hk'
    exact (List.Nodup.mem_erase_iff hnd).mpr ⟨this.1, h2 _ this.2⟩

theorem enqueue_consistent (q : OperationsQueue) (k : Int) (p : Nat) (hq : q.Consistent)
    (hk : k ∉ q.m_queue) : (q.enqueue k p).Consistent := by
  obtain ⟨hnd, h1, h2⟩ := hq
  refine ⟨?_, ?_, ?_⟩
  · show (q.m_queue ++ [k]).Nodup
    rw [List.nodup_append]
    refine ⟨hnd, List.nodup_singleton k, ?_⟩
    intro a ha hak
    rw [List.mem_singleton] at hak
    exact hk (hak ▸ ha)
  · intro k' hk'
    have hk'' : k' ∈ q.m_queue ++ [k] := hk'
    rw [List.mem_append, List.mem_singleton] at hk''
    apply (QHash.mem_keys_insert _ _ _ _).mpr
    rcases hk'' with hm | he
    · exact Or.inr (h1 _ hm)
    · exact Or.inl he
  · intro k' hk'
    have := (QHash.mem_keys_insert _ _ _ _).mp hk'
    show k' ∈ q.m_queue ++ [k]
    rw [List.mem_append, List.mem_singleton]
    rcases this with he | hm
    · exact Or.inr he
    · exact Or.inl (h2 _ hm)

theorem dequeue_consistent (q : OperationsQueue) (hq : q.Consistent) :
    q.dequeue.2.Consistent := by
  obtain ⟨hnd, h1, h2⟩ := hq
  cases hmq : q.m_queue with
  | nil =>
    simp only [dequeue, hmq]
    exact ⟨hmq ▸ hnd, hmq ▸ h1, hmq ▸ h2⟩
  | cons a t =>
    simp only [dequeue, hmq, QHash.take]
    rw [hmq] at hnd h1 h2
    have hat := (List.nodup_cons.mp hnd)
    refine ⟨hat.2, ?_, ?_⟩
    · intro k' hk'
      apply (QHash.mem_keys_filter _ _ _).mpr
      refine ⟨?_, h1 _ (List.mem_cons_of_mem _ hk')⟩
      rintro rfl
      exact hat.1 hk'
    · intro k' hk'
      have := (QHash.mem_keys_filter _ _ _).mp hk'
      rcases List.mem_cons.mp (h2 _ this.2) with he | hm
      · exact absurd he this.1
      · exact hm

end OperationsQueue

namespace QueueOp

theorem apply_consistent (q : OperationsQueue) (op : QueueOp) (hq : q.Consistent)
    (hf : Fresh q op) : (apply q op).Consistent := by
  cases op with
  | enqueue aId aOp =>
    apply OperationsQueue.enqueue_consistent _ _ _ hq
    simpa [Fresh, OperationsQueue.contains] using hf
  | add aId aOp =>
    apply OperationsQueue.enqueue_consistent _ _ _ hq
    simpa [Fresh, OperationsQueue.contains] using hf
  | dequeue => exact OperationsQueue.dequeue_consistent q hq
  | remove aId => exact OperationsQueue.remove_consistent q aId hq

theorem applyAll_consistent (ops : List QueueOp) (q : OperationsQueue) (hq : q.Consistent)
    (hf : AllFresh q ops) : (applyAll q ops).Consistent := by
  induction ops generalizing q with
  | nil => exact hq
  | cons op ops ih => exact ih _ (apply_consistent q op hq hf.1) hf.2

end QueueOp

/-! ## Lemmas on the handler state -/

namespace QueueHandler

@[simp] theorem queue_setQueue_same (s : QueueHandler) (w : QueueRef) (q : OperationsQueue) :
    (s.setQueue w q).queue w = q := by
  cases w <;> rfl

theorem queue_setQueue_other (s : QueueHandler) (w w' : QueueRef) (q : OperationsQueue)
    (h : w' ≠ w) : (s.setQueue w q).queue w' = s.queue w' := by
  cases w <;> cases w' <;> first | rfl | exact absurd rfl h

@[simp] theorem heap_setQueue (s : QueueHandler) (w : QueueRef) (q : OperationsQueue) :
    (s.setQueue w q).heap = s.heap := by
  cases w <;> rfl

@[simp] theorem queue_modifyOp (s : QueueHandler) (p : Nat)
    (f : AbstractOperation → AbstractOperation) (w : QueueRef) :
    (s.modifyOp p f).queue w = s.queue w := by
  cases w <;> rfl

@[simp] theorem heap_modifyOp (s : QueueHandler) (p : Nat)
    (f : AbstractOperation → AbstractOperation) :
    (s.modifyOp p f).heap = Function.update s.heap p (f (s.heap p)) := rfl

theorem filter_ne_of_not_mem (heap : Nat → AbstractOperation) (L : List Nat) (k : Int)
    (hk : k ∉ L.map (fun p => (heap p).vid)) :
    (L.map (fun p => ((heap p).vid, p))).filter (fun e => e.1 ≠ k) =
      L.map (fun p => ((heap p).vid, p)) := by
  rw [List.filter_eq_self]
  intro e he
  rw [List.mem_map] at he
  obtain ⟨p, hp, rfl⟩ := he
  simp only [ne_eq, decide_not, Bool.not_eq_eq_eq_not, Bool.not_true, decide_eq_false_iff_not]
  intro hh
  exact hk (List.mem_map.mpr ⟨p, hp, hh⟩)

theorem lookup_of_not_mem (heap : Nat → AbstractOperation) (L : List Nat) (k : Int)
    (hk : k ∉ L.map (fun p => (heap p).vid)) :
    (L.map (fun p => ((heap p).vid, p))).lookup k = none := by
  apply QHash.lookup_eq_none_of_not_mem
  simpa [QHash.keys, List.map_map, Function.comp_def] using hk

theorem setQueue_queue (s : QueueHandler) (w : QueueRef) :
    s.setQueue w { m_queue := (s.queue w).m_queue, m_hash := (s.queue w).m_hash } = s := by
  cases w <;> rfl

theorem QHash_filter_of_not_mem (h : QHash) (k : Int) (hk : k ∉ QHash.keys h) :
    h.filter (fun e => e.1 ≠ k) = h := by
  rw [List.filter_eq_self]
  intro e he
  simp only [ne_eq, decide_not, Bool.not_eq_eq_eq_not, Bool.not_true, decide_eq_false_iff_not]
  intro hh
  exact hk (List.mem_map.mpr ⟨e, he, hh⟩)

theorem removeOperationFromQueue_absent (s : QueueHandler) (w : QueueRef) (k : Int)
    (hq : k ∉ (s.queue w).m_queue) (hh : k ∉ QHash.keys (s.queue w).m_hash) :
    s.removeOperationFromQueue k w = some s := by
  simp only [removeOperationFromQueue, OperationsQueue.remove, QHash.take,
    QHash.lookup_eq_none_of_not_mem _ _ hh, Option.getD_none, ne_eq, not_true_eq_false,
    ↓reduceIte, QHash_filter_of_not_mem _ _ hh, List.erase_of_not_mem hq, setQueue_queue]

theorem addOperationToQueue_holds (s : QueueHandler) (w : QueueRef) (L : List Nat) (p : Nat)
    (hL : s.Holds w L) (hp : p ≠ 0) (hk : (s.heap p).vid ∉ L.map (fun q => (s.heap q).vid)) :
    ∃ s1, s.addOperationToQueue p w = some s1 ∧ s1.Holds w (L ++ [p]) ∧
      ∀ q, (s1.heap q).vid = (s.heap q).vid := by
  obtain ⟨hq, hh⟩ := hL
  have hkeys : (s.heap p).vid ∉ QHash.keys (s.queue w).m_hash := by
    simpa [QHash.keys, hh, List.map_map, Function.comp_def] using hk
  have hfilt := QHash_filter_of_not_mem _ _ hkeys
  have hrem : s.removeOperationFromQueue (s.heap p).vid w = some s :=
    removeOperationFromQueue_absent s w _ (hq ▸ hk) hkeys
  have hvid : ∀ q, ((Function.update (Function.update s.heap p (s.heap p).setQueueHandler) p
      (((Function.update s.heap p (s.heap p).setQueueHandler) p).setStatus
        OperationNotStarted)) q).vid = (s.heap q).vid := by
    intro q
    by_cases hqp : q = p
    · subst hqp
      simp [AbstractOperation.setStatus, AbstractOperation.setQueueHandler]
    · simp [Function.update_noteq hqp]
  refine ⟨((s.setQueue w ((s.queue w).enqueue (s.heap p).vid p)).modifyOp p
      AbstractOperation.setQueueHandler).modifyOp p (fun o => o.setStatus OperationNotStarted),
    ?_, ⟨?_, ?_⟩, ?_⟩
  · simp only [addOperationToQueue, hp, ↓reduceIte, hrem]
  · simp only [queue_modifyOp, queue_setQueue_same, heap_modifyOp, heap_setQueue,
      OperationsQueue.enqueue, hq, List.map_append, List.map_cons, List.map_nil, hvid]
  · rw [hh] at hfilt
    simp only [queue_modifyOp, queue_setQueue_same, heap_modifyOp, heap_setQueue,
      OperationsQueue.enqueue, QHash.insert, hh, hfilt, List.map_append, List.map_cons,
      List.map_nil, hvid]
  · intro q
    simp only [heap_modifyOp, heap_setQueue, hvid]

theorem submitAll_holds (ops : List Nat) (s : QueueHandler) (w : QueueRef) (L : List Nat)
    (hL : s.Holds w L) (hnn : ∀ p ∈ ops, p ≠ 0)
    (hnd : ((L ++ ops).map (fun p => (s.heap p).vid)).Nodup) :
    ∃ s1, s.submitAll w ops = some s1 ∧ s1.Holds w (L ++ ops) ∧
      ∀ q, (s1.heap q).vid = (s.heap q).vid := by
  induction ops generalizing s L with
  | nil => exact ⟨s, rfl, by simpa using hL, fun _ => rfl⟩
  | cons p ps ih =>
    have hk : (s.heap p).vid ∉ L.map (fun q => (s.heap q).vid) := by
      intro hmem
      rw [List.map_append, List.map_cons, List.nodup_append] at hnd
      exact hnd.2.2 hmem (List.mem_cons_self _ _)
    obtain ⟨s1, h1, hL1, hv1⟩ :=
      addOperationToQueue_holds s w L p hL (hnn p (List.mem_cons_self _ _)) hk
    have hfun : (fun p => (s1.heap p).vid) = (fun p => (s.heap p).vid) := funext hv1
    obtain ⟨s2, h2, hL2, hv2⟩ := ih s1 (L ++ [p]) hL1
      (fun q hq => hnn q (List.mem_cons_of_mem _ hq))
      (by rw [hfun]; simpa using hnd)
    refine ⟨s2, ?_, by simpa using hL2, fun q => (hv2 q).trans (hv1 q)⟩
    simp only [submitAll, h1, h2]

theorem dequeueOperation_nil (s : QueueHandler) (w : QueueRef) (hL : s.Holds w []) :
    s.dequeueOperation w = (0, s) := by
  have hq : (s.queue w).m_queue = [] := hL.1
  simp [dequeueOperation, OperationsQueue.count, hq]

theorem dequeueOperation_cons (s : QueueHandler) (w : QueueRef) (p : Nat) (L : List Nat)
    (hL : s.Holds w (p :: L)) (hid : (s.heap p).vid ≠ KSENTINEL_OPERATION)
    (hnd : ((p :: L).map (fun q => (s.heap q).vid)).Nodup) :
    (s.dequeueOperation w).1 = p ∧ (s.dequeueOperation w).2.Holds w L ∧
      (s.dequeueOperation w).2.heap = s.heap := by
  obtain ⟨hq, hh⟩ := hL
  rw [List.map_cons] at hq hh hnd
  have hk : (s.heap p).vid ∉ L.map (fun q => (s.heap q).vid) := (List.nodup_cons.mp hnd).1
  have hkeys : (s.heap p).vid ∉ QHash.keys (L.map (fun q => ((s.heap q).vid, q))) := by
    simpa [QHash.keys, List.map_map, Function.comp_def] using hk
  have hfilt := QHash_filter_of_not_mem _ _ hkeys
  have hne : ¬ (decide ((s.heap p).vid ≠ (s.heap p).vid) = true) := by simp
  have hd : s.dequeueOperation w =
      (p, s.setQueue w { m_queue := L.map (fun q => (s.heap q).vid),
                         m_hash := L.map (fun q => ((s.heap q).vid, q)) }) := by
    simp only [dequeueOperation, OperationsQueue.count, hq, List.length_cons, ne_eq,
      Nat.add_one_ne_zero, not_false_eq_true, ↓reduceIte, OperationsQueue.head, List.head?_cons,
      Option.some.injEq, hid, OperationsQueue.dequeue, QHash.take, hh, List.lookup_cons_self,
      Option.getD_some]
    rw [@List.filter_cons_of_neg _ (fun e : Int × Nat => decide (e.1 ≠ (s.heap p).vid))
      ((s.heap p).vid, p) _ hne, hfilt]
  rw [hd]
  exact ⟨rfl, ⟨by simp, by simp⟩, by simp⟩

theorem dequeueMany_holds (L : List Nat) (s : QueueHandler) (w : QueueRef) (m : Nat)
    (hL : s.Holds w L) (hid : ∀ p ∈ L, (s.heap p).vid ≠ KSENTINEL_OPERATION)
    (hnd : (L.map (fun q => (s.heap q).vid)).Nodup) :
    (dequeueMany w (L.length + m) s).1 = L ++ List.replicate m 0 := by
  induction L generalizing s with
  | nil =>
    simp only [List.length_nil, Nat.zero_add, List.nil_append]
    induction m with
    | zero => rfl
    | succ m ihm =>
      simp only [dequeueMany, dequeueOperation_nil s w hL, ihm, List.replicate_succ]
  | cons p L ih =>
    obtain ⟨h1, h2, h3⟩ := dequeueOperation_cons s w p L hL
      (hid p (List.mem_cons_self _ _)) hnd
    have hlen : (p :: L).length + m = (L.length + m) + 1 := by
      simp only [List.length_cons]; omega
    rw [hlen]
    simp only [dequeueMany, h1, List.cons_append, List.cons.injEq, true_and]
    apply ih _ h2
    · intro q hq
      rw [h3]
      exact hid q (List.mem_cons_of_mem _ hq)
    · rw [h3]
      exact (List.nodup_cons.mp hnd).2

end QueueHandler

open QueueHandler

/-! ## C8 : consistency of `OperationsQueue` -/

/-- C8 (counterexample): enqueueing id 5 twice and dequeueing once leaves id 5 in
`m_queue` while `m_hash` is empty, so the ids of the ordered queue and the keys
of the mapping differ, and `count()` is not 0 although the mapping is empty. -/
theorem operationsQueue_reenqueue_breaks_consistency :
    ¬ ((∀ k, k ∈ (QueueOp.applyAll OperationsQueue.empty
            [QueueOp.enqueue 5 1, QueueOp.enqueue 5 2, QueueOp.dequeue]).m_queue ↔
          k ∈ QHash.keys (QueueOp.applyAll OperationsQueue.empty
            [QueueOp.enqueue 5 1, QueueOp.enqueue 5 2, QueueOp.dequeue]).m_hash) ∧
       ((QueueOp.applyAll OperationsQueue.empty
            [QueueOp.enqueue 5 1, QueueOp.enqueue 5 2, QueueOp.dequeue]).count = 0 ↔
          (QueueOp.applyAll OperationsQueue.empty
            [QueueOp.enqueue 5 1, QueueOp.enqueue 5 2, QueueOp.dequeue]).m_hash = [])) := by
  intro h
  have h5 := (h.1 5).mp (by decide)
  revert h5
  decide

/-- C8 (amended): starting from the empty `OperationsQueue`, after every sequence
of enqueue/add, dequeue and remove calls in which each enqueue/add inserts an id
that is not in the queue at that moment, the ids in `m_queue` are exactly the
keys of `m_hash`, no id occurs twice in `m_queue`, and `count()` is 0 exactly
when the mapping is empty. -/
theorem operationsQueue_consistent_of_fresh_inserts (ops : List QueueOp)
    (hf : QueueOp.AllFresh OperationsQueue.empty ops) :
    (∀ k, k ∈ (QueueOp.applyAll OperationsQueue.empty ops).m_queue ↔
        k ∈ QHash.keys (QueueOp.applyAll OperationsQueue.empty ops).m_hash) ∧
    (QueueOp.applyAll OperationsQueue.empty ops).m_queue.Nodup ∧
    ((QueueOp.applyAll OperationsQueue.empty ops).count = 0 ↔
        (QueueOp.applyAll OperationsQueue.empty ops).m_hash = []) := by
  obtain ⟨hnd, h1, h2⟩ :=
    QueueOp.applyAll_consistent ops OperationsQueue.empty OperationsQueue.empty_consistent hf
  refine ⟨fun k => ⟨h1 k, h2 k⟩, hnd, ?_, ?_⟩
  · intro hc
    have hq : (QueueOp.applyAll OperationsQueue.empty ops).m_queue = [] :=
      List.length_eq_zero.mp hc
    cases hh : (QueueOp.applyAll OperationsQueue.empty ops).m_hash with
    | nil => rfl
    | cons e t =>
      have := h2 e.1 (by simp [QHash.keys, hh])
      rw [hq] at this
      exact absurd this (List.not_mem_nil _)
  · intro hh
    cases hq : (QueueOp.applyAll OperationsQueue.empty ops).m_queue with
    | nil => simp [OperationsQueue.count, hq]
    | cons a t =>
      have := h1 a (by simp [hq])
      rw [hh] at this
      exact absurd this (by simp [QHash.keys])

/-- Witness for C8 (amended): two insertions, a removal, a new insertion of the
removed id and a dequeue. -/
theorem operationsQueue_consistent_of_fresh_inserts_witness :
    QueueOp.AllFresh OperationsQueue.empty
      [QueueOp.enqueue 5 1, QueueOp.add 6 2, QueueOp.remove 5, QueueOp.enqueue 5 3,
        QueueOp.dequeue] ∧
    ((∀ k, k ∈ (QueueOp.applyAll OperationsQueue.empty
          [QueueOp.enqueue 5 1, QueueOp.add 6 2, QueueOp.remove 5, QueueOp.enqueue 5 3,
            QueueOp.dequeue]).m_queue ↔
        k ∈ QHash.keys (QueueOp.applyAll OperationsQueue.empty
          [QueueOp.enqueue 5 1, QueueOp.add 6 2, QueueOp.remove 5, QueueOp.enqueue 5 3,
            QueueOp.dequeue]).m_hash) ∧
    (QueueOp.applyAll OperationsQueue.empty
          [QueueOp.enqueue 5 1, QueueOp.add 6 2, QueueOp.remove 5, QueueOp.enqueue 5 3,
            QueueOp.dequeue]).m_queue.Nodup ∧
    ((QueueOp.applyAll OperationsQueue.empty
          [QueueOp.enqueue 5 1, QueueOp.add 6 2, QueueOp.remove 5, QueueOp.enqueue 5 3,
            QueueOp.dequeue]).count = 0 ↔
        (QueueOp.applyAll OperationsQueue.empty
          [QueueOp.enqueue 5 1, QueueOp.add 6 2, QueueOp.remove 5, QueueOp.enqueue 5 3,
            QueueOp.dequeue]).m_hash = [])) :=
  ⟨by decide, operationsQueue_consistent_of_fresh_inserts _ (by decide)⟩

/-! ## C1 : submission order within one queue -/

/-- C1: operations with pairwise distinct non-zero ids, submitted in a row to an
empty queue through `addOperationToQueue`, are returned by the following
`dequeueOperation` calls on that queue in submission order; every further call
returns the null pointer. -/
theorem submission_order_preserved (s : QueueHandler) (w : QueueRef) (ops : List Nat) (m : Nat)
    (hempty : s.queue w = OperationsQueue.empty)
    (hnn : ∀ p ∈ ops, p ≠ 0)
    (hid : ∀ p ∈ ops, (s.heap p).vid ≠ KSENTINEL_OPERATION)
    (hnd : (ops.map (fun p => (s.heap p).vid)).Nodup) :
    ∃ s1, s.submitAll w ops = some s1 ∧
      (dequeueMany w (ops.length + m) s1).1 = ops ++ List.replicate m 0 := by
  have hL : s.Holds w [] := by
    simp [Holds, hempty, OperationsQueue.empty]
  obtain ⟨s1, h1, hL1, hv1⟩ := submitAll_holds ops s w [] hL hnn (by simpa using hnd)
  have hfun : (fun p => (s1.heap p).vid) = (fun p => (s.heap p).vid) := funext hv1
  refine ⟨s1, h1, ?_⟩
  apply dequeueMany_holds ops s1 w m (by simpa using hL1)
  · intro p hp
    rw [hv1]
    exact hid p hp
  · rw [hfun]
    exact hnd

/-- Witness for C1: operations 3, 1, 2 submitted to the normal queue of a fresh
handler, followed by five dequeue calls. -/
theorem submission_order_preserved_witness :
    sampleHandler.queue QueueRef.normal = OperationsQueue.empty ∧
    (∀ p ∈ [3, 1, 2], p ≠ 0) ∧
    (∀ p ∈ [3, 1, 2], (sampleHandler.heap p).vid ≠ KSENTINEL_OPERATION) ∧
    ([3, 1, 2].map (fun p => (sampleHandler.heap p).vid)).Nodup ∧
    ∃ s1, sampleHandler.submitAll QueueRef.normal [3, 1, 2] = some s1 ∧
      (dequeueMany QueueRef.normal ([3, 1, 2].length + 2) s1).1 = [3, 1, 2] ++ List.replicate 2 0 :=
  ⟨rfl, by decide, by decide, by decide,
    submission_order_preserved sampleHandler QueueRef.normal [3, 1, 2] 2 rfl (by decide)
      (by decide) (by decide)⟩

theorem AbstractOperation.status_setStatus (o : AbstractOperation) (a : Nat)
    (ha : a &&& MASK_OperationStatus = a) : (o.setStatus a).status = a := by
  have hm : MASK_OperationCustomStatusCode &&& MASK_OperationStatus = 0 := by decide
  show (a ||| (MASK_OperationCustomStatusCode &&& o.m_status)) &&& MASK_OperationStatus = a
  rw [Nat.and_distrib_right, ha, Nat.and_comm MASK_OperationCustomStatusCode o.m_status,
    Nat.and_assoc, hm, Nat.and_zero, Nat.or_zero]

@[simp] theorem AbstractOperation.setStatus_observer (o : AbstractOperation) (a : Nat) :
    (o.setStatus a).m_observer = o.m_observer := rfl

@[simp] theorem AbstractOperation.setStatus_slot (o : AbstractOperation) (a : Nat) :
    (o.setStatus a).m_slotToBeCalled = o.m_slotToBeCalled := rfl

@[simp] theorem AbstractOperation.setStatus_vid (o : AbstractOperation) (a : Nat) :
    (o.setStatus a).vid = o.vid := rfl

namespace QueueHandler

theorem endOperation_eq (s : QueueHandler) (p : Nat) (hp : p ≠ 0) :
    s.endOperation p =
      { s with trace := s.trace ++ deliveryEvents (s.heap p) p (s.heap p).status } := by
  unfold endOperation deliveryEvents
  by_cases hobs : (s.heap p).m_observer = 0
  · simp [hp, hobs, log]
  · simp [hp, hobs, log]

theorem dequeueOperation_head (s : QueueHandler) (w : QueueRef) (hid : Int) (rest : List Int)
    (hq : (s.queue w).m_queue = hid :: rest) (hsent : hid ≠ KSENTINEL_OPERATION) :
    s.dequeueOperation w =
      (((s.queue w).m_hash.lookup hid).getD 0,
        s.setQueue w { m_queue := rest,
                       m_hash := (s.queue w).m_hash.filter (fun e => e.1 ≠ hid) }) := by
  simp only [dequeueOperation, OperationsQueue.count, hq, List.length_cons, ne_eq,
    Nat.add_one_ne_zero, not_false_eq_true, ↓reduceIte, OperationsQueue.head, List.head?_cons,
    Option.some.injEq, hsent, OperationsQueue.dequeue, QHash.take]

/-! ## C2 : strict priority -/

/-- C2: when neither `m_cancelAllOperations` nor `m_exitThread` is set, a permit
is available, and the head of the high-priority queue is an operation `H` (its
id is not the sentinel id and the hash maps it to the non-null `H`), `onWaiting`
makes `H` the current operation whatever the normal-priority queue holds, takes
it off the high-priority queue, leaves the normal-priority queue unchanged, sets
`m_currentOperationCanContinue` and emits `operationRetrieved` only. -/
theorem onWaiting_prefers_high_priority (s : QueueHandler) (hid : Int) (rest : List Int)
    (H : Nat)
    (hc : s.m_cancelAllOperations = false) (he : s.m_exitThread = false)
    (hperm : 0 < s.m_operationWait)
    (hq : s.m_highPriorityQueue.m_queue = hid :: rest)
    (hsent : hid ≠ KSENTINEL_OPERATION)
    (hH : s.m_highPriorityQueue.m_hash.lookup hid = some H) (hnn : H ≠ 0) :
    ∃ s1, s.onWaiting = some s1 ∧ s1.m_currentOperation = H ∧
      s1.m_normalPriorityQueue = s.m_normalPriorityQueue ∧
      s1.m_highPriorityQueue.m_queue = rest ∧
      s1.m_currentOperationCanContinue = true ∧
      s1.trace = s.trace ++ [Event.emit Signal.operationRetrieved] := by
  have hperm1 : 1 ≤ s.m_operationWait := hperm
  simp [onWaiting, acquire, hperm1, hc, he, dequeueOperation, OperationsQueue.count,
    OperationsQueue.head, hq, hsent, OperationsQueue.dequeue, QHash.take, hH, hnn, setQueue,
    queue, emit, setCurrentOperationCanContinue]

end QueueHandler

namespace QueueHandler

/-! ## C10 : timeout of the current operation -/

/-- C10: when the armed timer (`m_timerId ≠ 0`) fires while an operation `C` is
current, `timerEvent` sets the status of `C` to TimedOut, calls `C.cancel()`
once, delivers the completion of `C` once with status TimedOut, clears
`m_currentOperation` and `m_timerId`, leaves both queues unchanged and emits
`operationNeeded` (after `emptyQueue` when both queues are empty); a timer event
with another id, a null event, or an event arriving without current operation
leaves the handler unchanged. -/
theorem timerEvent_ends_current (s : QueueHandler) (event : Option Int) :
    (s.m_currentOperation ≠ 0 → s.m_timerId ≠ 0 → event = some s.m_timerId →
      ((s.timerEvent event).heap s.m_currentOperation).status = OperationTimedOut ∧
      (s.timerEvent event).trace = s.trace ++
        ([Event.killTimer s.m_timerId, Event.cancel s.m_currentOperation,
          Event.killTimer s.m_timerId,
          Event.cleanThreadSpecificResources s.m_currentOperation] ++
         deliveryEvents (s.heap s.m_currentOperation) s.m_currentOperation OperationTimedOut ++
         (if s.m_normalPriorityQueue.count = 0 ∧ s.m_highPriorityQueue.count = 0 then
            [Event.emit Signal.emptyQueue] else []) ++
         [Event.emit Signal.operationNeeded]) ∧
      (s.timerEvent event).trace.count (Event.cancel s.m_currentOperation) =
        s.trace.count (Event.cancel s.m_currentOperation) + 1 ∧
      (s.timerEvent event).trace.count
          (Event.endOperation s.m_currentOperation OperationTimedOut) =
        s.trace.count (Event.endOperation s.m_currentOperation OperationTimedOut) + 1 ∧
      (s.timerEvent event).m_currentOperation = 0 ∧
      (s.timerEvent event).m_timerId = 0 ∧
      (s.timerEvent event).m_normalPriorityQueue = s.m_normalPriorityQueue ∧
      (s.timerEvent event).m_highPriorityQueue = s.m_highPriorityQueue) ∧
    ((event ≠ some s.m_timerId ∨ s.m_currentOperation = 0) → s.timerEvent event = s) := by
  constructor
  · intro hcur harmed hev
    subst hev
    have hst : ((s.heap s.m_currentOperation).setStatus OperationTimedOut).status =
        OperationTimedOut := AbstractOperation.status_setStatus _ _ (by decide)
    by_cases hobs : (s.heap s.m_currentOperation).m_observer = 0 <;>
    by_cases hqe : s.m_normalPriorityQueue.count = 0 ∧ s.m_highPriorityQueue.count = 0 <;>
    simp [timerEvent, operationFinished, hcur, harmed, endOperation, log, emit, modifyOp,
      deliveryEvents, hst, hobs, hqe, List.count_cons]
  · intro h
    cases event with
    | none => rfl
    | some t =>
      simp only [timerEvent]
      rw [if_neg]
      rintro ⟨h1, h2⟩
      rcases h with h | h
      · exact h (by rw [h1])
      · exact h2 h

end QueueHandler

namespace QueueHandler

theorem status_setStatus_cancelled (o : AbstractOperation) :
    (o.setStatus OperationCancelled).status = OperationCancelled :=
  AbstractOperation.status_setStatus _ _ (by decide)

end QueueHandler

theorem QHash.mem_keys_of_lookup (h : QHash) (k : Int) (v : Nat) (hl : h.lookup k = some v) :
    k ∈ QHash.keys h := by
  by_contra hk
  rw [QHash.lookup_eq_none_of_not_mem h k hk] at hl
  cases hl

theorem erase_eq_filter_ne (l : List Int) (hnd : l.Nodup) (k : Int) :
    l.erase k = l.filter (fun x => x ≠ k) := by
  rw [List.Nodup.erase_eq_filter hnd]
  apply List.filter_congr
  intro x _
  by_cases h : x = k <;> simp [h]

namespace QueueHandler

end QueueHandler

namespace QueueHandler

/-- Effect of `removeOperationFromQueue`, `p` being the pointer the hash of the
queue holds for the id (null when the id is absent): the call returns when `p`
is null or a permit is available. -/
theorem removeOperationFromQueue_eq (s : QueueHandler) (w : QueueRef) (k : Int)
    (hperm : ((s.queue w).m_hash.lookup k).getD 0 ≠ 0 → 0 < s.m_operationWait) :
    s.removeOperationFromQueue k w =
      some { s.setQueue w { m_queue := (s.queue w).m_queue.erase k,
                            m_hash := (s.queue w).m_hash.filter (fun e => e.1 ≠ k) } with
              heap := cancelledHeap s.heap (((s.queue w).m_hash.lookup k).getD 0)
              trace := s.trace ++ removalEvents s (((s.queue w).m_hash.lookup k).getD 0)
              m_operationWait := s.m_operationWait -
                (if ((s.queue w).m_hash.lookup k).getD 0 = 0 then 0 else 1) } := by
  by_cases hp : ((s.queue w).m_hash.lookup k).getD 0 = 0
  · cases w <;> simp only [queue] at hp <;>
      simp [removeOperationFromQueue, OperationsQueue.remove, QHash.take, hp, queue, setQueue,
        cancelledHeap, removalEvents]
  · have hperm1 : 1 ≤ s.m_operationWait := hperm hp
    have hst := status_setStatus_cancelled
      (s.heap (((s.queue w).m_hash.lookup k).getD 0))
    cases w <;> simp only [queue] at hp hst <;>
    by_cases hobs : (s.heap ((s.m_normalPriorityQueue.m_hash.lookup k).getD 0)).m_observer = 0 <;>
    by_cases hobs2 : (s.heap ((s.m_highPriorityQueue.m_hash.lookup k).getD 0)).m_observer = 0 <;>
    simp [removeOperationFromQueue, OperationsQueue.remove, QHash.take, hp, acquire,
      endOperation, log, modifyOp, removalEvents, deliveryEvents, hst, setQueue, queue, hobs,
      hobs2, hperm1, cancelledHeap]

end QueueHandler

namespace QueueHandler

theorem value_keyed (q : OperationsQueue) (heap : Nat → AbstractOperation) (k : Int)
    (hk : q.KeyedById heap) (hv : q.value k ≠ 0) : (heap (q.value k)).vid = k := by
  unfold OperationsQueue.value at hv ⊢
  cases hl : q.m_hash.lookup k with
  | none => rw [hl] at hv; exact absurd rfl hv
  | some v =>
    obtain ⟨v', hv', hmem⟩ := QHash.lookup_mem q.m_hash k (QHash.mem_keys_of_lookup _ _ _ hl)
    rw [hl] at hv'
    cases hv'
    exact hk _ hmem

theorem value_pos_count (q : OperationsQueue) (k : Int) (hc : q.Consistent)
    (hv : q.value k ≠ 0) : 0 < q.count := by
  unfold OperationsQueue.value at hv
  cases hl : q.m_hash.lookup k with
  | none => rw [hl] at hv; exact absurd rfl hv
  | some v =>
    exact List.length_pos_of_mem (hc.2.2 _ (QHash.mem_keys_of_lookup _ _ _ hl))

theorem cancelledHeap_other (heap : Nat → AbstractOperation) (p q : Nat) (h : p = 0 ∨ q ≠ p) :
    cancelledHeap heap p q = heap q := by
  unfold cancelledHeap
  by_cases hp : p = 0
  · simp [hp]
  · rcases h with h | h
    · exact absurd h hp
    · simp [hp, Function.update_noteq h]

theorem cancelledHeap_self (heap : Nat → AbstractOperation) (p : Nat) (hp : p ≠ 0) :
    (cancelledHeap heap p p).status = OperationCancelled := by
  simp [cancelledHeap, hp, status_setStatus_cancelled]

theorem cancelledHeap_static (heap : Nat → AbstractOperation) (p q : Nat) :
    (cancelledHeap heap p q).vid = (heap q).vid ∧
    (cancelledHeap heap p q).m_observer = (heap q).m_observer ∧
    (cancelledHeap heap p q).m_slotToBeCalled = (heap q).m_slotToBeCalled := by
  unfold cancelledHeap
  by_cases hp : p = 0
  · simp [hp]
  · by_cases hq : q = p
    · subst hq; simp [hp]
    · simp [hp, Function.update_noteq hq]

theorem cancelledHeap_status_of_cancelled (heap : Nat → AbstractOperation) (p q : Nat)
    (h : (heap q).status = OperationCancelled) :
    (cancelledHeap heap p q).status = OperationCancelled := by
  unfold cancelledHeap
  by_cases hp : p = 0
  · simp [hp, h]
  · by_cases hq : q = p
    · subst hq; simp [hp, status_setStatus_cancelled]
    · simp [hp, Function.update_noteq hq, h]

/-! ## Cancellation by id in well-formed states -/

/-- Cancellation by id, per queue entry: in a handler state whose queues are
consistent, hold no null pointer and key every operation by its id, and whose
semaphore holds a permit per queued entry, `doCancelOperation(i)` returns and

* takes the entries with id `i` out of both queues, the other entries keeping
  their order;
* delivers exactly one completion, with status Cancelled, per removed entry
  (first the one of the normal queue, then the one of the high queue), and
  every removed operation ends with status Cancelled;
* leaves every queued operation with another id untouched;
* keeps `m_currentOperation`; when a current operation exists and its id is `i`
  it gets status Cancelled and `m_currentOperationCanContinue` becomes false,
  otherwise the current operation and `m_currentOperationCanContinue` are
  unchanged. -/
theorem doCancelOperation_touches_only_id (s : QueueHandler) (i : Int)
    (hNc : s.m_normalPriorityQueue.Consistent) (hHc : s.m_highPriorityQueue.Consistent)
    (hNk : s.m_normalPriorityQueue.KeyedById s.heap)
    (hHk : s.m_highPriorityQueue.KeyedById s.heap)
    (hperm : s.m_normalPriorityQueue.count + s.m_highPriorityQueue.count ≤ s.m_operationWait) :
    ∃ s1, s.doCancelOperation i = some s1 ∧
      s1.m_normalPriorityQueue.m_queue = s.m_normalPriorityQueue.m_queue.filter (fun k => k ≠ i) ∧
      s1.m_normalPriorityQueue.m_hash =
        s.m_normalPriorityQueue.m_hash.filter (fun e => e.1 ≠ i) ∧
      s1.m_highPriorityQueue.m_queue = s.m_highPriorityQueue.m_queue.filter (fun k => k ≠ i) ∧
      s1.m_highPriorityQueue.m_hash =
        s.m_highPriorityQueue.m_hash.filter (fun e => e.1 ≠ i) ∧
      s1.trace = s.trace ++ removalEvents s (s.m_normalPriorityQueue.value i) ++
        removalEvents s (s.m_highPriorityQueue.value i) ∧
      (∀ p, p ≠ 0 → s1.trace.count (Event.endOperation p OperationCancelled) =
        s.trace.count (Event.endOperation p OperationCancelled) +
          (if s.m_normalPriorityQueue.value i = p then 1 else 0) +
          (if s.m_highPriorityQueue.value i = p then 1 else 0)) ∧
      (s.m_normalPriorityQueue.value i ≠ 0 →
        (s1.heap (s.m_normalPriorityQueue.value i)).status = OperationCancelled) ∧
      (s.m_highPriorityQueue.value i ≠ 0 →
        (s1.heap (s.m_highPriorityQueue.value i)).status = OperationCancelled) ∧
      (∀ e ∈ s.m_normalPriorityQueue.m_hash ++ s.m_highPriorityQueue.m_hash,
        e.1 ≠ i → s1.heap e.2 = s.heap e.2) ∧
      s1.m_currentOperation = s.m_currentOperation ∧
      ((s.m_currentOperation ≠ 0 ∧ (s.heap s.m_currentOperation).vid = i) →
        (s1.heap s.m_currentOperation).status = OperationCancelled ∧
        s1.m_currentOperationCanContinue = false) ∧
      (¬ (s.m_currentOperation ≠ 0 ∧ (s.heap s.m_currentOperation).vid = i) →
        s1.heap s.m_currentOperation = s.heap s.m_currentOperation ∧
        s1.m_currentOperationCanContinue = s.m_currentOperationCanContinue) := by
  have hpN : s.m_normalPriorityQueue.value i ≠ 0 → 0 < s.m_normalPriorityQueue.count :=
    value_pos_count _ i hNc
  have hpH : s.m_highPriorityQueue.value i ≠ 0 → 0 < s.m_highPriorityQueue.count :=
    value_pos_count _ i hHc
  have hkN : s.m_normalPriorityQueue.value i ≠ 0 →
      (s.heap (s.m_normalPriorityQueue.value i)).vid = i := value_keyed _ _ i hNk
  have hkH : s.m_highPriorityQueue.value i ≠ 0 →
      (s.heap (s.m_highPriorityQueue.value i)).vid = i := value_keyed _ _ i hHk
  -- first removal, on the normal queue
  obtain ⟨s1, hs1, hs1N, hs1H, hs1h, hs1t, hs1w, hs1c, hs1cc⟩ :
      ∃ s1, s.removeOperationFromQueue i QueueRef.normal = some s1 ∧
        s1.m_normalPriorityQueue =
          { m_queue := s.m_normalPriorityQueue.m_queue.erase i,
            m_hash := s.m_normalPriorityQueue.m_hash.filter (fun e => e.1 ≠ i) } ∧
        s1.m_highPriorityQueue = s.m_highPriorityQueue ∧
        s1.heap = cancelledHeap s.heap (s.m_normalPriorityQueue.value i) ∧
        s1.trace = s.trace ++ removalEvents s (s.m_normalPriorityQueue.value i) ∧
        s1.m_operationWait = s.m_operationWait -
          (if s.m_normalPriorityQueue.value i = 0 then 0 else 1) ∧
        s1.m_currentOperation = s.m_currentOperation ∧
        s1.m_currentOperationCanContinue = s.m_currentOperationCanContinue := by
    refine ⟨_, removeOperationFromQueue_eq s QueueRef.normal i ?_, rfl, rfl, rfl, rfl, rfl, rfl,
      rfl⟩
    intro hv
    have := hpN hv
    omega
  -- second removal, on the high queue
  obtain ⟨s2, hs2, hs2N, hs2H, hs2h, hs2t, hs2c, hs2cc⟩ :
      ∃ s2, s1.removeOperationFromQueue i QueueRef.high = some s2 ∧
        s2.m_normalPriorityQueue = s1.m_normalPriorityQueue ∧
        s2.m_highPriorityQueue =
          { m_queue := s.m_highPriorityQueue.m_queue.erase i,
            m_hash := s.m_highPriorityQueue.m_hash.filter (fun e => e.1 ≠ i) } ∧
        s2.heap = cancelledHeap s1.heap (s.m_highPriorityQueue.value i) ∧
        s2.trace = s1.trace ++ removalEvents s1 (s.m_highPriorityQueue.value i) ∧
        s2.m_currentOperation = s.m_currentOperation ∧
        s2.m_currentOperationCanContinue = s.m_currentOperationCanContinue := by
    refine ⟨_, removeOperationFromQueue_eq s1 QueueRef.high i ?_, rfl, ?_, ?_, ?_, ?_, ?_⟩
    · intro hv
      have hv2 : s.m_highPriorityQueue.value i ≠ 0 := by
        simpa [queue, hs1H, OperationsQueue.value] using hv
      have := hpH hv2
      rw [hs1w]
      split <;> omega
    · simp [setQueue, queue, hs1H]
    · simp [queue, hs1H, OperationsQueue.value]
    · simp [queue, hs1H, OperationsQueue.value]
    · simpa [setQueue] using hs1c
    · simpa [setQueue] using hs1cc
  have hev : removalEvents s1 (s.m_highPriorityQueue.value i) =
      removalEvents s (s.m_highPriorityQueue.value i) := by
    have hst := cancelledHeap_static s.heap (s.m_normalPriorityQueue.value i)
      (s.m_highPriorityQueue.value i)
    simp only [removalEvents, deliveryEvents, hs1h, hst.2.1, hst.2.2]
  have hvid2 : ∀ q, (s2.heap q).vid = (s.heap q).vid := by
    intro q
    rw [hs2h, (cancelledHeap_static _ _ _).1, hs1h, (cancelledHeap_static _ _ _).1]
  have herN := erase_eq_filter_ne _ hNc.1 i
  have herH := erase_eq_filter_ne _ hHc.1 i
  have htrace : s2.trace = s.trace ++ removalEvents s (s.m_normalPriorityQueue.value i) ++
      removalEvents s (s.m_highPriorityQueue.value i) := by
    rw [hs2t, hs1t, hev]
  have hcnt : ∀ p, p ≠ 0 → s2.trace.count (Event.endOperation p OperationCancelled) =
      s.trace.count (Event.endOperation p OperationCancelled) +
        (if s.m_normalPriorityQueue.value i = p then 1 else 0) +
        (if s.m_highPriorityQueue.value i = p then 1 else 0) := by
    intro p hp
    have hone : ∀ q, (removalEvents s q).count (Event.endOperation p OperationCancelled) =
        if q = p then 1 else 0 := by
      intro q
      by_cases hq0 : q = 0
      · subst hq0
        simp [removalEvents, Ne.symm hp]
      · by_cases hqp : q = p
        · subst hqp
          by_cases hobs : (s.heap q).m_observer = 0 <;>
            simp [removalEvents, deliveryEvents, hq0, hobs, List.count_cons]
        · have hqp2 : ¬ p = q := fun h => hqp h.symm
          by_cases hobs : (s.heap q).m_observer = 0 <;>
            simp [removalEvents, deliveryEvents, hq0, hobs, hqp, hqp2, List.count_cons]
    rw [htrace, List.count_append, List.count_append, hone, hone]
  have hother : ∀ e ∈ s.m_normalPriorityQueue.m_hash ++ s.m_highPriorityQueue.m_hash,
      e.1 ≠ i → s2.heap e.2 = s.heap e.2 := by
    intro e he hei
    have hvid : (s.heap e.2).vid = e.1 := by
      rcases List.mem_append.mp he with h | h
      · exact hNk e h
      · exact hHk e h
    rw [hs2h, cancelledHeap_other, hs1h, cancelledHeap_other]
    · by_cases hz : s.m_normalPriorityQueue.value i = 0
      · exact Or.inl hz
      · right
        intro heq
        rw [heq, hkN hz] at hvid
        exact hei hvid.symm
    · by_cases hz : s.m_highPriorityQueue.value i = 0
      · exact Or.inl hz
      · right
        intro heq
        rw [heq, hkH hz] at hvid
        exact hei hvid.symm
  have hstN : s.m_normalPriorityQueue.value i ≠ 0 →
      (s2.heap (s.m_normalPriorityQueue.value i)).status = OperationCancelled := by
    intro hz
    rw [hs2h, hs1h]
    exact cancelledHeap_status_of_cancelled _ _ _ (cancelledHeap_self _ _ hz)
  have hstH : s.m_highPriorityQueue.value i ≠ 0 →
      (s2.heap (s.m_highPriorityQueue.value i)).status = OperationCancelled := by
    intro hz
    rw [hs2h]
    exact cancelledHeap_self _ _ hz
  by_cases hcur : s.m_currentOperation ≠ 0 ∧ (s.heap s.m_currentOperation).vid = i
  · have hcond : s2.m_currentOperation ≠ 0 ∧ (s2.heap s2.m_currentOperation).vid = i := by
      rw [hs2c, hvid2]; exact hcur
    refine ⟨{ s2.modifyOp s2.m_currentOperation (fun o => o.setStatus OperationCancelled) with
              m_currentOperationCanContinue := false },
      by simp only [doCancelOperation, hs1, hs2, if_pos hcond], ?_, ?_, ?_, ?_,
      htrace, hcnt, ?_, ?_, ?_, hs2c, ?_, fun h => absurd hcur h⟩
    · simp [modifyOp, hs2N, hs1N, herN]
    · simp [modifyOp, hs2N, hs1N]
    · simp [modifyOp, hs2H, herH]
    · simp [modifyOp, hs2H]
    · intro hz
      by_cases heq : s.m_normalPriorityQueue.value i = s2.m_currentOperation
      · simp [modifyOp, heq, status_setStatus_cancelled]
      · simp [modifyOp, Function.update_noteq heq, hstN hz]
    · intro hz
      by_cases heq : s.m_highPriorityQueue.value i = s2.m_currentOperation
      · simp [modifyOp, heq, status_setStatus_cancelled]
      · simp [modifyOp, Function.update_noteq heq, hstH hz]
    · intro e he hei
      have hvid : (s.heap e.2).vid = e.1 := by
        rcases List.mem_append.mp he with h | h
        · exact hNk e h
        · exact hHk e h
      have hne : e.2 ≠ s2.m_currentOperation := by
        intro heq
        rw [hs2c] at heq
        rw [heq, hcur.2] at hvid
        exact hei hvid.symm
      simp [modifyOp, Function.update_noteq hne, hother e he hei]
    · intro _
      exact ⟨by simp [modifyOp, hs2c, status_setStatus_cancelled], rfl⟩
  · have hcond : ¬ (s2.m_currentOperation ≠ 0 ∧ (s2.heap s2.m_currentOperation).vid = i) := by
      rw [hs2c, hvid2]; exact hcur
    refine ⟨s2, by simp only [doCancelOperation, hs1, hs2, if_neg hcond], ?_, ?_, ?_, ?_,
      htrace, hcnt, hstN, hstH, hother, hs2c, fun h => absurd h hcur, fun _ => ⟨?_, hs2cc⟩⟩
    · simp [hs2N, hs1N, herN]
    · simp [hs2N, hs1N]
    · simp [hs2H, herH]
    · simp [hs2H]
    · rw [hs2h, cancelledHeap_other, hs1h, cancelledHeap_other]
      · by_cases hz : s.m_normalPriorityQueue.value i = 0
        · exact Or.inl hz
        · right
          intro heq
          apply hcur
          refine ⟨?_, ?_⟩
          · rw [heq]; exact hz
          · rw [heq]; exact hkN hz
      · by_cases hz : s.m_highPriorityQueue.value i = 0
        · exact Or.inl hz
        · right
          intro heq
          apply hcur
          refine ⟨?_, ?_⟩
          · rw [heq]; exact hz
          · rw [heq]; exact hkH hz

end QueueHandler

namespace QueueHandler

/-- Witness for C2: operation 7 heads the high-priority queue while 3 and 4 wait
in the normal queue. -/
theorem onWaiting_prefers_high_priority_witness :
    ∃ s1, sampleBusy.onWaiting = some s1 ∧ s1.m_currentOperation = 7 ∧
      s1.m_normalPriorityQueue = sampleBusy.m_normalPriorityQueue ∧
      s1.m_highPriorityQueue.m_queue = [] ∧
      s1.m_currentOperationCanContinue = true ∧
      s1.trace = sampleBusy.trace ++ [Event.emit Signal.operationRetrieved] :=
  onWaiting_prefers_high_priority sampleBusy 7 [] 7 rfl rfl (by decide) rfl (by decide) rfl
    (by decide)

/-- Witness for C10: timer 11 fires while operation 5 is current; a timer
event with id 12 changes nothing. -/
theorem timerEvent_ends_current_witness :
    ((sampleBusy.timerEvent (some 11)).heap 5).status = OperationTimedOut ∧
    (sampleBusy.timerEvent (some 11)).m_currentOperation = 0 ∧
    (sampleBusy.timerEvent (some 11)).m_timerId = 0 ∧
    (sampleBusy.timerEvent (some 11)).trace.count (Event.cancel 5) = 1 ∧
    (sampleBusy.timerEvent (some 11)).trace.count (Event.endOperation 5 OperationTimedOut) = 1 ∧
    sampleBusy.timerEvent (some 12) = sampleBusy :=
  have h := (timerEvent_ends_current sampleBusy (some 11)).1 (by decide) (by decide) rfl
  ⟨h.1, h.2.2.2.2.1, h.2.2.2.2.2.1, h.2.2.1, h.2.2.2.1,
    (timerEvent_ends_current sampleBusy (some 12)).2 (Or.inl (by decide))⟩

/-- Instance of the lemma on cancellation by id: `doCancelOperation(4)` in a
state where operation 4 waits in the normal queue behind operation 3. -/
theorem doCancelOperation_touches_only_id_witness :
    ∃ s1, sampleBusy.doCancelOperation 4 = some s1 ∧
      s1.m_normalPriorityQueue.m_queue = [3] ∧
      s1.m_highPriorityQueue.m_queue = [7] ∧
      s1.trace = sampleBusy.trace ++ removalEvents sampleBusy 4 ∧
      (s1.heap 4).status = OperationCancelled ∧
      s1.heap 3 = sampleBusy.heap 3 ∧
      s1.m_currentOperation = 5 ∧
      s1.heap 5 = sampleBusy.heap 5 ∧
      s1.m_currentOperationCanContinue = true :=
  have ⟨s1, h0, h1, _, h3, _, h5, _, h7, _, h9, h10, _, h12⟩ :=
    doCancelOperation_touches_only_id sampleBusy 4 (by decide) (by decide) (by decide)
      (by decide) (by decide)
  ⟨s1, h0, h1, h3, h5, h7 (by decide), h9 (3, 3) (by decide) (by decide), h10,
    (h12 (by decide)).1, (h12 (by decide)).2⟩

end QueueHandler

/-! ## C3, C5, C6 : runs in which the code departs from the claims -/

/-- C3 (failing run): `cancelAllOperations()` is called twice before the first
posted `doCancelAllOperations()` runs, and operations 3 and 4 are submitted after
both calls have returned. After the first posted call operation 4 is still
queued with status NotStarted and operation 3 has been started; the second
posted call finds no sentinel (the second `cancelAllOperations()` replaced the
sentinels of the first), empties the normal queue and cancels the current
operation: operation 4 is delivered with status Cancelled without ever being
executed, and operation 3 is delivered with status Cancelled. -/
theorem bulk_cancel_twice_cancels_later_submissions :
    ((System.init sampleHeap false 0).run bulkCancelTwiceStart).map (fun S =>
      (S.handler.m_normalPriorityQueue.m_queue, S.handler.m_currentOperation,
        (S.handler.heap 4).status, (S.handler.heap 3).status,
        S.handler.scheduledCancelAll)) =
      some ([4], 3, OperationNotStarted, OperationRunning, 1) ∧
    ((System.init sampleHeap false 0).run bulkCancelTwiceRun).map (fun S =>
      (S.handler.m_normalPriorityQueue.m_queue, S.handler.m_currentOperation,
        (S.handler.heap 4).status, (S.handler.heap 3).status,
        decide (Event.execute 4 ∈ S.handler.trace),
        S.handler.trace.count (Event.endOperation 4 OperationCancelled),
        S.handler.trace.count (Event.endOperation 3 OperationCancelled))) =
      some ([], 0, OperationCancelled, OperationCancelled, false, 1, 1) := by
  constructor <;> rfl

/-- C5 (failing run): operation 1 is ended by bulk cancellation while it
executes, operation 2 becomes current and is started, and operation 1 then calls
`failed()` and `finished()`. Its status is not TimedOut, so `finished()` calls
`operationFinished()`, which ends the current operation 2: the completion of
operation 2 is delivered through `endOperation` while its status is Running. -/
theorem stale_finished_delivers_running_operation :
    ((System.init sampleHeap false 0).run staleFinishedAfterBulkCancelRun).map (fun S =>
      (S.handler.trace.count (Event.endOperation 1 OperationCancelled),
        S.handler.trace.count (Event.endOperation 2 OperationRunning),
        (S.handler.heap 2).status, S.handler.m_currentOperation)) =
      some (1, 1, OperationRunning, 0) := by
  rfl

/-- C6 (failing run): operation 1 is ended by its timeout while it executes,
operation 2 becomes current and is started, and operation 1 then calls
`success()` and `finished()`. `success()` overwrites the status TimedOut, so
`finished()` calls `operationFinished()`, which takes operation 2 out of
`m_currentOperation` while it is Running. After operation 3 has been dequeued
and started, operations 2 and 3 both have status Running and only operation 3
is current. -/
theorem stale_finished_leaves_two_running :
    ((System.init sampleHeap false 0).run staleFinishedAfterTimeoutRun).map (fun S =>
      ((S.handler.heap 1).status, (S.handler.heap 2).status, (S.handler.heap 3).status,
        S.handler.m_currentOperation)) =
      some (OperationSuccess, OperationRunning, OperationRunning, 3) := by
  rfl

/-! ## Lemmas for the invariant of the runs -/

namespace OperationsQueue

theorem value_eq_zero_of_not_mem (q : OperationsQueue) (k : Int) (hc : q.Consistent)
    (hk : k ∉ q.m_queue) : q.value k = 0 := by
  have : k ∉ QHash.keys q.m_hash := fun h => hk (hc.2.2 k h)
  simp [value, QHash.lookup_eq_none_of_not_mem _ _ this]

theorem value_ne_zero_of_mem (q : OperationsQueue) (k : Int) (hc : q.Consistent)
    (hn : q.NonNull) (hk : k ∈ q.m_queue) : q.value k ≠ 0 := by
  obtain ⟨v, hv, hmem⟩ := QHash.lookup_mem q.m_hash k (hc.2.1 k hk)
  simp only [value, hv, Option.getD_some]
  exact hn _ hmem

theorem remove_fst (q : OperationsQueue) (k : Int) : (q.remove k).1 = q.value k := rfl

theorem remove_nonNull (q : OperationsQueue) (k : Int) (hn : q.NonNull) :
    (q.remove k).2.NonNull := by
  intro e he
  exact hn e (List.mem_of_mem_filter he)

theorem remove_count (q : OperationsQueue) (k : Int) (hc : q.Consistent) (hn : q.NonNull) :
    (q.remove k).2.count + (if q.value k = 0 then 0 else 1) = q.count := by
  by_cases hk : k ∈ q.m_queue
  · have hv := value_ne_zero_of_mem q k hc hn hk
    have hpos : 0 < q.m_queue.length := List.length_pos_of_mem hk
    simp only [remove, count, hv, ↓reduceIte, List.length_erase_of_mem hk]
    omega
  · have hv := value_eq_zero_of_not_mem q k hc hk
    simp only [remove, count, hv, ↓reduceIte, List.erase_of_not_mem hk, Nat.add_zero]

theorem remove_not_mem (q : OperationsQueue) (k : Int) (hc : q.Consistent) :
    k ∉ (q.remove k).2.m_queue :=
  List.Nodup.not_mem_erase hc.1

theorem remove_mem (q : OperationsQueue) (k x : Int) (hx : x ∈ (q.remove k).2.m_queue) :
    x ∈ q.m_queue :=
  List.mem_of_mem_erase hx

theorem enqueue_nonNull (q : OperationsQueue) (k : Int) (p : Nat) (hn : q.NonNull)
    (hp : p ≠ 0) : (q.enqueue k p).NonNull := by
  intro e he
  simp only [enqueue, QHash.insert, List.mem_append, List.mem_singleton] at he
  rcases he with he | he
  · exact hn e (List.mem_of_mem_filter he)
  · rw [he]; exact hp

theorem enqueue_count (q : OperationsQueue) (k : Int) (p : Nat) :
    (q.enqueue k p).count = q.count + 1 := by
  simp [enqueue, count]

theorem enqueue_mem (q : OperationsQueue) (k x : Int) (p : Nat)
    (hx : x ∈ (q.enqueue k p).m_queue) : x ∈ q.m_queue ∨ x = k := by
  simpa [enqueue] using hx

theorem dequeue_nonNull (q : OperationsQueue) (hn : q.NonNull) : q.dequeue.2.NonNull := by
  unfold dequeue
  split
  · exact hn
  · intro e he
    exact hn e (List.mem_of_mem_filter he)

theorem dequeue_cons (q : OperationsQueue) (k : Int) (rest : List Int)
    (hq : q.m_queue = k :: rest) :
    q.dequeue.1 = q.value k ∧ q.dequeue.2.m_queue = rest := by
  simp [dequeue, hq, value, QHash.take]

end OperationsQueue

namespace QueueHandler

theorem sameControl_refl (s : QueueHandler) : SameControl s s := ⟨rfl, rfl, rfl, rfl, rfl⟩

theorem sameControl_trans {s s1 s2 : QueueHandler} (h1 : SameControl s s1)
    (h2 : SameControl s1 s2) : SameControl s s2 :=
  ⟨h2.1.trans h1.1, h2.2.1.trans h1.2.1, h2.2.2.1.trans h1.2.2.1,
    h2.2.2.2.1.trans h1.2.2.2.1, h2.2.2.2.2.trans h1.2.2.2.2⟩

/-- What `removeOperationFromQueue` does to the queues, the permits, the flags
and the state machine when it returns. -/
theorem removeOperationFromQueue_acc (s s1 : QueueHandler) (w : QueueRef) (k : Int)
    (h : s.removeOperationFromQueue k w = some s1) :
    s1.queue w = ((s.queue w).remove k).2 ∧
    (∀ w1, w1 ≠ w → s1.queue w1 = s.queue w1) ∧
    s1.m_operationWait + (if (s.queue w).value k = 0 then 0 else 1) = s.m_operationWait ∧
    (∀ q, (s1.heap q).vid = (s.heap q).vid) ∧
    SameControl s s1 := by
  by_cases hv : (s.queue w).value k = 0
  · have heq := removeOperationFromQueue_eq s w k (fun hne => absurd hv hne)
    rw [heq] at h
    cases h
    refine ⟨?_, ?_, ?_, ?_, ?_⟩
    · cases w <;> rfl
    · intro w1 hw1
      cases w <;> cases w1 <;> first | rfl | exact absurd rfl hw1
    · simp only [OperationsQueue.value] at hv
      simp [hv, OperationsQueue.value]
    · intro q
      exact (cancelledHeap_static _ _ _).1
    · cases w <;> exact ⟨rfl, rfl, rfl, rfl, rfl⟩
  · by_cases hp : 0 < s.m_operationWait
    · have heq := removeOperationFromQueue_eq s w k (fun _ => hp)
      rw [heq] at h
      cases h
      refine ⟨?_, ?_, ?_, ?_, ?_⟩
      · cases w <;> rfl
      · intro w1 hw1
        cases w <;> cases w1 <;> first | rfl | exact absurd rfl hw1
      · simp only [OperationsQueue.value] at hv
        simp only [hv, OperationsQueue.value, ↓reduceIte]
        have : s.m_operationWait - 1 + 1 = s.m_operationWait := by omega
        cases w <;> exact this
      · intro q
        exact (cancelledHeap_static _ _ _).1
      · cases w <;> exact ⟨rfl, rfl, rfl, rfl, rfl⟩
    · exfalso
      have hp0 : s.m_operationWait = 0 := by omega
      have hv2 : ¬ ((s.queue w).remove k).1 = 0 := hv
      by_cases hobs : (s.heap ((s.queue w).remove k).1).m_observer = 0 <;>
      cases w <;>
      simp [removeOperationFromQueue, hv2, acquire, endOperation, log, modifyOp, setQueue,
        hp0, hobs] at h

theorem removeOperationFromQueue_isSome (s : QueueHandler) (w : QueueRef) (k : Int)
    (hperm : (s.queue w).value k ≠ 0 → 0 < s.m_operationWait) :
    ∃ s1, s.removeOperationFromQueue k w = some s1 :=
  ⟨_, removeOperationFromQueue_eq s w k hperm⟩

end QueueHandler

namespace QueueHandler

theorem queuedCount_update (s s1 : QueueHandler) (w : QueueRef)
    (ho : ∀ w1, w1 ≠ w → s1.queue w1 = s.queue w1) :
    s1.queuedCount + (s.queue w).count = s.queuedCount + (s1.queue w).count := by
  cases w
  · have := ho QueueRef.high (by decide)
    simp only [queue] at this
    simp only [queuedCount, queue, this]
    omega
  · have := ho QueueRef.normal (by decide)
    simp only [queue] at this
    simp only [queuedCount, queue, this]
    omega

theorem queuedCount_ge (s : QueueHandler) (w : QueueRef) : (s.queue w).count ≤ s.queuedCount := by
  cases w <;> simp only [queuedCount, queue] <;> omega

/-- Effect of a returning `removeOperationFromQueue` on well-formed queues. -/
theorem removeOperationFromQueue_ok (s s1 : QueueHandler) (w : QueueRef) (k : Int)
    (hq : s.QueuesOk) (h : s.removeOperationFromQueue k w = some s1) :
    s1.QueuesOk ∧
    s1.m_operationWait + s.queuedCount = s.m_operationWait + s1.queuedCount ∧
    s1.queuedCount ≤ s.queuedCount ∧
    k ∉ (s1.queue w).m_queue ∧
    (∀ w1 x, x ∈ (s1.queue w1).m_queue → x ∈ (s.queue w1).m_queue) ∧
    (∀ q, (s1.heap q).vid = (s.heap q).vid) ∧
    SameControl s s1 := by
  obtain ⟨hw, ho, hsem, hvid, hctl⟩ := removeOperationFromQueue_acc s s1 w k h
  have hcnt := OperationsQueue.remove_count (s.queue w) k (hq w).1 (hq w).2
  have hupd := queuedCount_update s s1 w ho
  rw [hw] at hupd
  refine ⟨?_, ?_, ?_, ?_, ?_, hvid, hctl⟩
  · intro w1
    by_cases hw1 : w1 = w
    · subst hw1
      rw [hw]
      exact ⟨OperationsQueue.remove_consistent _ _ (hq w1).1,
        OperationsQueue.remove_nonNull _ _ (hq w1).2⟩
    · rw [ho w1 hw1]
      exact hq w1
  · omega
  · omega
  · rw [hw]
    exact OperationsQueue.remove_not_mem _ _ (hq w).1
  · intro w1 x hx
    by_cases hw1 : w1 = w
    · subst hw1
      rw [hw] at hx
      exact OperationsQueue.remove_mem _ _ _ hx
    · rw [ho w1 hw1] at hx
      exact hx

/-- `removeOperationFromQueue` returns when a permit is held for every queued
entry. -/
theorem removeOperationFromQueue_returns (s : QueueHandler) (w : QueueRef) (k : Int)
    (hq : s.QueuesOk) (hperm : (s.queue w).count ≤ s.m_operationWait) :
    ∃ s1, s.removeOperationFromQueue k w = some s1 := by
  apply removeOperationFromQueue_isSome
  intro hv
  have hmem : k ∈ (s.queue w).m_queue := by
    by_contra hk
    exact hv (OperationsQueue.value_eq_zero_of_not_mem _ _ (hq w).1 hk)
  have : 0 < (s.queue w).count := List.length_pos_of_mem hmem
  omega

/-- Effect of a returning `addOperationToQueue` on well-formed queues. -/
theorem addOperationToQueue_ok (s s1 : QueueHandler) (w : QueueRef) (p : Nat)
    (hq : s.QueuesOk) (h : s.addOperationToQueue p w = some s1) :
    s1.QueuesOk ∧
    s1.m_operationWait + 1 + s.queuedCount = s.m_operationWait + s1.queuedCount ∧
    (∀ w1 x, x ∈ (s1.queue w1).m_queue → x ∈ (s.queue w1).m_queue ∨ x = (s.heap p).vid) ∧
    SameControl s s1 := by
  unfold addOperationToQueue at h
  by_cases hp : p = 0
  · simp [hp] at h
  · simp only [hp, ↓reduceIte] at h
    cases hrem : s.removeOperationFromQueue (s.heap p).vid w with
    | none => simp [hrem] at h
    | some s0 =>
      simp only [hrem, Option.some.injEq] at h
      obtain ⟨hq0, hsem0, _, hnot0, hmem0, hvid0, hctl0⟩ :=
        removeOperationFromQueue_ok s s0 w _ hq hrem
      have hqw : s1.queue w = (s0.queue w).enqueue (s.heap p).vid p := by
        rw [← h, hvid0]; simp
      have hqo : ∀ w1, w1 ≠ w → s1.queue w1 = s0.queue w1 := by
        intro w1 hw1
        rw [← h]
        simp [queue_setQueue_other _ _ _ _ hw1]
      have hupd := queuedCount_update s0 s1 w hqo
      rw [hqw, OperationsQueue.enqueue_count] at hupd
      have hsem1 : s1.m_operationWait = s0.m_operationWait := by
        rw [← h]; cases w <;> rfl
      refine ⟨?_, ?_, ?_, ?_⟩
      · intro w1
        by_cases hw1 : w1 = w
        · subst hw1
          rw [hqw]
          exact ⟨OperationsQueue.enqueue_consistent _ _ _ (hq0 w1).1 hnot0,
            OperationsQueue.enqueue_nonNull _ _ _ (hq0 w1).2 hp⟩
        · rw [hqo w1 hw1]
          exact hq0 w1
      · omega
      · intro w1 x hx
        by_cases hw1 : w1 = w
        · subst hw1
          rw [hqw] at hx
          rcases OperationsQueue.enqueue_mem _ _ _ _ hx with hx | hx
          · exact Or.inl (hmem0 _ _ hx)
          · exact Or.inr hx
        · rw [hqo w1 hw1] at hx
          exact Or.inl (hmem0 _ _ hx)
      · refine sameControl_trans hctl0 ?_
        rw [← h]
        cases w <;> exact ⟨rfl, rfl, rfl, rfl, rfl⟩

/-- `addOperationToQueue` returns for a non-null operation when a permit is held
for every queued entry. -/
theorem addOperationToQueue_returns (s : QueueHandler) (w : QueueRef) (p : Nat) (hp : p ≠ 0)
    (hq : s.QueuesOk) (hperm : (s.queue w).count ≤ s.m_operationWait) :
    ∃ s1, s.addOperationToQueue p w = some s1 := by
  obtain ⟨s0, hs0⟩ := removeOperationFromQueue_returns s w (s.heap p).vid hq hperm
  simp only [addOperationToQueue, hp, ↓reduceIte, hs0]
  exact ⟨_, rfl⟩

/-- The fuel `count()` handed to `cancelLoop` is enough: every iteration takes
one entry off `m_queue`, so more fuel does not change the result. -/
theorem cancelLoop_more_fuel (w : QueueRef) (fuel : Nat) (s : QueueHandler)
    (h : (s.queue w).count ≤ fuel) : cancelLoop w (fuel + 1) s = cancelLoop w fuel s := by
  induction fuel generalizing s with
  | zero =>
    have hnil : (s.queue w).m_queue = [] := List.length_eq_zero.mp (Nat.le_zero.mp h)
    simp [cancelLoop, OperationsQueue.head, hnil]
  | succ n ih =>
    cases hmq : (s.queue w).m_queue with
    | nil => simp [cancelLoop, OperationsQueue.head, hmq]
    | cons opId rest =>
      cases hrem : s.removeOperationFromQueue opId w with
      | none => simp [cancelLoop, OperationsQueue.head, hmq, hrem]
      | some s1 =>
        by_cases hsent : opId = KSENTINEL_OPERATION
        · subst hsent
          simp [cancelLoop, OperationsQueue.head, hmq, hrem]
        · obtain ⟨hw, _, _, _, _⟩ := removeOperationFromQueue_acc s s1 w opId hrem
          have hcnt : (s1.queue w).count ≤ n := by
            have hlen : (s.queue w).count = rest.length + 1 := by
              simp [OperationsQueue.count, hmq]
            rw [hw]
            simp only [OperationsQueue.remove, OperationsQueue.count, hmq,
              List.erase_cons_head]
            omega
          have := ih s1 hcnt
          rw [cancelLoop, cancelLoop]
          simp only [OperationsQueue.head, hmq, List.head?_cons, hrem, hsent, ↓reduceIte]
          exact this

/-- Effect of one loop of `doCancelAllOperations` on well-formed queues holding
a permit per entry of the queue: it returns, and the queue holds no sentinel
afterwards. -/
theorem cancelLoop_ok (w : QueueRef) (fuel : Nat) (s : QueueHandler) (hq : s.QueuesOk)
    (hfuel : (s.queue w).count ≤ fuel) (hperm : (s.queue w).count ≤ s.m_operationWait) :
    ∃ s1, cancelLoop w fuel s = some s1 ∧ s1.QueuesOk ∧
      s1.m_operationWait + s.queuedCount = s.m_operationWait + s1.queuedCount ∧
      s1.queuedCount ≤ s.queuedCount ∧
      KSENTINEL_OPERATION ∉ (s1.queue w).m_queue ∧
      (∀ w1 x, x ∈ (s1.queue w1).m_queue → x ∈ (s.queue w1).m_queue) ∧
      SameControl s s1 := by
  induction fuel generalizing s with
  | zero =>
    have hnil : (s.queue w).m_queue = [] := List.length_eq_zero.mp (Nat.le_zero.mp hfuel)
    exact ⟨s, rfl, hq, rfl, Nat.le_refl _, by simp [hnil], fun _ _ hx => hx,
      sameControl_refl s⟩
  | succ fuel ih =>
    cases hmq : (s.queue w).m_queue with
    | nil =>
      refine ⟨s, ?_, hq, rfl, Nat.le_refl _, by simp [hmq], fun _ _ hx => hx,
        sameControl_refl s⟩
      simp [cancelLoop, OperationsQueue.head, hmq]
    | cons opId rest =>
      obtain ⟨s0, hs0⟩ := removeOperationFromQueue_returns s w opId hq hperm
      obtain ⟨hq0, hsem0, hle0, hnot0, hmem0, _, hctl0⟩ :=
        removeOperationFromQueue_ok s s0 w opId hq hs0
      obtain ⟨hw0, ho0, hsemw, _, _⟩ := removeOperationFromQueue_acc s s0 w opId hs0
      have hcnt0 : (s0.queue w).count + 1 = (s.queue w).count := by
        have hmem : opId ∈ (s.queue w).m_queue := by simp [hmq]
        rw [hw0]
        simp only [OperationsQueue.remove, OperationsQueue.count,
          List.length_erase_of_mem hmem]
        have : 0 < (s.queue w).m_queue.length := List.length_pos_of_mem hmem
        omega
      have hv : (s.queue w).value opId ≠ 0 :=
        OperationsQueue.value_ne_zero_of_mem _ _ (hq w).1 (hq w).2 (by simp [hmq])
      simp only [hv, ↓reduceIte] at hsemw
      by_cases hsent : opId = KSENTINEL_OPERATION
      · subst hsent
        refine ⟨s0, ?_, hq0, hsem0, hle0, hnot0, hmem0, hctl0⟩
        simp [cancelLoop, OperationsQueue.head, hmq, hs0]
      · obtain ⟨s1, hs1, hq1, hsem1, hle1, hnot1, hmem1, hctl1⟩ :=
          ih s0 hq0 (by omega) (by omega)
        refine ⟨s1, ?_, hq1, by omega, by omega, hnot1,
          fun w1 x hx => hmem0 _ _ (hmem1 _ _ hx), sameControl_trans hctl0 hctl1⟩
        simp [cancelLoop, OperationsQueue.head, hmq, hs0, hsent, hs1]

end QueueHandler

namespace QueueHandler

theorem machineShape_of_same {s s1 : QueueHandler} (h : SameControl s s1)
    (hs : s.MachineShape) : s1.MachineShape := by
  unfold MachineShape at hs ⊢
  rw [h.2.2.1, h.2.2.2.1, h.2.2.2.2]
  exact hs

theorem shuttingDown_of_same {s s1 : QueueHandler} (h : SameControl s s1)
    (hs : s.ShuttingDown) : s1.ShuttingDown := by
  unfold ShuttingDown at hs ⊢
  rw [h.2.2.1, h.2.2.2.1, h.2.2.2.2]
  exact hs

/-- A worker event that posts `operationNeeded`, possibly after `emptyQueue`,
while the worker is in its event loop keeps the posted signals well-shaped. -/
theorem machineShape_post_finished (s1 : QueueHandler) (b : Bool)
    (hent : s1.machineEntering = false)
    (hev : s1.machineEvents =
      (if b then [Signal.emptyQueue] else []) ++ [Signal.operationNeeded]) :
    s1.MachineShape := by
  right
  refine ⟨hent, ?_⟩
  cases b
  · left; simpa using hev
  · right; left; simpa using hev

theorem idle_iff (s : QueueHandler) :
    s.idle = true ↔ s.machineEntering = false ∧ s.machineEvents = [] := by
  simp [idle, List.isEmpty_iff]

/-- What `operationFinished` does to the queues, the permits, the flags and the
state machine. -/
theorem operationFinished_acc (s : QueueHandler) :
    (∀ w, (s.operationFinished).queue w = s.queue w) ∧
    s.operationFinished.m_operationWait = s.m_operationWait ∧
    s.operationFinished.m_cancelAllOperations = s.m_cancelAllOperations ∧
    s.operationFinished.m_exitThread = s.m_exitThread ∧
    s.operationFinished.machineState = s.machineState ∧
    s.operationFinished.machineEntering = s.machineEntering ∧
    s.operationFinished.machineEvents = s.machineEvents ++
      ((if decide (s.m_normalPriorityQueue.count = 0 ∧ s.m_highPriorityQueue.count = 0)
        then [Signal.emptyQueue] else []) ++ [Signal.operationNeeded]) := by
  by_cases hcur : s.m_currentOperation = 0 <;>
  by_cases htim : s.m_timerId = 0 <;>
  by_cases hobs : (s.heap s.m_currentOperation).m_observer = 0 <;>
  by_cases hqe : s.m_normalPriorityQueue.count = 0 ∧ s.m_highPriorityQueue.count = 0 <;>
  refine ⟨fun w => ?_, ?_⟩ <;>
  first
  | (cases w <;> simp [operationFinished, hcur, htim, hobs, hqe, endOperation, log, emit, queue])
  | simp [operationFinished, hcur, htim, hobs, hqe, endOperation, log, emit]

end QueueHandler

namespace QueueHandler

theorem queuedCount_congr (s s1 : QueueHandler) (hq : ∀ w, s1.queue w = s.queue w) :
    s1.queuedCount = s.queuedCount := by
  have h1 := hq QueueRef.normal
  have h2 := hq QueueRef.high
  simp only [queue] at h1 h2
  simp only [queuedCount, h1, h2]

theorem queuesOk_congr {s s1 : QueueHandler} (hq : ∀ w, s1.queue w = s.queue w)
    (h : s.QueuesOk) : s1.QueuesOk := by
  intro w
  rw [hq w]
  exact h w

/-- `doCancelAllOperations` on well-formed queues holding a permit per queued
entry: it returns, no sentinel is left, `m_cancelAllOperations` is cleared and
`operationNeeded` is posted, possibly after `emptyQueue`. -/
theorem doCancelAllOperations_ok (s : QueueHandler) (hq : s.QueuesOk)
    (hperm : s.queuedCount ≤ s.m_operationWait) :
    ∃ s1, s.doCancelAllOperations = some s1 ∧ s1.QueuesOk ∧
      s1.m_operationWait + s.queuedCount = s.m_operationWait + s1.queuedCount ∧
      s1.queuedCount ≤ s.queuedCount ∧
      (∀ w, KSENTINEL_OPERATION ∉ (s1.queue w).m_queue) ∧
      s1.m_cancelAllOperations = false ∧
      s1.m_exitThread = s.m_exitThread ∧
      s1.machineState = s.machineState ∧
      s1.machineEntering = s.machineEntering ∧
      ∃ b : Bool, s1.machineEvents = s.machineEvents ++
        ((if b then [Signal.emptyQueue] else []) ++ [Signal.operationNeeded]) := by
  obtain ⟨s1, hs1, hq1, hsem1, hle1, hnot1, hmem1, hctl1⟩ :=
    cancelLoop_ok QueueRef.normal s.m_normalPriorityQueue.count s hq (Nat.le_refl _)
      (Nat.le_trans (queuedCount_ge s QueueRef.normal) hperm)
  obtain ⟨s2, hs2, hq2, hsem2, hle2, hnot2, hmem2, hctl2⟩ :=
    cancelLoop_ok QueueRef.high s1.m_highPriorityQueue.count s1 hq1 (Nat.le_refl _)
      (by have := queuedCount_ge s1 QueueRef.high; omega)
  have hctl := sameControl_trans hctl1 hctl2
  -- the state handed to `operationFinished`
  obtain ⟨s4, hs4, hq4, hsem4, hc4, hctl4⟩ :
      ∃ s4 : QueueHandler, s.doCancelAllOperations = some s4.operationFinished ∧
        (∀ w, s4.queue w = s2.queue w) ∧ s4.m_operationWait = s2.m_operationWait ∧
        s4.m_cancelAllOperations = false ∧
        (s4.m_exitThread = s2.m_exitThread ∧ s4.machineState = s2.machineState ∧
          s4.machineEntering = s2.machineEntering ∧ s4.machineEvents = s2.machineEvents) := by
    by_cases hcur : s2.m_currentOperation = 0
    · refine ⟨s2.setCancelAllOperations false, ?_, fun w => by cases w <;> rfl, rfl, rfl,
        rfl, rfl, rfl, rfl⟩
      simp [doCancelAllOperations, hs1, hs2, hcur]
    · refine ⟨((s2.modifyOp s2.m_currentOperation
          (fun o => o.setStatus OperationCancelled)).log
            (Event.cancel s2.m_currentOperation)).setCancelAllOperations false, ?_,
        fun w => by cases w <;> rfl, rfl, rfl, rfl, rfl, rfl, rfl⟩
      simp [doCancelAllOperations, hs1, hs2, hcur]
  obtain ⟨hfq, hfsem, hfc, hfe, hfs, hfent, hfev⟩ := operationFinished_acc s4
  have hqq : ∀ w, s4.operationFinished.queue w = s2.queue w := fun w => (hfq w).trans (hq4 w)
  refine ⟨s4.operationFinished, hs4, queuesOk_congr hqq hq2, ?_, ?_, ?_, ?_, ?_, ?_, ?_, ?_⟩
  · rw [queuedCount_congr _ _ hqq, hfsem, hsem4]; omega
  · rw [queuedCount_congr _ _ hqq]; omega
  · intro w
    rw [hqq w]
    cases w
    · exact fun hx => hnot1 (hmem2 _ _ hx)
    · exact hnot2
  · rw [hfc, hc4]
  · rw [hfe, hctl4.1, hctl.2.1]
  · rw [hfs, hctl4.2.1, hctl.2.2.1]
  · rw [hfent, hctl4.2.2.1, hctl.2.2.2.1]
  · exact ⟨_, by rw [hfev, hctl4.2.2.2, hctl.2.2.2.2]⟩

/-- `doCancelOperation` on well-formed queues holding a permit per queued entry:
it returns and only takes entries out of the queues. -/
theorem doCancelOperation_ok (s : QueueHandler) (i : Int) (hq : s.QueuesOk)
    (hperm : s.queuedCount ≤ s.m_operationWait) :
    ∃ s1, s.doCancelOperation i = some s1 ∧ s1.QueuesOk ∧
      s1.m_operationWait + s.queuedCount = s.m_operationWait + s1.queuedCount ∧
      (∀ w1 x, x ∈ (s1.queue w1).m_queue → x ∈ (s.queue w1).m_queue) ∧
      SameControl s s1 := by
  obtain ⟨s1, hs1⟩ := removeOperationFromQueue_returns s QueueRef.normal i hq
    (Nat.le_trans (queuedCount_ge s QueueRef.normal) hperm)
  obtain ⟨hq1, hsem1, hle1, _, hmem1, _, hctl1⟩ :=
    removeOperationFromQueue_ok s s1 QueueRef.normal i hq hs1
  obtain ⟨s2, hs2⟩ := removeOperationFromQueue_returns s1 QueueRef.high i hq1
    (by have := queuedCount_ge s1 QueueRef.high; omega)
  obtain ⟨hq2, hsem2, hle2, _, hmem2, _, hctl2⟩ :=
    removeOperationFromQueue_ok s1 s2 QueueRef.high i hq1 hs2
  have hctl := sameControl_trans hctl1 hctl2
  by_cases hcond : s2.m_currentOperation ≠ 0 ∧ (s2.heap s2.m_currentOperation).vid = i
  · refine ⟨{ s2.modifyOp s2.m_currentOperation (fun o => o.setStatus OperationCancelled) with
        m_currentOperationCanContinue := false }, ?_, ?_, ?_, ?_, ?_⟩
    · simp only [doCancelOperation, hs1, hs2, if_pos hcond]
    · exact queuesOk_congr (fun w => by cases w <;> rfl) hq2
    · show s2.m_operationWait + s.queuedCount = s.m_operationWait + s2.queuedCount
      omega
    · intro w1 x hx
      have hx2 : x ∈ (s2.queue w1).m_queue := by
        cases w1 <;> exact hx
      exact hmem1 _ _ (hmem2 _ _ hx2)
    · exact sameControl_trans hctl ⟨rfl, rfl, rfl, rfl, rfl⟩
  · refine ⟨s2, ?_, hq2, by omega, fun w1 x hx => hmem1 _ _ (hmem2 _ _ hx), hctl⟩
    simp only [doCancelOperation, hs1, hs2, if_neg hcond]

end QueueHandler

namespace QueueHandler

/-- `dequeueOperation` on well-formed queues without sentinel: an empty queue
yields the null pointer and no change, a non-empty one yields a non-null
operation and loses one entry. -/
theorem dequeueOperation_ok (s : QueueHandler) (w : QueueRef) (hq : s.QueuesOk)
    (hsent : KSENTINEL_OPERATION ∉ (s.queue w).m_queue) :
    ((s.queue w).count = 0 → s.dequeueOperation w = (0, s)) ∧
    ((s.queue w).count ≠ 0 →
      (s.dequeueOperation w).1 ≠ 0 ∧ (s.dequeueOperation w).2.QueuesOk ∧
      (s.dequeueOperation w).2.m_operationWait = s.m_operationWait ∧
      (s.dequeueOperation w).2.queuedCount + 1 = s.queuedCount ∧
      (∀ w1 x, x ∈ ((s.dequeueOperation w).2.queue w1).m_queue → x ∈ (s.queue w1).m_queue) ∧
      SameControl s (s.dequeueOperation w).2) := by
  constructor
  · intro h0
    simp [dequeueOperation, h0]
  · intro hne
    cases hmq : (s.queue w).m_queue with
    | nil => simp [OperationsQueue.count, hmq] at hne
    | cons k rest =>
      have hk : k ≠ KSENTINEL_OPERATION := by
        rintro rfl
        exact hsent (by simp [hmq])
      have hd := dequeueOperation_head s w k rest hmq hk
      have hdq : (s.queue w).dequeue.2 =
          { m_queue := rest, m_hash := (s.queue w).m_hash.filter (fun e => e.1 ≠ k) } := by
        simp [OperationsQueue.dequeue, hmq, QHash.take]
      have hw : (s.dequeueOperation w).2.queue w = (s.queue w).dequeue.2 := by
        rw [hd, hdq]; simp
      have ho : ∀ w1, w1 ≠ w → (s.dequeueOperation w).2.queue w1 = s.queue w1 := by
        intro w1 hw1
        rw [hd]
        exact queue_setQueue_other _ _ _ _ hw1
      have hupd := queuedCount_update s _ w ho
      have hcnt : ((s.dequeueOperation w).2.queue w).count + 1 = (s.queue w).count := by
        rw [hw, hdq]
        simp [OperationsQueue.count, hmq]
      refine ⟨?_, ?_, ?_, ?_, ?_, ?_⟩
      · rw [hd]
        exact OperationsQueue.value_ne_zero_of_mem _ _ (hq w).1 (hq w).2 (by simp [hmq])
      · intro w1
        by_cases hw1 : w1 = w
        · subst hw1
          rw [hw]
          exact ⟨OperationsQueue.dequeue_consistent _ (hq w1).1,
            OperationsQueue.dequeue_nonNull _ (hq w1).2⟩
        · rw [ho w1 hw1]
          exact hq w1
      · rw [hd]; cases w <;> rfl
      · omega
      · intro w1 x hx
        by_cases hw1 : w1 = w
        · subst hw1
          rw [hw, hdq] at hx
          rw [hmq]
          exact List.mem_cons_of_mem _ hx
        · rw [ho w1 hw1] at hx
          exact hx
      · rw [hd]; cases w <;> exact ⟨rfl, rfl, rfl, rfl, rfl⟩

/-- The branch of `onWaiting` taken while `m_cancelAllOperations` is set: the
permit is acquired and released again. -/
theorem onWaiting_cancel_branch (s s1 : QueueHandler) (hc : s.m_cancelAllOperations = true)
    (h : s.onWaiting = some s1) :
    s1.m_operationWait = s.m_operationWait ∧ (∀ w, s1.queue w = s.queue w) ∧
    SameControl s s1 := by
  by_cases hp : 1 ≤ s.m_operationWait
  · have heq : s.onWaiting =
        some ({ s with m_operationWait := s.m_operationWait - 1 }).fixCancelAllSemaphore := by
      simp [onWaiting, acquire, hp, hc]
    rw [heq] at h
    cases h
    refine ⟨?_, fun w => by cases w <;> rfl, rfl, rfl, rfl, rfl, rfl⟩
    show s.m_operationWait - 1 + 1 = s.m_operationWait
    omega
  · simp [onWaiting, acquire, hp] at h

/-- The shutdown branch of `onWaiting`: one permit is consumed and
`cleanUpAndExit` is posted. -/
theorem onWaiting_exit_branch (s s1 : QueueHandler) (hc : s.m_cancelAllOperations = false)
    (he : s.m_exitThread = true) (h : s.onWaiting = some s1) :
    s1.m_operationWait + 1 = s.m_operationWait ∧ (∀ w, s1.queue w = s.queue w) ∧
    s1.m_cancelAllOperations = false ∧ s1.m_exitThread = true ∧
    s1.machineState = s.machineState ∧ s1.machineEntering = s.machineEntering ∧
    s1.machineEvents = s.machineEvents ++ [Signal.cleanUpAndExit] := by
  by_cases hp : 1 ≤ s.m_operationWait
  · have heq : s.onWaiting =
        some (({ s with m_operationWait := s.m_operationWait - 1 } : QueueHandler).emit
          Signal.cleanUpAndExit) := by
      simp [onWaiting, acquire, hp, hc, he]
    rw [heq] at h
    cases h
    refine ⟨?_, fun w => by cases w <;> rfl, hc, he, rfl, rfl, rfl⟩
    show s.m_operationWait - 1 + 1 = s.m_operationWait
    omega
  · simp [onWaiting, acquire, hp] at h

/-- The dequeuing branch of `onWaiting` on well-formed queues without sentinel,
when every permit stands for a queued entry: one permit and one entry are
consumed and only `operationRetrieved` is posted. -/
theorem onWaiting_dequeue_branch (s s1 : QueueHandler) (hc : s.m_cancelAllOperations = false)
    (he : s.m_exitThread = false) (hq : s.QueuesOk)
    (hsent : ∀ w, KSENTINEL_OPERATION ∉ (s.queue w).m_queue)
    (hsem : s.m_operationWait = s.queuedCount)
    (h : s.onWaiting = some s1) :
    s1.m_operationWait + 1 = s.m_operationWait ∧ s1.queuedCount + 1 = s.queuedCount ∧
    s1.QueuesOk ∧
    (∀ w1 x, x ∈ (s1.queue w1).m_queue → x ∈ (s.queue w1).m_queue) ∧
    s1.m_cancelAllOperations = false ∧ s1.m_exitThread = false ∧
    s1.machineState = s.machineState ∧ s1.machineEntering = s.machineEntering ∧
    s1.machineEvents = s.machineEvents ++ [Signal.operationRetrieved] ∧
    s1.m_currentOperation ≠ 0 := by
  by_cases hp : 1 ≤ s.m_operationWait
  swap
  · simp [onWaiting, acquire, hp] at h
  -- the state after the acquire
  obtain ⟨s0, hs0, hq0, hsem0, hctl0, hcnt0⟩ :
      ∃ s0 : QueueHandler, s.acquire 1 = some s0 ∧ (∀ w, s0.queue w = s.queue w) ∧
        s0.m_operationWait + 1 = s.m_operationWait ∧ SameControl s s0 ∧
        s0.queuedCount = s.queuedCount := by
    refine ⟨{ s with m_operationWait := s.m_operationWait - 1 }, by simp [acquire, hp],
      fun w => by cases w <;> rfl, ?_, ⟨rfl, rfl, rfl, rfl, rfl⟩, rfl⟩
    show s.m_operationWait - 1 + 1 = s.m_operationWait
    omega
  have hok0 : s0.QueuesOk := queuesOk_congr hq0 hq
  have hsent0 : ∀ w, KSENTINEL_OPERATION ∉ (s0.queue w).m_queue := by
    intro w; rw [hq0 w]; exact hsent w
  have hc0 : s0.m_cancelAllOperations = false := hctl0.1.trans hc
  have he0 : s0.m_exitThread = false := hctl0.2.1.trans he
  simp only [onWaiting, hs0, hc0, he0, Bool.false_eq_true, ↓reduceIte] at h
  obtain ⟨hH0, hH1⟩ := dequeueOperation_ok s0 QueueRef.high hok0 (hsent0 _)
  by_cases hhc : (s0.queue QueueRef.high).count = 0
  · -- nothing in the high queue: the normal queue is not empty
    have hdh := hH0 hhc
    have hnc : (s0.queue QueueRef.normal).count ≠ 0 := by
      have : s0.queuedCount = (s0.queue QueueRef.normal).count +
          (s0.queue QueueRef.high).count := rfl
      omega
    obtain ⟨hN1, hN2, hN3, hN4, hN5, hN6⟩ :=
      (dequeueOperation_ok s0 QueueRef.normal hok0 (hsent0 _)).2 hnc
    simp only [hdh, ↓reduceIte, hN1, Option.some.injEq] at h
    subst h
    refine ⟨?_, ?_, ?_, ?_, ?_, ?_, ?_, ?_, ?_, hN1⟩
    · show (s0.dequeueOperation QueueRef.normal).2.m_operationWait + 1 = s.m_operationWait
      omega
    · show (s0.dequeueOperation QueueRef.normal).2.queuedCount + 1 = s.queuedCount
      omega
    · exact queuesOk_congr (fun w => by cases w <;> rfl) hN2
    · intro w1 x hx
      have hx2 : x ∈ ((s0.dequeueOperation QueueRef.normal).2.queue w1).m_queue := by
        cases w1 <;> exact hx
      have := hN5 _ _ hx2
      rwa [hq0] at this
    · exact hN6.1.trans hc0
    · exact hN6.2.1.trans he0
    · exact hN6.2.2.1.trans hctl0.2.2.1
    · exact hN6.2.2.2.1.trans hctl0.2.2.2.1
    · show (s0.dequeueOperation QueueRef.normal).2.machineEvents ++ _ = _
      rw [hN6.2.2.2.2, hctl0.2.2.2.2]
  · obtain ⟨hN1, hN2, hN3, hN4, hN5, hN6⟩ := hH1 hhc
    simp only [hN1, ↓reduceIte, Option.some.injEq] at h
    subst h
    refine ⟨?_, ?_, ?_, ?_, ?_, ?_, ?_, ?_, ?_, hN1⟩
    · show (s0.dequeueOperation QueueRef.high).2.m_operationWait + 1 = s.m_operationWait
      omega
    · show (s0.dequeueOperation QueueRef.high).2.queuedCount + 1 = s.queuedCount
      omega
    · exact queuesOk_congr (fun w => by cases w <;> rfl) hN2
    · intro w1 x hx
      have hx2 : x ∈ ((s0.dequeueOperation QueueRef.high).2.queue w1).m_queue := by
        cases w1 <;> exact hx
      have := hN5 _ _ hx2
      rwa [hq0] at this
    · exact hN6.1.trans hc0
    · exact hN6.2.1.trans he0
    · exact hN6.2.2.1.trans hctl0.2.2.1
    · exact hN6.2.2.2.1.trans hctl0.2.2.2.1
    · show (s0.dequeueOperation QueueRef.high).2.machineEvents ++ _ = _
      rw [hN6.2.2.2.2, hctl0.2.2.2.2]

end QueueHandler

namespace System

open QueueHandler

theorem init_inv (heap : Nat → AbstractOperation) (canContinue : Bool) (timerId : Int) :
    (init heap canContinue timerId).Inv := by
  refine ⟨rfl, ?_, ?_, fun _ => rfl, Or.inl rfl, ?_⟩
  · intro w
    cases w <;> exact ⟨OperationsQueue.empty_consistent, fun e he => by cases he⟩
  · intro _ w
    cases w <;> simp [init, QueueHandler.new, queue, OperationsQueue.empty]
  · intro h
    simp [init, QueueHandler.new] at h

/-- The invariant only reads the permits, the queues, the flags, the state
machine and the pseudo-permits. -/
theorem inv_congr {S S1 : System} (hinv : S.Inv)
    (hp : S1.pseudoPermits = S.pseudoPermits)
    (hsem : S1.handler.m_operationWait = S.handler.m_operationWait)
    (hq : ∀ w, S1.handler.queue w = S.handler.queue w)
    (hctl : SameControl S.handler S1.handler) : S1.Inv := by
  obtain ⟨h1, h2, h3, h4, h5, h6⟩ := hinv
  refine ⟨?_, queuesOk_congr hq h2, ?_, ?_, machineShape_of_same hctl h5, ?_⟩
  · rw [hsem, hp, queuedCount_congr _ _ hq]; exact h1
  · intro hc w
    rw [hq w]
    exact h3 (hctl.1 ▸ hc) w
  · intro he
    rw [hp]
    exact h4 (hctl.2.1 ▸ he)
  · intro he hps
    exact shuttingDown_of_same hctl (h6 (hctl.2.1 ▸ he) (hp ▸ hps))

/-- A submission keeps the invariant. -/
theorem inv_add (S : System) (hinv : S.Inv) (w : QueueRef) (p : Nat) (s1 : QueueHandler)
    (hvid : (S.handler.heap p).vid ≠ KSENTINEL_OPERATION)
    (hadd : S.handler.addOperationToQueue p w = some s1) :
    Inv { S with handler := s1.release 1 } := by
  obtain ⟨h1, h2, h3, h4, h5, h6⟩ := hinv
  obtain ⟨hq1, hsem1, hmem1, hctl1⟩ := addOperationToQueue_ok _ _ w p h2 hadd
  have hqr : ∀ w1, (s1.release 1).queue w1 = s1.queue w1 := fun w1 => by cases w1 <;> rfl
  have hctlr : SameControl S.handler (s1.release 1) :=
    sameControl_trans hctl1 ⟨rfl, rfl, rfl, rfl, rfl⟩
  refine ⟨?_, queuesOk_congr hqr hq1, ?_, ?_, machineShape_of_same hctlr h5, ?_⟩
  · show s1.m_operationWait + 1 = (s1.release 1).queuedCount + S.pseudoPermits
    rw [queuedCount_congr _ _ hqr]
    omega
  · intro hc w1 hx
    rw [hqr w1] at hx
    rcases hmem1 _ _ hx with hx | hx
    · exact h3 (hctlr.1 ▸ hc) w1 hx
    · exact hvid hx.symm
  · intro he
    exact h4 (hctlr.2.1 ▸ he)
  · intro he hps
    exact shuttingDown_of_same hctlr (h6 (hctlr.2.1 ▸ he) hps)

/-- `cancelAllOperations` keeps the invariant. -/
theorem inv_cancelAll (S : System) (hinv : S.Inv) (pN pH : Nat) (s1 : QueueHandler)
    (h : S.handler.cancelAllOperations pN pH = some s1) :
    Inv { S with handler := s1 } := by
  obtain ⟨h1, h2, h3, h4, h5, h6⟩ := hinv
  unfold cancelAllOperations at h
  cases hA : (S.handler.newSentinel pN).addOperationToQueue pN QueueRef.normal with
  | none => simp [hA] at h
  | some s2 =>
    simp only [hA] at h
    cases hB : (s2.newSentinel pH).addOperationToQueue pH QueueRef.high with
    | none => simp [hB] at h
    | some s4 =>
      simp only [hB, Option.some.injEq] at h
      have hqa : (S.handler.newSentinel pN).QueuesOk :=
        queuesOk_congr (fun w => by cases w <;> rfl) h2
      obtain ⟨hq2, hsem2, _, hctl2⟩ := addOperationToQueue_ok _ _ _ _ hqa hA
      have hqb : (s2.newSentinel pH).QueuesOk :=
        queuesOk_congr (fun w => by cases w <;> rfl) hq2
      obtain ⟨hq4, hsem4, _, hctl4⟩ := addOperationToQueue_ok _ _ _ _ hqb hB
      have hqs : ∀ w, s1.queue w = s4.queue w := by
        intro w; rw [← h]; cases w <;> rfl
      have hsems : s1.m_operationWait = s4.m_operationWait + 2 := by rw [← h]; rfl
      have hcs : s1.m_cancelAllOperations = true := by rw [← h]; rfl
      have hes : s1.m_exitThread = S.handler.m_exitThread := by
        rw [← h]; exact hctl4.2.1.trans hctl2.2.1
      have hms : s1.machineState = S.handler.machineState ∧
          s1.machineEntering = S.handler.machineEntering ∧
          s1.machineEvents = S.handler.machineEvents := by
        rw [← h]
        exact ⟨hctl4.2.2.1.trans hctl2.2.2.1, hctl4.2.2.2.1.trans hctl2.2.2.2.1,
          hctl4.2.2.2.2.trans hctl2.2.2.2.2⟩
      have hsem2' : s2.m_operationWait + 1 + S.handler.queuedCount =
          S.handler.m_operationWait + s2.queuedCount := hsem2
      have hsem4' : s4.m_operationWait + 1 + s2.queuedCount =
          s2.m_operationWait + s4.queuedCount := hsem4
      refine ⟨?_, queuesOk_congr hqs hq4, ?_, ?_, ?_, ?_⟩
      · show s1.m_operationWait = s1.queuedCount + S.pseudoPermits
        rw [queuedCount_congr _ _ hqs, hsems]
        omega
      · intro hc
        rw [hcs] at hc
        cases hc
      · intro he
        exact h4 (hes ▸ he)
      · unfold MachineShape at h5 ⊢
        rw [hms.1, hms.2.1, hms.2.2]
        exact h5
      · intro he hps
        have := h6 (hes ▸ he) hps
        unfold ShuttingDown at this ⊢
        rw [hms.1, hms.2.1, hms.2.2]
        exact this

/-- `terminateThread` keeps the invariant. -/
theorem inv_terminate (S : System) (hinv : S.Inv) :
    Inv { handler := S.handler.terminateThread, pseudoPermits := S.pseudoPermits + 1 } := by
  obtain ⟨h1, h2, h3, h4, h5, h6⟩ := hinv
  refine ⟨?_, queuesOk_congr (fun w => by cases w <;> rfl) h2, ?_, ?_, h5, ?_⟩
  · show S.handler.m_operationWait + 1 = S.handler.queuedCount + (S.pseudoPermits + 1)
    omega
  · intro hc w
    exact h3 hc w
  · intro he
    cases he
  · intro _ hps
    exact absurd hps (Nat.succ_ne_zero _)

end System

namespace System

open QueueHandler

/-- A worker event delivered in the event loop that keeps the machine state and
posts `operationNeeded`, possibly after `emptyQueue`. -/
theorem worker_post (s s1 : QueueHandler) (hidle : s.idle = true)
    (hst : s1.machineState = s.machineState)
    (hent : s1.machineEntering = s.machineEntering)
    (hev : ∃ b : Bool, s1.machineEvents = s.machineEvents ++
      ((if b then [Signal.emptyQueue] else []) ++ [Signal.operationNeeded])) :
    s1.MachineShape ∧ (s.ShuttingDown → s1.ShuttingDown) := by
  obtain ⟨hent0, hev0⟩ := (idle_iff s).mp hidle
  obtain ⟨b, hb⟩ := hev
  rw [hev0, List.nil_append] at hb
  refine ⟨machineShape_post_finished s1 b (hent.trans hent0) hb, ?_⟩
  intro hsd
  rcases hsd with ⟨_, _, h3⟩ | h | h
  · rw [hev0] at h3; cases h3
  · exact Or.inr (Or.inl (hst.trans h))
  · exact Or.inr (Or.inr (hst.trans h))

/-- `operationFinished`, called in the event loop on a state that has the
permits, queues, flags and machine of the handler, keeps the invariant. -/
theorem inv_operationFinished (S : System) (hinv : S.Inv) (hidle : S.handler.idle = true)
    (s0 : QueueHandler) (hsem : s0.m_operationWait = S.handler.m_operationWait)
    (hq : ∀ w, s0.queue w = S.handler.queue w) (hctl : SameControl S.handler s0) :
    Inv { S with handler := s0.operationFinished } := by
  obtain ⟨h1, h2, h3, h4, h5, h6⟩ := hinv
  obtain ⟨hfq, hfsem, hfc, hfe, hfs, hfent, hfev⟩ := operationFinished_acc s0
  have hqq : ∀ w, s0.operationFinished.queue w = S.handler.queue w :=
    fun w => (hfq w).trans (hq w)
  obtain ⟨hshape, hsd⟩ := worker_post S.handler s0.operationFinished hidle
    (hfs.trans hctl.2.2.1) (hfent.trans hctl.2.2.2.1) ⟨_, by rw [hfev, hctl.2.2.2.2]⟩
  refine ⟨?_, queuesOk_congr hqq h2, ?_, ?_, hshape, ?_⟩
  · show s0.operationFinished.m_operationWait = s0.operationFinished.queuedCount + _
    rw [hfsem, hsem, queuedCount_congr _ _ hqq]
    exact h1
  · intro hc w
    rw [hqq w]
    exact h3 ((hfc.trans hctl.1) ▸ hc) w
  · intro he
    exact h4 ((hfe.trans hctl.2.1) ▸ he)
  · intro he hps
    exact hsd (h6 ((hfe.trans hctl.2.1) ▸ he) hps)

/-- A posted `doCancelAllOperations` keeps the invariant, and returns. -/
theorem inv_doCancelAll (S : System) (hinv : S.Inv) (hidle : S.handler.idle = true)
    (s0 : QueueHandler) (hsem : s0.m_operationWait = S.handler.m_operationWait)
    (hq : ∀ w, s0.queue w = S.handler.queue w) (hctl : SameControl S.handler s0) :
    ∃ s1, s0.doCancelAllOperations = some s1 ∧ Inv { S with handler := s1 } := by
  obtain ⟨h1, h2, h3, h4, h5, h6⟩ := hinv
  have hq0 : s0.QueuesOk := queuesOk_congr hq h2
  have hcnt : s0.queuedCount = S.handler.queuedCount := queuedCount_congr _ _ hq
  obtain ⟨s1, hs1, hq1, hsem1, hle1, hnot1, hc1, he1, hst1, hent1, hev1⟩ :=
    doCancelAllOperations_ok s0 hq0 (by omega)
  obtain ⟨hshape, hsd⟩ := worker_post S.handler s1 hidle
    (hst1.trans hctl.2.2.1) (hent1.trans hctl.2.2.2.1)
    (by obtain ⟨b, hb⟩ := hev1; exact ⟨b, by rw [hb, hctl.2.2.2.2]⟩)
  refine ⟨s1, hs1, ?_, hq1, fun _ => hnot1, ?_, hshape, ?_⟩
  · show s1.m_operationWait = s1.queuedCount + S.pseudoPermits
    omega
  · intro he
    exact h4 ((he1.trans hctl.2.1) ▸ he)
  · intro he hps
    exact hsd (h6 ((he1.trans hctl.2.1) ▸ he) hps)

/-- The posted `doCancelOperation` keeps the invariant, and returns. -/
theorem inv_doCancelOperation (S : System) (hinv : S.Inv) (i : Int) :
    ∃ s1, S.handler.doCancelOperation i = some s1 ∧ Inv { S with handler := s1 } := by
  obtain ⟨h1, h2, h3, h4, h5, h6⟩ := hinv
  obtain ⟨s1, hs1, hq1, hsem1, hmem1, hctl1⟩ := doCancelOperation_ok S.handler i h2 (by omega)
  refine ⟨s1, hs1, ?_, hq1, ?_, ?_, machineShape_of_same hctl1 h5, ?_⟩
  · show s1.m_operationWait = s1.queuedCount + S.pseudoPermits
    omega
  · intro hc w hx
    exact h3 (hctl1.1 ▸ hc) w (hmem1 _ _ hx)
  · intro he
    exact h4 (hctl1.2.1 ▸ he)
  · intro he hps
    exact shuttingDown_of_same hctl1 (h6 (hctl1.2.1 ▸ he) hps)

end System

namespace System

open QueueHandler

/-- Taking a posted signal off the queue of the state machine keeps the
invariant. -/
theorem inv_dispatch (S : System) (hinv : S.Inv) (hent : S.handler.machineEntering = false)
    (timerId : Int) (s1 : QueueHandler) (h : S.handler.machineStep timerId = some s1) :
    Inv { handler := s1, pseudoPermits := S.pseudoPermits } := by
  obtain ⟨h1, h2, h3, h4, h5, h6⟩ := hinv
  simp only [machineStep, hent, Bool.false_eq_true, ↓reduceIte] at h
  cases hev : S.handler.machineEvents with
  | nil => simp [hev] at h
  | cons sig rest =>
    simp only [hev] at h
    -- the queues, permits and flags are not touched
    have hacc : s1.m_operationWait = S.handler.m_operationWait ∧
        (∀ w, s1.queue w = S.handler.queue w) ∧
        s1.m_cancelAllOperations = S.handler.m_cancelAllOperations ∧
        s1.m_exitThread = S.handler.m_exitThread := by
      cases htr : transition S.handler.machineState sig with
      | none =>
        simp only [htr, Option.some.injEq] at h
        subst h
        exact ⟨rfl, fun w => by cases w <;> rfl, rfl, rfl⟩
      | some t =>
        simp only [htr, Option.some.injEq] at h
        subst h
        exact ⟨rfl, fun w => by cases w <;> rfl, rfl, rfl⟩
    -- the machine
    have hmach : s1.MachineShape ∧ (S.handler.ShuttingDown → s1.ShuttingDown) := by
      unfold MachineShape at h5
      rw [hev, hent] at h5
      rcases h5 with h5 | ⟨_, h5⟩
      · cases h5
      · rcases h5 with h5 | h5 | ⟨hst, h5 | h5⟩ | ⟨hst, h5 | h5 | h5⟩ <;>
          simp only [List.cons.injEq] at h5 <;>
          obtain ⟨rfl, rfl⟩ := h5
        · cases hst : S.handler.machineState <;>
            simp only [hst, transition, Option.some.injEq] at h <;>
            subst h <;>
            simp [MachineShape, ShuttingDown, hst, hev, hent]
        · cases hst : S.handler.machineState <;>
            simp only [hst, transition, Option.some.injEq] at h <;>
            subst h <;>
            simp [MachineShape, ShuttingDown, hst, hev, hent]
        · simp only [hst, transition, Option.some.injEq] at h
          subst h
          simp [MachineShape, ShuttingDown, hst, hev, hent]
        · simp only [hst, transition, Option.some.injEq] at h
          subst h
          simp [MachineShape, ShuttingDown, hst, hev, hent]
        · simp only [hst, transition, Option.some.injEq] at h
          subst h
          simp [MachineShape, ShuttingDown, hst, hev, hent]
        · simp only [hst, transition, Option.some.injEq] at h
          subst h
          simp [MachineShape, ShuttingDown, hst, hev, hent]
        · simp only [hst, transition, Option.some.injEq] at h
          subst h
          simp [MachineShape, ShuttingDown, hst, hev, hent]
    obtain ⟨hsem, hq, hc, he⟩ := hacc
    refine ⟨?_, queuesOk_congr hq h2, ?_, ?_, hmach.1, ?_⟩
    · show s1.m_operationWait = s1.queuedCount + S.pseudoPermits
      rw [hsem, queuedCount_congr _ _ hq]
      exact h1
    · intro hc1 w
      rw [hq w]
      exact h3 (hc ▸ hc1) w
    · intro he1
      exact h4 (he ▸ he1)
    · intro he1 hps
      exact hmach.2 (h6 (he ▸ he1) hps)

end System

namespace System

open QueueHandler

/-- What `onProcessing` does to the queues, the permits, the flags and the state
machine when it returns. -/
theorem onProcessing_acc (s s1 : QueueHandler) (timerId : Int)
    (h : s.onProcessing timerId = some s1) :
    s1.m_operationWait = s.m_operationWait ∧ (∀ w, s1.queue w = s.queue w) ∧
    s1.m_cancelAllOperations = s.m_cancelAllOperations ∧
    s1.m_exitThread = s.m_exitThread ∧ s1.machineState = s.machineState ∧
    s1.machineEntering = s.machineEntering ∧
    (s1.machineEvents = s.machineEvents ∨
      s1.machineEvents = s.machineEvents ++ [Signal.operationNeeded]) := by
  by_cases hcur : s.m_currentOperation = 0
  · have heq : s.onProcessing timerId =
        some ((s.log Event.inconsistentState).emit Signal.operationNeeded) := by
      simp [onProcessing, hcur]
    rw [heq] at h
    cases h
    exact ⟨rfl, fun w => by cases w <;> rfl, rfl, rfl, rfl, rfl, Or.inr rfl⟩
  · by_cases hqh : ((s.modifyOp s.m_currentOperation
        (fun o => o.setStatus OperationRunning)).heap s.m_currentOperation).m_queueHandler = true
    · have heq : s.onProcessing timerId =
          some (((s.modifyOp s.m_currentOperation
            (fun o => o.setStatus OperationRunning)).startTimer KDefaultTimeoutOperation
              timerId).log (Event.execute s.m_currentOperation)) := by
        simp only [onProcessing, ne_eq, hcur, not_false_eq_true, ↓reduceIte, started, hqh]
      rw [heq] at h
      cases h
      by_cases htim : s.m_timerId = 0
      · have : (s.modifyOp s.m_currentOperation
            (fun o => o.setStatus OperationRunning)).m_timerId = 0 := htim
        simp only [startTimer, this, ne_eq, not_true_eq_false, ↓reduceIte]
        exact ⟨rfl, fun w => by cases w <;> rfl, rfl, rfl, rfl, rfl, Or.inl rfl⟩
      · have : ¬ (s.modifyOp s.m_currentOperation
            (fun o => o.setStatus OperationRunning)).m_timerId = 0 := htim
        simp only [startTimer, this, ne_eq, not_false_eq_true, ↓reduceIte]
        exact ⟨rfl, fun w => by cases w <;> rfl, rfl, rfl, rfl, rfl, Or.inl rfl⟩
    · exfalso
      simp only [onProcessing, ne_eq, hcur, not_false_eq_true, ↓reduceIte, started, hqh,
        Bool.false_eq_true] at h
      cases h

/-- While a state entry is pending nothing is posted, and the shutdown has not
been taken up in the Waiting or Processing state. -/
theorem entering_facts (S : System) (hinv : S.Inv) (hent : S.handler.machineEntering = true) :
    S.handler.machineEvents = [] ∧
    (S.handler.machineState = MachineState.waiting ∨
        S.handler.machineState = MachineState.processing →
      S.handler.m_exitThread = true → S.pseudoPermits ≠ 0) := by
  obtain ⟨h1, h2, h3, h4, h5, h6⟩ := hinv
  constructor
  · rcases h5 with h5 | ⟨h5, _⟩
    · exact h5
    · rw [hent] at h5; cases h5
  · intro hst he hps
    rcases h6 he hps with ⟨_, h, _⟩ | h | h
    · rw [hent] at h; cases h
    · rcases hst with hst | hst <;> rw [hst] at h <;> cases h
    · rcases hst with hst | hst <;> rw [hst] at h <;> cases h

/-- Running the pending `entered()` slot of the active state keeps the
invariant; a shutdown branch of `onWaiting` consumes one pseudo-permit. -/
theorem inv_entry (S : System) (hinv : S.Inv) (hent : S.handler.machineEntering = true)
    (timerId : Int) (s1 : QueueHandler) (h : S.handler.machineStep timerId = some s1) :
    Inv { handler := s1
          pseudoPermits :=
            if consumesWakeUp S.handler then S.pseudoPermits - 1 else S.pseudoPermits } := by
  obtain ⟨hev, hnot⟩ := entering_facts S hinv hent
  obtain ⟨h1, h2, h3, h4, h5, h6⟩ := hinv
  simp only [machineStep, hent, ↓reduceIte] at h
  -- the state in which the slot runs
  obtain ⟨s0, hs0, hsem0, hq0, hc0, he0, hst0, hent0, hev0⟩ :
      ∃ s0 : QueueHandler, s0 = { S.handler with machineEntering := false } ∧
        s0.m_operationWait = S.handler.m_operationWait ∧
        (∀ w, s0.queue w = S.handler.queue w) ∧
        s0.m_cancelAllOperations = S.handler.m_cancelAllOperations ∧
        s0.m_exitThread = S.handler.m_exitThread ∧
        s0.machineState = S.handler.machineState ∧
        s0.machineEntering = false ∧ s0.machineEvents = [] :=
    ⟨_, rfl, rfl, fun w => by cases w <;> rfl, rfl, rfl, rfl, rfl, hev⟩
  rw [← hs0] at h
  have hok0 : s0.QueuesOk := queuesOk_congr hq0 h2
  have hcnt0 : s0.queuedCount = S.handler.queuedCount := queuedCount_congr _ _ hq0
  cases hst : S.handler.machineState with
  | waiting =>
    simp only [hst] at h
    by_cases hc : S.handler.m_cancelAllOperations = true
    · -- the permit is handed back
      have hcw : consumesWakeUp S.handler = false := by simp [consumesWakeUp, hc]
      obtain ⟨hsem1, hq1, hctl1⟩ := onWaiting_cancel_branch s0 s1 (hc0.trans hc) h
      have hqq : ∀ w, s1.queue w = S.handler.queue w := fun w => (hq1 w).trans (hq0 w)
      simp only [hcw, Bool.false_eq_true, ↓reduceIte]
      refine ⟨?_, queuesOk_congr hqq h2, ?_, ?_, ?_, ?_⟩
      · show s1.m_operationWait = s1.queuedCount + S.pseudoPermits
        rw [hsem1, hsem0, queuedCount_congr _ _ hqq]
        exact h1
      · intro hc1
        rw [hctl1.1, hc0, hc] at hc1
        cases hc1
      · intro he1
        exact h4 ((hctl1.2.1.trans he0) ▸ he1)
      · left
        rw [hctl1.2.2.2.2, hev0]
      · intro he1 hps
        exact absurd hps (hnot (Or.inl hst) ((hctl1.2.1.trans he0) ▸ he1))
    · have hcf : S.handler.m_cancelAllOperations = false := by simpa using hc
      by_cases he : S.handler.m_exitThread = true
      · -- the wake-up of `terminateThread` is consumed
        have hcw : consumesWakeUp S.handler = true := by
          simp [consumesWakeUp, hent, hst, hcf, he]
        have hps : S.pseudoPermits ≠ 0 := hnot (Or.inl hst) he
        obtain ⟨hsem1, hq1, hc1, he1, hst1, hent1, hev1⟩ :=
          onWaiting_exit_branch s0 s1 (hc0.trans hcf) (he0.trans he) h
        have hqq : ∀ w, s1.queue w = S.handler.queue w := fun w => (hq1 w).trans (hq0 w)
        simp only [hcw, ↓reduceIte]
        refine ⟨?_, queuesOk_congr hqq h2, ?_, ?_, ?_, ?_⟩
        · show s1.m_operationWait = s1.queuedCount + (S.pseudoPermits - 1)
          rw [queuedCount_congr _ _ hqq]
          omega
        · intro _ w
          rw [hqq w]
          exact h3 hcf w
        · intro he2
          rw [he1] at he2
          cases he2
        · right
          refine ⟨hent1.trans hent0, Or.inr (Or.inr (Or.inl ⟨hst1.trans (hst0.trans hst), ?_⟩))⟩
          right
          rw [hev1, hev0]
          rfl
        · intro _ _
          left
          refine ⟨hst1.trans (hst0.trans hst), hent1.trans hent0, ?_⟩
          rw [hev1, hev0]
          rfl
      · -- an operation is dequeued
        have hef : S.handler.m_exitThread = false := by simpa using he
        have hcw : consumesWakeUp S.handler = false := by simp [consumesWakeUp, hef]
        have hps : S.pseudoPermits = 0 := h4 hef
        obtain ⟨hsem1, hcnt1, hq1, hmem1, hc1, he1, hst1, hent1, hev1, _⟩ :=
          onWaiting_dequeue_branch s0 s1 (hc0.trans hcf) (he0.trans hef) hok0
            (fun w => by rw [hq0 w]; exact h3 hcf w) (by omega) h
        simp only [hcw, Bool.false_eq_true, ↓reduceIte]
        refine ⟨?_, hq1, ?_, fun _ => hps, ?_, ?_⟩
        · show s1.m_operationWait = s1.queuedCount + S.pseudoPermits
          omega
        · intro _ w hx
          have := hmem1 _ _ hx
          rw [hq0 w] at this
          exact h3 hcf w this
        · right
          refine ⟨hent1.trans hent0, Or.inr (Or.inr (Or.inl ⟨hst1.trans (hst0.trans hst), ?_⟩))⟩
          left
          rw [hev1, hev0]
          rfl
        · intro he2
          rw [he1] at he2
          cases he2
  | processing =>
    simp only [hst] at h
    have hcw : consumesWakeUp S.handler = false := by simp [consumesWakeUp, hst]
    simp only [hcw, Bool.false_eq_true, ↓reduceIte]
    have hacc := onProcessing_acc s0 s1 timerId h
    obtain ⟨hsem1, hq1, hc1, he1, hst1, hent1, hev1⟩ := hacc
    have hqq : ∀ w, s1.queue w = S.handler.queue w := fun w => (hq1 w).trans (hq0 w)
    refine ⟨?_, queuesOk_congr hqq h2, ?_, ?_, ?_, ?_⟩
    · show s1.m_operationWait = s1.queuedCount + S.pseudoPermits
      rw [hsem1, hsem0, queuedCount_congr _ _ hqq]
      exact h1
    · intro hc2 w
      rw [hqq w]
      exact h3 ((hc1.trans hc0) ▸ hc2) w
    · intro he2
      exact h4 ((he1.trans he0) ▸ he2)
    · rcases hev1 with hev1 | hev1
      · left
        rw [hev1, hev0]
      · right
        refine ⟨hent1.trans hent0, Or.inl ?_⟩
        rw [hev1, hev0]
        rfl
    · intro he2 hps
      exact absurd hps (hnot (Or.inr hst) ((he1.trans he0) ▸ he2))
  | exiting =>
    simp only [hst] at h
    have hcw : consumesWakeUp S.handler = false := by simp [consumesWakeUp, hst]
    simp only [hcw, Bool.false_eq_true, ↓reduceIte]
    obtain ⟨s2, hs2, hq2, hsem2, hle2, hnot2, hc2, he2, hst2, hent2, hev2⟩ :=
      doCancelAllOperations_ok s0 hok0 (by omega)
    simp only [onExiting, hs2, Option.map_some', Option.some.injEq] at h
    subst h
    have hqq : ∀ w, (s2.emit Signal.exit).queue w = s2.queue w := fun w => by cases w <;> rfl
    refine ⟨?_, queuesOk_congr hqq hq2, ?_, ?_, ?_, ?_⟩
    · show s2.m_operationWait = (s2.emit Signal.exit).queuedCount + S.pseudoPermits
      rw [queuedCount_congr _ _ hqq]
      omega
    · intro _ w
      rw [hqq w]
      exact hnot2 w
    · intro he3
      exact h4 ((he2.trans he0) ▸ he3)
    · obtain ⟨b, hb⟩ := hev2
      right
      refine ⟨hent2.trans hent0, Or.inr (Or.inr (Or.inr ⟨hst2.trans (hst0.trans hst), ?_⟩))⟩
      have hevx : (s2.emit Signal.exit).machineEvents = s2.machineEvents ++ [Signal.exit] := rfl
      rw [hevx, hb, hev0]
      cases b
      · right; left; rfl
      · right; right; rfl
    · intro _ _
      exact Or.inr (Or.inl (hst2.trans (hst0.trans hst)))
  | exit =>
    simp only [hst, Option.some.injEq] at h
    have hcw : consumesWakeUp S.handler = false := by simp [consumesWakeUp, hst]
    simp only [hcw, Bool.false_eq_true, ↓reduceIte]
    subst h
    refine ⟨?_, hok0, ?_, fun he1 => h4 (he0 ▸ he1), ?_, ?_⟩
    · show s0.m_operationWait = s0.queuedCount + S.pseudoPermits
      omega
    · intro hc w
      rw [hq0 w]
      exact h3 (hc0 ▸ hc) w
    · left
      exact hev0
    · intro _ _
      exact Or.inr (Or.inr (hst0.trans hst))

end System

namespace QueueHandler

/-- `timerEvent` either leaves the state alone or calls `operationFinished` on a
state that has the permits, queues, flags and machine of the original one. -/
theorem timerEvent_cases (s : QueueHandler) (event : Option Int) :
    s.timerEvent event = s ∨
    ∃ s0 : QueueHandler, s.timerEvent event = s0.operationFinished ∧
      s0.m_operationWait = s.m_operationWait ∧ (∀ w, s0.queue w = s.queue w) ∧
      SameControl s s0 := by
  cases event with
  | none => exact Or.inl rfl
  | some t =>
    by_cases hc : t = s.m_timerId ∧ s.m_currentOperation ≠ 0
    · right
      have hcur : s.m_currentOperation ≠ 0 := hc.2
      refine ⟨((s.log (Event.killTimer s.m_timerId)).modifyOp s.m_currentOperation
          (fun o => o.setStatus OperationTimedOut)).log (Event.cancel s.m_currentOperation),
        ?_, rfl, fun w => by cases w <;> rfl, rfl, rfl, rfl, rfl, rfl⟩
      simp only [timerEvent, hc, ne_eq, not_false_eq_true, and_self, ↓reduceIte]
      have hcur2 : (s.log (Event.killTimer s.m_timerId)).m_currentOperation ≠ 0 := hcur
      rw [if_pos hcur2]
      rfl
    · left
      simp only [timerEvent, hc, ↓reduceIte]

/-- What `started` does to the queues, the permits, the flags and the state
machine when it returns. -/
theorem started_acc (s s1 : QueueHandler) (p : Nat) (aTimeout timerId : Int)
    (h : s.started p aTimeout timerId = some s1) :
    s1.m_operationWait = s.m_operationWait ∧ (∀ w, s1.queue w = s.queue w) ∧
    SameControl s s1 := by
  unfold started at h
  by_cases hqh : ((s.modifyOp p (fun o => o.setStatus OperationRunning)).heap p).m_queueHandler
      = true
  · simp only [hqh, ↓reduceIte, Option.some.injEq] at h
    subst h
    by_cases htim : (s.modifyOp p (fun o => o.setStatus OperationRunning)).m_timerId = 0
    · simp only [startTimer, htim, ne_eq, not_true_eq_false, ↓reduceIte]
      exact ⟨rfl, fun w => by cases w <;> rfl, rfl, rfl, rfl, rfl, rfl⟩
    · simp only [startTimer, htim, ne_eq, not_false_eq_true, ↓reduceIte]
      exact ⟨rfl, fun w => by cases w <;> rfl, rfl, rfl, rfl, rfl, rfl⟩
  · exfalso
    simp only [hqh, Bool.false_eq_true, ↓reduceIte] at h
    cases h

theorem finished_cases (s s1 : QueueHandler) (p : Nat) (h : s.finished p = some s1) :
    s1 = s ∨ s1 = s.operationFinished := by
  unfold finished at h
  split at h
  · split at h
    · exact Or.inr (Option.some.inj h).symm
    · cases h
  · exact Or.inl (Option.some.inj h).symm

theorem addOperationToQueue_mem (s s1 : QueueHandler) (w : QueueRef) (p : Nat)
    (h : s.addOperationToQueue p w = some s1) : 0 < (s1.queue w).count := by
  unfold addOperationToQueue at h
  by_cases hp : p = 0
  · simp [hp] at h
  · simp only [hp, ↓reduceIte] at h
    cases hrem : s.removeOperationFromQueue (s.heap p).vid w with
    | none => simp [hrem] at h
    | some s0 =>
      simp only [hrem, Option.some.injEq] at h
      rw [← h]
      simp [OperationsQueue.enqueue, OperationsQueue.count]

end QueueHandler

namespace System

open QueueHandler

/-- Every step of a run keeps the invariant. -/
theorem inv_step (S S1 : System) (a : Action) (hinv : S.Inv) (h : S.step a = some S1) :
    S1.Inv := by
  cases a with
  | addOperation p =>
    simp only [step] at h
    by_cases hvid : (S.handler.heap p).vid = KSENTINEL_OPERATION
    · simp [hvid] at h
    · simp only [hvid, ↓reduceIte, QueueHandler.addOperation, Option.map_map,
        Option.map_eq_some'] at h
      obtain ⟨s1, hadd, rfl⟩ := h
      exact inv_add S hinv QueueRef.normal p s1 hvid hadd
  | addHighPriorityOperation p =>
    simp only [step] at h
    by_cases hvid : (S.handler.heap p).vid = KSENTINEL_OPERATION
    · simp [hvid] at h
    · simp only [hvid, ↓reduceIte, QueueHandler.addHighPriorityOperation, Option.map_map,
        Option.map_eq_some'] at h
      obtain ⟨s1, hadd, rfl⟩ := h
      exact inv_add S hinv QueueRef.high p s1 hvid hadd
  | cancelAllOperations pN pH =>
    simp only [step] at h
    split at h
    · cases h
    · simp only [Option.map_eq_some'] at h
      obtain ⟨s1, hs1, rfl⟩ := h
      exact inv_cancelAll S hinv pN pH s1 hs1
  | terminateThread =>
    simp only [step, Option.some.injEq] at h
    subst h
    exact inv_terminate S hinv
  | doCancelAllOperations =>
    simp only [step] at h
    split at h
    · rename_i hg
      simp only [Option.map_eq_some'] at h
      obtain ⟨s1, hs1, rfl⟩ := h
      obtain ⟨s2, hs2, hinv2⟩ := inv_doCancelAll S hinv hg.1
        { S.handler with scheduledCancelAll := S.handler.scheduledCancelAll - 1 } rfl
        (fun w => by cases w <;> rfl) ⟨rfl, rfl, rfl, rfl, rfl⟩
      rw [hs1] at hs2
      cases hs2
      exact hinv2
    · cases h
  | doCancelOperation i =>
    simp only [step] at h
    split at h
    · simp only [Option.map_eq_some'] at h
      obtain ⟨s1, hs1, rfl⟩ := h
      obtain ⟨s2, hs2, hinv2⟩ := inv_doCancelOperation S hinv i
      rw [hs1] at hs2
      cases hs2
      exact hinv2
    · cases h
  | timerEvent event =>
    simp only [step] at h
    split at h
    · rename_i hg
      simp only [Option.some.injEq] at h
      subst h
      rcases timerEvent_cases S.handler event with he | ⟨s0, he, hsem, hq, hctl⟩
      · rw [he]
        exact hinv
      · rw [he]
        exact inv_operationFinished S hinv hg s0 hsem hq hctl
    · cases h
  | started p aTimeout timerId =>
    simp only [step] at h
    split at h
    · simp only [Option.map_eq_some'] at h
      obtain ⟨s1, hs1, rfl⟩ := h
      obtain ⟨hsem, hq, hctl⟩ := started_acc _ _ _ _ _ hs1
      exact inv_congr hinv rfl hsem hq hctl
    · cases h
  | success p =>
    simp only [step] at h
    split at h
    · simp only [Option.some.injEq] at h
      subst h
      exact inv_congr hinv rfl rfl (fun w => by cases w <;> rfl) ⟨rfl, rfl, rfl, rfl, rfl⟩
    · cases h
  | failed p =>
    simp only [step] at h
    split at h
    · simp only [Option.some.injEq] at h
      subst h
      exact inv_congr hinv rfl rfl (fun w => by cases w <;> rfl) ⟨rfl, rfl, rfl, rfl, rfl⟩
    · cases h
  | finished p =>
    simp only [step] at h
    split at h
    · rename_i hg
      simp only [Option.map_eq_some'] at h
      obtain ⟨s1, hs1, rfl⟩ := h
      rcases finished_cases _ _ _ hs1 with he | he
      · rw [he]
        exact hinv
      · rw [he]
        exact inv_operationFinished S hinv hg.1 S.handler rfl (fun _ => rfl)
          (sameControl_refl _)
    · cases h
  | machine timerId =>
    simp only [step, Option.map_eq_some'] at h
    obtain ⟨s1, hs1, rfl⟩ := h
    by_cases hent : S.handler.machineEntering = true
    · exact inv_entry S hinv hent timerId s1 hs1
    · have hent0 : S.handler.machineEntering = false := by simpa using hent
      have hcw : consumesWakeUp S.handler = false := by simp [consumesWakeUp, hent0]
      simp only [hcw, Bool.false_eq_true, ↓reduceIte]
      exact inv_dispatch S hinv hent0 timerId s1 hs1

/-- Every state of a run that starts in a state with the invariant has the
invariant. -/
theorem inv_run (acts : List Action) (S S1 : System) (hinv : S.Inv)
    (h : S.run acts = some S1) : S1.Inv := by
  induction acts generalizing S with
  | nil =>
    simp only [run, Option.some.injEq] at h
    subst h
    exact hinv
  | cons a acts ih =>
    simp only [run] at h
    cases hs : S.step a with
    | none => simp [hs] at h
    | some S2 =>
      simp only [hs] at h
      exact ih S2 (inv_step S S2 a hinv hs) h

end System

open QueueHandler

/-! ## C7 : semaphore accounting -/

/-- C7: in every state of every run of a freshly constructed handler (submissions
of operations that do not use the sentinel id, `cancelAllOperations`,
`terminateThread`, the posted `doCancelAllOperations` and `doCancelOperation`,
timer events, calls of executing operations, and the state entries `onWaiting`
with its three branches, `onProcessing` and `onExiting`, each as one atomic
step) the permits of `m_operationWait` are the entries of the normal queue plus
the entries of the high queue plus the outstanding pseudo-permits. In such a
state `addOperation`, `addHighPriorityOperation`, `cancelAllOperations`,
`doCancelAllOperations`, `doCancelOperation` and `onExiting` return, that is,
none of their acquires finds the semaphore empty, and `onWaiting` returns
exactly when its initial acquire finds a permit. -/
theorem semaphore_accounting (heap : Nat → AbstractOperation) (canContinue : Bool)
    (timerId : Int) (acts : List Action) (S : System)
    (hrun : (System.init heap canContinue timerId).run acts = some S) :
    S.handler.m_operationWait =
      S.handler.m_normalPriorityQueue.count + S.handler.m_highPriorityQueue.count +
        S.pseudoPermits ∧
    (∀ p, p ≠ 0 → (S.handler.addOperation p).isSome = true) ∧
    (∀ p, p ≠ 0 → (S.handler.addHighPriorityOperation p).isSome = true) ∧
    (∀ pN pH, pN ≠ 0 → pH ≠ 0 → (S.handler.cancelAllOperations pN pH).isSome = true) ∧
    S.handler.doCancelAllOperations.isSome = true ∧
    (∀ i, (S.handler.doCancelOperation i).isSome = true) ∧
    S.handler.onExiting.isSome = true ∧
    (S.handler.onWaiting.isSome = true ↔ 0 < S.handler.m_operationWait) := by
  have hinv := System.inv_run acts _ S (System.init_inv heap canContinue timerId) hrun
  obtain ⟨h1, h2, h3, h4, h5, h6⟩ := hinv
  have hperm : S.handler.queuedCount ≤ S.handler.m_operationWait := by omega
  have hadd : ∀ w p, p ≠ 0 → ∃ s1, S.handler.addOperationToQueue p w = some s1 :=
    fun w p hp => addOperationToQueue_returns S.handler w p hp h2
      (Nat.le_trans (queuedCount_ge _ w) hperm)
  obtain ⟨sc, hsc, _⟩ := doCancelAllOperations_ok S.handler h2 hperm
  refine ⟨h1, ?_, ?_, ?_, ?_, ?_, ?_, ?_⟩
  · intro p hp
    obtain ⟨s1, hs1⟩ := hadd QueueRef.normal p hp
    simp [QueueHandler.addOperation, hs1]
  · intro p hp
    obtain ⟨s1, hs1⟩ := hadd QueueRef.high p hp
    simp [QueueHandler.addHighPriorityOperation, hs1]
  · intro pN pH hpN hpH
    have hqa : (S.handler.newSentinel pN).QueuesOk :=
      queuesOk_congr (fun w => by cases w <;> rfl) h2
    obtain ⟨s2, hs2⟩ := addOperationToQueue_returns (S.handler.newSentinel pN)
      QueueRef.normal pN hpN hqa (Nat.le_trans (queuedCount_ge _ _) hperm)
    obtain ⟨hq2, hsem2, _, _⟩ := addOperationToQueue_ok _ _ _ _ hqa hs2
    have hpos2 := addOperationToQueue_mem _ _ _ _ hs2
    have hsem2' : s2.m_operationWait + 1 + S.handler.queuedCount =
        S.handler.m_operationWait + s2.queuedCount := hsem2
    have hcnt2 : s2.queuedCount =
        (s2.queue QueueRef.normal).count + (s2.queue QueueRef.high).count := rfl
    have hqb : (s2.newSentinel pH).QueuesOk :=
      queuesOk_congr (fun w => by cases w <;> rfl) hq2
    obtain ⟨s4, hs4⟩ := addOperationToQueue_returns (s2.newSentinel pH)
      QueueRef.high pH hpH hqb (by
        show (s2.queue QueueRef.high).count ≤ s2.m_operationWait
        omega)
    simp [QueueHandler.cancelAllOperations, hs2, hs4]
  · simp [hsc]
  · intro i
    obtain ⟨s1, hs1, _⟩ := doCancelOperation_ok S.handler i h2 hperm
    simp [hs1]
  · simp [onExiting, hsc]
  · by_cases hp : 1 ≤ S.handler.m_operationWait
    · have hp' : 0 < S.handler.m_operationWait := hp
      simp only [hp', iff_true]
      simp only [onWaiting, acquire, hp, ↓reduceIte]
      split
      · rfl
      · split <;> rfl
    · have hp' : ¬ 0 < S.handler.m_operationWait := hp
      simp [onWaiting, acquire, hp, hp']

/-- Witness for C7: the run `bulkCancelTwiceRun` of a fresh handler over
`sampleHeap`. -/
theorem semaphore_accounting_witness :
    ∃ S, (System.init sampleHeap false 0).run bulkCancelTwiceRun = some S ∧
      S.handler.m_operationWait =
        S.handler.m_normalPriorityQueue.count + S.handler.m_highPriorityQueue.count +
          S.pseudoPermits ∧
      (∀ p, p ≠ 0 → (S.handler.addOperation p).isSome = true) ∧
      (∀ p, p ≠ 0 → (S.handler.addHighPriorityOperation p).isSome = true) ∧
      (∀ pN pH, pN ≠ 0 → pH ≠ 0 → (S.handler.cancelAllOperations pN pH).isSome = true) ∧
      S.handler.doCancelAllOperations.isSome = true ∧
      (∀ i, (S.handler.doCancelOperation i).isSome = true) ∧
      S.handler.onExiting.isSome = true ∧
      (S.handler.onWaiting.isSome = true ↔ 0 < S.handler.m_operationWait) :=
  (Option.isSome_iff_exists.mp
    (show ((System.init sampleHeap false 0).run bulkCancelTwiceRun).isSome = true from rfl)).elim
    fun S hS => ⟨S, hS, semaphore_accounting sampleHeap false 0 bulkCancelTwiceRun S hS⟩

namespace QueueHandler

/-! ## C11 : `finished()` of a timed-out operation -/

/-- C11 (failing input): let the status of the operation `p` be TimedOut, as
`timerEvent` leaves it after having ended `p`. A `finished()` that `p` calls in
this status returns without calling `operationFinished()`. When `p` first calls
`success()` or `failed()`, as the lifecycle contract asks, the status TimedOut
is overwritten and `finished()` does call `operationFinished()`: it posts
`operationNeeded` (after `emptyQueue` when both queues are empty), and when
another operation is current by then it clears `m_currentOperation` and
`m_timerId`, kills the timer of that operation and delivers its completion with
the status it has at that moment. -/
theorem finished_after_timeout_reaches_operationFinished (s : QueueHandler) (p : Nat)
    (hst : (s.heap p).status = OperationTimedOut) (hq : (s.heap p).m_queueHandler = true) :
    s.finished p = some s ∧
    (s.success p).finished p = some (s.success p).operationFinished ∧
    (s.failed p).finished p = some (s.failed p).operationFinished ∧
    (∀ s1, s1 = s.success p ∨ s1 = s.failed p →
      s1.operationFinished.m_currentOperation = 0 ∧
      s1.operationFinished.machineEvents = s.machineEvents ++
        ((if s.m_normalPriorityQueue.count = 0 ∧ s.m_highPriorityQueue.count = 0
          then [Signal.emptyQueue] else []) ++ [Signal.operationNeeded]) ∧
      (s.m_currentOperation ≠ 0 →
        s1.operationFinished.m_timerId = 0 ∧
        s1.operationFinished.trace = s.trace ++
          ((if s.m_timerId ≠ 0 then [Event.killTimer s.m_timerId] else []) ++
           [Event.cleanThreadSpecificResources s.m_currentOperation] ++
           deliveryEvents (s1.heap s.m_currentOperation) s.m_currentOperation
             (s1.heap s.m_currentOperation).status ++
           (if s.m_normalPriorityQueue.count = 0 ∧ s.m_highPriorityQueue.count = 0
             then [Event.emit Signal.emptyQueue] else []) ++
           [Event.emit Signal.operationNeeded]))) := by
  have h1 : ((s.heap p).success).status = OperationSuccess :=
    AbstractOperation.status_setStatus _ _ (by decide)
  have h2 : ((s.heap p).failed).status = OperationFailed :=
    AbstractOperation.status_setStatus _ _ (by decide)
  refine ⟨?_, ?_, ?_, ?_⟩
  · simp [finished, hst]
  · have : ((s.success p).heap p).status ≠ OperationTimedOut := by
      simp only [success, modifyOp, Function.update_same, h1]; decide
    have hq2 : ((s.success p).heap p).m_queueHandler = true := by
      simpa [success, modifyOp, AbstractOperation.success, AbstractOperation.setStatus] using hq
    simp [finished, this, hq2]
  · have : ((s.failed p).heap p).status ≠ OperationTimedOut := by
      simp only [failed, modifyOp, Function.update_same, h2]; decide
    have hq2 : ((s.failed p).heap p).m_queueHandler = true := by
      simpa [failed, modifyOp, AbstractOperation.failed, AbstractOperation.setStatus] using hq
    simp [finished, this, hq2]
  · intro s1 hs1
    have hcur : s1.m_currentOperation = s.m_currentOperation := by
      rcases hs1 with rfl | rfl <;> rfl
    have htim : s1.m_timerId = s.m_timerId := by rcases hs1 with rfl | rfl <;> rfl
    have htr : s1.trace = s.trace := by rcases hs1 with rfl | rfl <;> rfl
    have hev : s1.machineEvents = s.machineEvents := by rcases hs1 with rfl | rfl <;> rfl
    have hn : s1.m_normalPriorityQueue = s.m_normalPriorityQueue := by
      rcases hs1 with rfl | rfl <;> rfl
    have hh : s1.m_highPriorityQueue = s.m_highPriorityQueue := by
      rcases hs1 with rfl | rfl <;> rfl
    by_cases hc0 : s.m_currentOperation = 0 <;>
    by_cases ht0 : s.m_timerId = 0 <;>
    by_cases hobs : (s1.heap s.m_currentOperation).m_observer = 0 <;>
    by_cases hqe : s.m_normalPriorityQueue.count = 0 ∧ s.m_highPriorityQueue.count = 0 <;>
    simp [operationFinished, hcur, htim, htr, hev, hn, hh, hc0, ht0, hobs, hqe, endOperation,
      log, emit, deliveryEvents]

/-- Witness for C11, in the state `sampleAfterTimeout`: operation 1 has timed
out, operation 2 is current and Running with timer 12. After `success()` and
`finished()` of operation 1 no operation is current, no timer is armed and the
completion of operation 2 has been delivered with status Running. -/
theorem finished_after_timeout_reaches_operationFinished_witness :
    (sampleAfterTimeout.heap 1).status = OperationTimedOut ∧
    (sampleAfterTimeout.heap 1).m_queueHandler = true ∧
    (sampleAfterTimeout.success 1).finished 1 =
      some (sampleAfterTimeout.success 1).operationFinished ∧
    (sampleAfterTimeout.m_currentOperation, sampleAfterTimeout.m_timerId,
      (sampleAfterTimeout.heap 2).status) = (2, 12, OperationRunning) ∧
    ((sampleAfterTimeout.success 1).finished 1).map (fun s1 =>
      (s1.m_currentOperation, s1.m_timerId, (s1.heap 2).status,
        s1.trace.count (Event.endOperation 2 OperationRunning))) =
      some (0, 0, OperationRunning, 1) :=
  ⟨rfl, rfl,
   (finished_after_timeout_reaches_operationFinished sampleAfterTimeout 1 rfl rfl).2.1,
   rfl, rfl⟩

end QueueHandler

/-- A status value without bits in the lower half leaves `customCode()` as it
was. -/
theorem AbstractOperation.customCode_setStatus (o : AbstractOperation) (a : Nat)
    (ha : a &&& MASK_OperationCustomStatusCode = 0) :
    (o.setStatus a).customCode = o.customCode := by
  show (a ||| (MASK_OperationCustomStatusCode &&& o.m_status)) &&& MASK_OperationCustomStatusCode
    = o.m_status &&& MASK_OperationCustomStatusCode
  rw [Nat.and_distrib_right, ha, Nat.zero_or,
    Nat.and_comm MASK_OperationCustomStatusCode o.m_status, Nat.and_assoc, Nat.and_self]

theorem AbstractOperation.setStatus_lt (o : AbstractOperation) (a : Nat)
    (ha : a < 2 ^ 32) : (o.setStatus a).m_status < 2 ^ 32 := by
  show a ||| (MASK_OperationCustomStatusCode &&& o.m_status) < 2 ^ 32
  apply Nat.or_lt_two_pow ha
  have h1 : MASK_OperationCustomStatusCode &&& o.m_status ≤ MASK_OperationCustomStatusCode :=
    Nat.and_le_left
  have h2 : MASK_OperationCustomStatusCode < 2 ^ 32 := by decide
  omega

/-! ## C13, C14 : the status word -/

/-- C13: for every status word `m_status` and every enumerator `a` of
`OperationStatus`, after `setStatus(a)` the reader `status()` returns `a` and
`customCode()` returns what it returned before, and the word still fits 32 bits;
`success()` and `failed()` do the same with Success and Failed, and `started()`,
which returns whenever `m_queueHandler` is set, with Running. -/
theorem status_transitions_preserve_customCode (o : AbstractOperation) (a : Nat)
    (ha : a ∈ [OperationNotStarted, OperationRunning, OperationSuccess, OperationTimedOut,
      OperationCancelled, OperationFailed]) :
    ((o.setStatus a).status = a ∧ (o.setStatus a).customCode = o.customCode ∧
      (o.setStatus a).m_status < 2 ^ 32) ∧
    (o.success.status = OperationSuccess ∧ o.success.customCode = o.customCode) ∧
    (o.failed.status = OperationFailed ∧ o.failed.customCode = o.customCode) ∧
    (∀ (s : QueueHandler) (p : Nat) (aTimeout timerId : Int),
      s.heap p = o → o.m_queueHandler = true →
      ∃ s1, s.started p aTimeout timerId = some s1 ∧
        (s1.heap p).status = OperationRunning ∧ (s1.heap p).customCode = o.customCode) := by
  have key : ∀ b ∈ [OperationNotStarted, OperationRunning, OperationSuccess, OperationTimedOut,
      OperationCancelled, OperationFailed],
      (o.setStatus b).status = b ∧ (o.setStatus b).customCode = o.customCode ∧
        (o.setStatus b).m_status < 2 ^ 32 := by
    intro b hb
    simp only [List.mem_cons, List.mem_singleton, List.not_mem_nil, or_false] at hb
    rcases hb with rfl | rfl | rfl | rfl | rfl | rfl <;>
    exact ⟨AbstractOperation.status_setStatus _ _ (by decide),
      AbstractOperation.customCode_setStatus _ _ (by decide),
      AbstractOperation.setStatus_lt _ _ (by decide)⟩
  refine ⟨key a ha, ?_, ?_, ?_⟩
  · exact ⟨(key OperationSuccess (by simp)).1, (key OperationSuccess (by simp)).2.1⟩
  · exact ⟨(key OperationFailed (by simp)).1, (key OperationFailed (by simp)).2.1⟩
  · intro s p aTimeout timerId hheap hqh
    subst hheap
    have hr := key OperationRunning (by simp)
    refine ⟨(s.modifyOp p (fun o => o.setStatus OperationRunning)).startTimer aTimeout timerId,
      ?_, ?_, ?_⟩
    · simp [QueueHandler.started, QueueHandler.modifyOp, AbstractOperation.setStatus, hqh]
    · by_cases ht : s.m_timerId = 0 <;>
        simpa [QueueHandler.startTimer, QueueHandler.modifyOp, QueueHandler.log, ht] using hr.1
    · by_cases ht : s.m_timerId = 0 <;>
        simpa [QueueHandler.startTimer, QueueHandler.modifyOp, QueueHandler.log, ht] using hr.2.1

/-- Witness for C13: a Running operation with custom code 7 that times out. -/
theorem status_transitions_preserve_customCode_witness :
    OperationTimedOut ∈ [OperationNotStarted, OperationRunning, OperationSuccess,
      OperationTimedOut, OperationCancelled, OperationFailed] ∧
    ((({ (sampleHeap 5) with m_status := 0x00020007 } : AbstractOperation).setStatus
        OperationTimedOut).status = OperationTimedOut ∧
     (({ (sampleHeap 5) with m_status := 0x00020007 } : AbstractOperation).setStatus
        OperationTimedOut).customCode = 7) :=
  ⟨by decide,
   (status_transitions_preserve_customCode { (sampleHeap 5) with m_status := 0x00020007 }
      OperationTimedOut (by decide)).1.1,
   (status_transitions_preserve_customCode { (sampleHeap 5) with m_status := 0x00020007 }
      OperationTimedOut (by decide)).1.2.1⟩

/-- C14 (failing input): for every status word and every code `c`, after
`setCustomCode(c)` the reader `status()` returns `0`, which is no enumerator of
`OperationStatus`, and `customCode()` returns the bitwise AND of the previous
custom code and `c`. An operation that called `failed()` and then
`setCustomCode(7)` reports status `0` and custom code `0`. -/
theorem setCustomCode_wipes_status (o : AbstractOperation) (c : Nat) :
    (o.setCustomCode c).status = 0 ∧
    (o.setCustomCode c).customCode = o.customCode &&& c ∧
    ((AbstractOperation.new 1 100 ['1', 'f', '(', ')']).failed.status = OperationFailed ∧
     ((AbstractOperation.new 1 100 ['1', 'f', '(', ')']).failed.setCustomCode 7).status = 0 ∧
     ((AbstractOperation.new 1 100 ['1', 'f', '(', ')']).failed.setCustomCode 7).customCode = 0) := by
  have hm : MASK_OperationCustomStatusCode &&& MASK_OperationStatus = 0 := by decide
  refine ⟨?_, ?_, by decide, by decide, by decide⟩
  · show (o.m_status &&& (MASK_OperationCustomStatusCode &&& c)) &&& MASK_OperationStatus = 0
    rw [Nat.and_comm MASK_OperationCustomStatusCode c, ← Nat.and_assoc, Nat.and_assoc, hm,
      Nat.and_zero]
  · show (o.m_status &&& (MASK_OperationCustomStatusCode &&& c)) &&& MASK_OperationCustomStatusCode
      = (o.m_status &&& MASK_OperationCustomStatusCode) &&& c
    apply Nat.eq_of_testBit_eq
    intro i
    simp only [Nat.testBit_and]
    generalize o.m_status.testBit i = x
    generalize MASK_OperationCustomStatusCode.testBit i = y
    generalize c.testBit i = z
    cases x <;> cases y <;> cases z <;> rfl

/-- Position of the first occurrence of a byte. -/
theorem QByteArray.indexOf_append (name rest : List Char) (c : Char) (hc : c ∉ name) :
    QByteArray.indexOf (name ++ c :: rest) c = (name.length : Int) := by
  have h : (name ++ c :: rest).indexOf? c = some name.length := by
    induction name with
    | nil => simp [List.indexOf?, List.findIdx?_cons]
    | cons a t ih =>
      simp only [List.mem_cons, not_or] at hc
      have hne : (a == c) = false := by
        simpa using fun h => hc.1 h.symm
      have ih2 := ih hc.2
      simp only [List.indexOf?] at ih2 ⊢
      simp [List.findIdx?_cons, hne, List.findIdx?_succ, ih2]
  simp [QByteArray.indexOf, h]

theorem QByteArray.indexOf_absent (b : List Char) (c : Char) (hc : c ∉ b) :
    QByteArray.indexOf b c = -1 := by
  have h : b.indexOf? c = none := by
    induction b with
    | nil => simp [List.indexOf?]
    | cons a t ih =>
      simp only [List.mem_cons, not_or] at hc
      have hne : (a == c) = false := by
        simpa using fun h => hc.1 h.symm
      have ih2 := ih hc.2
      simp only [List.indexOf?] at ih2 ⊢
      simp [List.findIdx?_cons, hne, List.findIdx?_succ, ih2]
  simp [QByteArray.indexOf, h]

theorem QByteArray.left_append (name rest : List Char) (c : Char) :
    QByteArray.left (name ++ c :: rest) (name.length : Int) = name := by
  unfold QByteArray.left
  have h1 : ¬ (((name ++ c :: rest).length : Int) ≤ (name.length : Int)) := by
    simp only [List.length_append, List.length_cons]
    omega
  have h2 : ¬ ((name.length : Int) < 0) := by omega
  simp [h1, h2]

theorem QByteArray.left_neg_one (b : List Char) : QByteArray.left b (-1) = [] := by
  unfold QByteArray.left
  have h1 : ¬ ((b.length : Int) ≤ -1) := by omega
  simp [h1]

namespace QueueHandler

/-! ## C15 : name of the callback method -/

/-- C15 (failing input): let `p` be an operation constructed with observer
`aObserver` and slot string `aSlot` (the characters of the C string), so that
the stored callback name is `aSlot` without its first character.

* With an observer and a callback name `name ++ "(" ++ rest` in which `name`
  holds no `(`, `endOperation` invokes the method `name` on the observer, with
  the operation as argument.
* With an observer and a callback name without `(`, `indexOf` returns `-1`,
  `left(-1)` is the empty array and `endOperation` invokes the method with the
  empty name: the callback name is not used whole.
* Without observer `endOperation` invokes nothing. -/
theorem endOperation_callback_name (s : QueueHandler) (p : Nat) (vid : Int) (aObserver : Nat)
    (aSlot : List Char) (hp : p ≠ 0)
    (hobs : (s.heap p).m_observer = (AbstractOperation.new vid aObserver aSlot).m_observer)
    (hslot : (s.heap p).m_slotToBeCalled =
      (AbstractOperation.new vid aObserver aSlot).m_slotToBeCalled) :
    (aObserver ≠ 0 → ∀ name rest : List Char, aSlot.drop 1 = name ++ '(' :: rest → '(' ∉ name →
      s.endOperation p = { s with trace := s.trace ++
        [Event.endOperation p (s.heap p).status, Event.invokeMethod aObserver name p] }) ∧
    (aObserver ≠ 0 → '(' ∉ aSlot.drop 1 →
      s.endOperation p = { s with trace := s.trace ++
        [Event.endOperation p (s.heap p).status, Event.invokeMethod aObserver [] p] }) ∧
    (aObserver = 0 →
      s.endOperation p = { s with trace := s.trace ++
        [Event.endOperation p (s.heap p).status] }) := by
  simp only [AbstractOperation.new] at hobs hslot
  refine ⟨?_, ?_, ?_⟩
  · intro ho name rest hname hnot
    simp only [ho, ne_eq, not_false_eq_true, ↓reduceIte, hname] at hslot
    simp [endOperation, hp, hobs, hslot, ho, log, QByteArray.indexOf_append _ _ _ hnot,
      QByteArray.left_append]
  · intro ho hnot
    simp only [ho, ne_eq, not_false_eq_true, ↓reduceIte] at hslot
    generalize aSlot.drop 1 = name at hslot hnot
    simp [endOperation, hp, hobs, hslot, ho, log, QByteArray.indexOf_absent _ _ hnot,
      QByteArray.left_neg_one]
  · intro ho
    simp [endOperation, hp, hobs, ho, log]

/-- Witness for C15, in the state `sampleBareSlot`: the stored callback name of
operation 5 is `done`, and `endOperation` invokes the method with the empty
name on the observer. -/
theorem endOperation_callback_name_witness :
    (5 : Nat) ≠ 0 ∧
    (sampleBareSlot.heap 5).m_observer =
      (AbstractOperation.new 5 100 ['1', 'd', 'o', 'n', 'e']).m_observer ∧
    (sampleBareSlot.heap 5).m_slotToBeCalled =
      (AbstractOperation.new 5 100 ['1', 'd', 'o', 'n', 'e']).m_slotToBeCalled ∧
    (sampleBareSlot.heap 5).m_slotToBeCalled = ['d', 'o', 'n', 'e'] ∧
    sampleBareSlot.endOperation 5 = { sampleBareSlot with trace := sampleBareSlot.trace ++
        [Event.endOperation 5 (sampleBareSlot.heap 5).status, Event.invokeMethod 100 [] 5] } :=
  ⟨by decide, rfl, rfl, rfl,
   (endOperation_callback_name sampleBareSlot 5 5 100 ['1', 'd', 'o', 'n', 'e'] (by decide)
      rfl rfl).2.1 (by decide) (by decide)⟩

/-! ## C16 : Waiting entry without a dequeuable operation -/

/-- C16 (failing input): when neither `m_cancelAllOperations` nor `m_exitThread`
is set, a permit is available and each queue is empty or has a sentinel at its
head, `onWaiting` obtains no operation, emits `operationNeeded` and then goes
on: it sets `m_currentOperation` to null, sets
`m_currentOperationCanContinue` and emits `operationRetrieved` as well. The
queues are left as they are. -/
theorem onWaiting_without_operation_emits_retrieved (s : QueueHandler)
    (hc : s.m_cancelAllOperations = false) (he : s.m_exitThread = false)
    (hperm : 0 < s.m_operationWait)
    (hH : s.m_highPriorityQueue.m_queue = [] ∨
      s.m_highPriorityQueue.head = some KSENTINEL_OPERATION)
    (hN : s.m_normalPriorityQueue.m_queue = [] ∨
      s.m_normalPriorityQueue.head = some KSENTINEL_OPERATION) :
    ∃ s1, s.onWaiting = some s1 ∧
      s1.m_currentOperation = 0 ∧ s1.m_currentOperationCanContinue = true ∧
      s1.m_normalPriorityQueue = s.m_normalPriorityQueue ∧
      s1.m_highPriorityQueue = s.m_highPriorityQueue ∧
      s1.machineEvents = s.machineEvents ++ [Signal.operationNeeded, Signal.operationRetrieved] ∧
      s1.trace = s.trace ++
        ((if s.m_highPriorityQueue.m_queue = [] then [] else [Event.inconsistentState]) ++
         (if s.m_normalPriorityQueue.m_queue = [] then [] else [Event.inconsistentState]) ++
         [Event.inconsistentState, Event.emit Signal.operationNeeded,
          Event.emit Signal.operationRetrieved]) := by
  have hperm1 : 1 ≤ s.m_operationWait := hperm
  rcases hH with hH | hH <;> rcases hN with hN | hN
  · simp [onWaiting, acquire, hperm1, hc, he, dequeueOperation, OperationsQueue.count, hH, hN,
      queue, log, emit, setCurrentOperationCanContinue]
  · have hN2 : s.m_normalPriorityQueue.m_queue ≠ [] := by
      intro h; simp [OperationsQueue.head, h] at hN
    have hN3 : s.m_normalPriorityQueue.m_queue.length ≠ 0 := by
      simpa using hN2
    simp [onWaiting, acquire, hperm1, hc, he, dequeueOperation, OperationsQueue.count, hH, hN,
      hN2, hN3, queue, log, emit, setCurrentOperationCanContinue]
  · have hH2 : s.m_highPriorityQueue.m_queue ≠ [] := by
      intro h; simp [OperationsQueue.head, h] at hH
    have hH3 : s.m_highPriorityQueue.m_queue.length ≠ 0 := by
      simpa using hH2
    simp [onWaiting, acquire, hperm1, hc, he, dequeueOperation, OperationsQueue.count, hH, hN,
      hH2, hH3, queue, log, emit, setCurrentOperationCanContinue]
  · have hN2 : s.m_normalPriorityQueue.m_queue ≠ [] := by
      intro h; simp [OperationsQueue.head, h] at hN
    have hN3 : s.m_normalPriorityQueue.m_queue.length ≠ 0 := by
      simpa using hN2
    have hH2 : s.m_highPriorityQueue.m_queue ≠ [] := by
      intro h; simp [OperationsQueue.head, h] at hH
    have hH3 : s.m_highPriorityQueue.m_queue.length ≠ 0 := by
      simpa using hH2
    simp [onWaiting, acquire, hperm1, hc, he, dequeueOperation, OperationsQueue.count, hH, hN,
      hH2, hH3, hN2, hN3, queue, log, emit, setCurrentOperationCanContinue]

/-- Witness for C16, in the state `sampleSentinelHeads`: `onWaiting` posts
`operationNeeded` and `operationRetrieved` with no current operation, and four
processing steps of the state machine later Processing is about to be entered
without current operation. -/
theorem onWaiting_without_operation_emits_retrieved_witness :
    sampleSentinelHeads.m_cancelAllOperations = false ∧
    sampleSentinelHeads.m_exitThread = false ∧
    0 < sampleSentinelHeads.m_operationWait ∧
    (∃ s1, sampleSentinelHeads.onWaiting = some s1 ∧ s1.m_currentOperation = 0 ∧
      s1.machineEvents = [Signal.operationNeeded, Signal.operationRetrieved]) ∧
    (machineSteps 0 4 sampleSentinelHeads).map (fun s1 =>
      (s1.machineState, s1.machineEntering, s1.m_currentOperation)) =
      some (MachineState.processing, true, 0) :=
  ⟨rfl, rfl, by decide,
   (onWaiting_without_operation_emits_retrieved sampleSentinelHeads rfl rfl (by decide)
      (Or.inr rfl) (Or.inr rfl)).imp (fun _ h => ⟨h.1, h.2.1, h.2.2.2.2.2.1⟩),
   rfl⟩

end QueueHandler

/-! ## Lemmas on the loops of `doCancelAllOperations` -/

namespace QueueHandler

theorem cancelledIds_append_survivingIds (l : List Int) :
    cancelledIds l ++ survivingIds l = l := by
  induction l with
  | nil => rfl
  | cons k rest ih =>
    by_cases hk : k = KSENTINEL_OPERATION
    · simp [cancelledIds, survivingIds, hk]
    · simp [cancelledIds, survivingIds, hk, ih]

theorem cancelledIds_of_sentinel (pre suf : List Int) (hpre : KSENTINEL_OPERATION ∉ pre) :
    cancelledIds (pre ++ KSENTINEL_OPERATION :: suf) = pre ++ [KSENTINEL_OPERATION] ∧
    survivingIds (pre ++ KSENTINEL_OPERATION :: suf) = suf := by
  induction pre with
  | nil => simp [cancelledIds, survivingIds]
  | cons k rest ih =>
    simp only [List.mem_cons, not_or] at hpre
    have hk : k ≠ KSENTINEL_OPERATION := fun h => hpre.1 h.symm
    simp [cancelledIds, survivingIds, hk, ih hpre.2]

theorem cancelledIds_of_no_sentinel (l : List Int) (hl : KSENTINEL_OPERATION ∉ l) :
    cancelledIds l = l ∧ survivingIds l = [] := by
  induction l with
  | nil => simp [cancelledIds, survivingIds]
  | cons k rest ih =>
    simp only [List.mem_cons, not_or] at hl
    have hk : k ≠ KSENTINEL_OPERATION := fun h => hl.1 h.symm
    simp [cancelledIds, survivingIds, hk, ih hl.2]

theorem cancelledIds_length_le (l : List Int) : (cancelledIds l).length ≤ l.length := by
  have h := congrArg List.length (cancelledIds_append_survivingIds l)
  simp only [List.length_append] at h
  omega

theorem mem_of_mem_cancelledIds (l : List Int) (k : Int) (hk : k ∈ cancelledIds l) : k ∈ l := by
  rw [← cancelledIds_append_survivingIds l]
  exact List.mem_append_left _ hk

theorem mem_of_mem_survivingIds (l : List Int) (k : Int) (hk : k ∈ survivingIds l) : k ∈ l := by
  rw [← cancelledIds_append_survivingIds l]
  exact List.mem_append_right _ hk

theorem removalEvents_congr (s s1 : QueueHandler) (p : Nat)
    (ho : (s1.heap p).m_observer = (s.heap p).m_observer)
    (hs : (s1.heap p).m_slotToBeCalled = (s.heap p).m_slotToBeCalled) :
    removalEvents s1 p = removalEvents s p := by
  simp [removalEvents, deliveryEvents, ho, hs]

theorem removalEventsAll_congr (s s1 : QueueHandler) (ps : List Nat)
    (ho : ∀ p, (s1.heap p).m_observer = (s.heap p).m_observer)
    (hs : ∀ p, (s1.heap p).m_slotToBeCalled = (s.heap p).m_slotToBeCalled) :
    removalEventsAll s1 ps = removalEventsAll s ps := by
  induction ps with
  | nil => rfl
  | cons p ps ih =>
    simp only [removalEventsAll, ih, removalEvents_congr s s1 p (ho p) (hs p)]

theorem afterCancelLoop_nil (s : QueueHandler) (w : QueueRef)
    (hl : (s.queue w).m_queue = []) : afterCancelLoop s w = s := by
  have hf : (s.queue w).m_hash.filter (fun e => e.1 ∉ ([] : List Int)) = (s.queue w).m_hash := by
    rw [List.filter_eq_self]; intro e _; simp
  unfold afterCancelLoop
  simp only [hl, cancelledIds, survivingIds, hf, List.map_nil, cancelledHeapAll, List.foldl_nil,
    removalEventsAll, List.append_nil, List.length_nil, Nat.sub_zero]
  rw [← hl, setQueue_queue]

/-- The state `removeOperationFromQueue` reaches for the id at the head. -/
theorem afterCancelLoop_step (s : QueueHandler) (w : QueueRef) (k : Int) (rest : List Int)
    (hl : (s.queue w).m_queue = k :: rest) (hk : k ≠ KSENTINEL_OPERATION)
    (hc : (s.queue w).Consistent) :
    afterCancelLoop
      { s.setQueue w { m_queue := rest,
                       m_hash := (s.queue w).m_hash.filter (fun e => e.1 ≠ k) } with
        heap := cancelledHeap s.heap ((s.queue w).value k)
        trace := s.trace ++ removalEvents s ((s.queue w).value k)
        m_operationWait := s.m_operationWait - 1 } w = afterCancelLoop s w := by
  have hnd : (k :: rest).Nodup := hl ▸ hc.1
  have hkrest : k ∉ rest := (List.nodup_cons.mp hnd).1
  have hfilter : ((s.queue w).m_hash.filter (fun e => e.1 ≠ k)).filter
      (fun e => e.1 ∉ cancelledIds rest) =
      (s.queue w).m_hash.filter (fun e => e.1 ∉ k :: cancelledIds rest) := by
    rw [List.filter_filter]
    apply List.filter_congr
    intro e _
    simp only [List.mem_cons, not_or, ne_eq, decide_not, Bool.and_eq_true, Bool.not_eq_eq_eq_not,
      Bool.not_true, decide_eq_false_iff_not, decide_eq_true_eq]
    by_cases h1 : e.1 = k <;> by_cases h2 : e.1 ∈ cancelledIds rest <;> simp [h1, h2]
  have hvals : (cancelledIds rest).map
      (OperationsQueue.value
        (OperationsQueue.mk rest ((s.queue w).m_hash.filter (fun e => e.1 ≠ k)))) =
      (cancelledIds rest).map (s.queue w).value := by
    apply List.map_congr_left
    intro k' hk'
    have hne : k' ≠ k := fun h => hkrest (h ▸ mem_of_mem_cancelledIds _ _ hk')
    simp only [OperationsQueue.value, QHash.lookup_filter_ne _ _ _ hne]
  have hev : ∀ ps, removalEventsAll
      { s.setQueue w { m_queue := rest,
                       m_hash := (s.queue w).m_hash.filter (fun e => e.1 ≠ k) } with
        heap := cancelledHeap s.heap ((s.queue w).value k)
        trace := s.trace ++ removalEvents s ((s.queue w).value k)
        m_operationWait := s.m_operationWait - 1 } ps = removalEventsAll s ps := by
    intro ps
    apply removalEventsAll_congr
    · intro p; exact (cancelledHeap_static s.heap _ p).2.1
    · intro p; exact (cancelledHeap_static s.heap _ p).2.2
  unfold afterCancelLoop
  rw [hev]
  cases w <;>
  simp only [queue, setQueue] at hl hfilter hvals ⊢ <;>
  simp only [hl, cancelledIds, survivingIds, hk, ↓reduceIte, hfilter, hvals, cancelledHeapAll,
    removalEventsAll, List.map_cons, List.foldl_cons, List.append_assoc, List.length_cons,
    Nat.sub_sub, Nat.add_comm 1]

/-- The state `removeOperationFromQueue` reaches for the id at the head of a
well-formed queue when a permit is available. -/
theorem removeOperationFromQueue_head (s : QueueHandler) (w : QueueRef) (k : Int)
    (rest : List Int) (hl : (s.queue w).m_queue = k :: rest)
    (hc : (s.queue w).Consistent) (hn : (s.queue w).NonNull) (hperm : 0 < s.m_operationWait) :
    s.removeOperationFromQueue k w = some
      { s.setQueue w { m_queue := rest,
                       m_hash := (s.queue w).m_hash.filter (fun e => e.1 ≠ k) } with
        heap := cancelledHeap s.heap ((s.queue w).value k)
        trace := s.trace ++ removalEvents s ((s.queue w).value k)
        m_operationWait := s.m_operationWait - 1 } := by
  have hp : (s.queue w).value k ≠ 0 :=
    OperationsQueue.value_ne_zero_of_mem _ _ hc hn (by rw [hl]; exact List.mem_cons_self _ _)
  have hp2 : ((s.queue w).m_hash.lookup k).getD 0 ≠ 0 := hp
  rw [removeOperationFromQueue_eq s w k (fun _ => hperm)]
  simp only [hl, List.erase_cons_head, hp2, ↓reduceIte, OperationsQueue.value]

theorem queue_with_same (s : QueueHandler) (w : QueueRef) (q : OperationsQueue)
    (heap : Nat → AbstractOperation) (trace : List Event) (m : Nat) :
    QueueHandler.queue
      { s.setQueue w q with heap := heap, trace := trace, m_operationWait := m } w = q := by
  cases w <;> rfl

theorem cancelLoop_eq (w : QueueRef) (fuel : Nat) (s : QueueHandler)
    (hc : (s.queue w).Consistent) (hn : (s.queue w).NonNull)
    (hfuel : (s.queue w).count ≤ fuel)
    (hperm : (cancelledIds (s.queue w).m_queue).length ≤ s.m_operationWait) :
    cancelLoop w fuel s = some (afterCancelLoop s w) := by
  induction fuel generalizing s with
  | zero =>
    have hnil : (s.queue w).m_queue = [] := List.length_eq_zero.mp (Nat.le_zero.mp hfuel)
    rw [afterCancelLoop_nil s w hnil]
    rfl
  | succ n ih =>
    cases hmq : (s.queue w).m_queue with
    | nil =>
      rw [afterCancelLoop_nil s w hmq]
      simp [cancelLoop, OperationsQueue.head, hmq]
    | cons k rest =>
      have hpos : 0 < s.m_operationWait := by
        rw [hmq] at hperm
        by_cases hk : k = KSENTINEL_OPERATION
        · simp [cancelledIds, hk] at hperm; omega
        · simp [cancelledIds, hk] at hperm; omega
      have hrem := removeOperationFromQueue_head s w k rest hmq hc hn hpos
      have hc1 := OperationsQueue.remove_consistent _ k hc
      have hn1 := OperationsQueue.remove_nonNull _ k hn
      simp only [OperationsQueue.remove, QHash.take, hmq, List.erase_cons_head] at hc1 hn1
      by_cases hk : k = KSENTINEL_OPERATION
      · subst hk
        rw [cancelLoop]
        simp only [OperationsQueue.head, hmq, List.head?_cons, hrem, ↓reduceIte]
        have hf : (s.queue w).m_hash.filter (fun e => e.1 ∉ [KSENTINEL_OPERATION]) =
            (s.queue w).m_hash.filter (fun e => e.1 ≠ KSENTINEL_OPERATION) := by
          apply List.filter_congr
          intro e _
          simp
        unfold afterCancelLoop
        simp only [hmq, cancelledIds, survivingIds, ↓reduceIte, hf, List.map_cons,
          List.map_nil, cancelledHeapAll, List.foldl_cons, List.foldl_nil, removalEventsAll,
          List.append_nil, List.length_cons, List.length_nil, Nat.zero_add]
      · rw [cancelLoop]
        simp only [OperationsQueue.head, hmq, List.head?_cons, hrem, hk, ↓reduceIte]
        rw [← afterCancelLoop_step s w k rest hmq hk hc]
        apply ih
        · rw [queue_with_same]; exact hc1
        · rw [queue_with_same]; exact hn1
        · have : (s.queue w).count = rest.length + 1 := by simp [OperationsQueue.count, hmq]
          rw [queue_with_same]
          simp only [OperationsQueue.count] at *
          omega
        · rw [queue_with_same]
          rw [hmq] at hperm
          simp only [cancelledIds, hk, ↓reduceIte, List.length_cons] at hperm
          show (cancelledIds rest).length ≤ s.m_operationWait - 1
          omega

end QueueHandler

namespace QueueHandler

theorem cancelledHeapAll_cons (heap : Nat → AbstractOperation) (p : Nat) (ps : List Nat) :
    cancelledHeapAll heap (p :: ps) = cancelledHeapAll (cancelledHeap heap p) ps := rfl

theorem cancelledHeapAll_other (ps : List Nat) (heap : Nat → AbstractOperation) (q : Nat)
    (h : q ∉ ps) : cancelledHeapAll heap ps q = heap q := by
  induction ps generalizing heap with
  | nil => rfl
  | cons p ps ih =>
    simp only [List.mem_cons, not_or] at h
    rw [cancelledHeapAll_cons, ih _ h.2, cancelledHeap_other heap p q (Or.inr h.1)]

theorem cancelledHeapAll_static (ps : List Nat) (heap : Nat → AbstractOperation) (q : Nat) :
    (cancelledHeapAll heap ps q).vid = (heap q).vid ∧
    (cancelledHeapAll heap ps q).m_observer = (heap q).m_observer ∧
    (cancelledHeapAll heap ps q).m_slotToBeCalled = (heap q).m_slotToBeCalled := by
  induction ps generalizing heap with
  | nil => exact ⟨rfl, rfl, rfl⟩
  | cons p ps ih =>
    rw [cancelledHeapAll_cons]
    obtain ⟨h1, h2, h3⟩ := ih (cancelledHeap heap p)
    obtain ⟨g1, g2, g3⟩ := cancelledHeap_static heap p q
    exact ⟨h1.trans g1, h2.trans g2, h3.trans g3⟩

theorem cancelledHeapAll_status_of_cancelled (ps : List Nat) (heap : Nat → AbstractOperation)
    (q : Nat) (h : (heap q).status = OperationCancelled) :
    (cancelledHeapAll heap ps q).status = OperationCancelled := by
  induction ps generalizing heap with
  | nil => exact h
  | cons p ps ih =>
    rw [cancelledHeapAll_cons]
    exact ih _ (cancelledHeap_status_of_cancelled heap p q h)

theorem cancelledHeapAll_status (ps : List Nat) (heap : Nat → AbstractOperation) (q : Nat)
    (hq : q ∈ ps) (h0 : q ≠ 0) : (cancelledHeapAll heap ps q).status = OperationCancelled := by
  induction ps generalizing heap with
  | nil => cases hq
  | cons p ps ih =>
    rw [cancelledHeapAll_cons]
    by_cases hqp : q = p
    · subst hqp
      exact cancelledHeapAll_status_of_cancelled _ _ _ (cancelledHeap_self heap q h0)
    · rcases List.mem_cons.mp hq with h | h
      · exact absurd h hqp
      · exact ih _ h

theorem count_removalEvents (s : QueueHandler) (q p : Nat) (hp : p ≠ 0) :
    (removalEvents s q).count (Event.endOperation p OperationCancelled) =
      if q = p then 1 else 0 := by
  by_cases hqp : q = p
  · subst hqp
    by_cases hobs : (s.heap q).m_observer = 0 <;>
      simp [removalEvents, hp, deliveryEvents, hobs, List.count_cons]
  · rw [if_neg hqp]
    by_cases hq0 : q = 0
    · simp [removalEvents, hq0]
    · by_cases hobs : (s.heap q).m_observer = 0 <;>
        simp [removalEvents, hq0, deliveryEvents, hobs, List.count_cons, hqp]

theorem count_removalEventsAll (s : QueueHandler) (ps : List Nat) (p : Nat) (hp : p ≠ 0) :
    (removalEventsAll s ps).count (Event.endOperation p OperationCancelled) = ps.count p := by
  induction ps with
  | nil => rfl
  | cons q ps ih =>
    simp only [removalEventsAll, List.count_append, ih, count_removalEvents s q p hp,
      List.count_cons, beq_iff_eq]
    omega

theorem count_currentCancelEvents (s : QueueHandler) (p : Nat) (hp : p ≠ 0) :
    (currentCancelEvents s).count (Event.endOperation p OperationCancelled) =
      if s.m_currentOperation = p then 1 else 0 := by
  by_cases hqp : s.m_currentOperation = p
  · rw [if_pos hqp]
    by_cases hobs : (s.heap p).m_observer = 0 <;>
    by_cases ht : s.m_timerId = 0 <;>
      simp [currentCancelEvents, hqp, hp, deliveryEvents, hobs, ht, List.count_cons]
  · rw [if_neg hqp]
    by_cases hc0 : s.m_currentOperation = 0
    · simp [currentCancelEvents, hc0]
    · by_cases hobs : (s.heap s.m_currentOperation).m_observer = 0 <;>
      by_cases ht : s.m_timerId = 0 <;>
        simp [currentCancelEvents, hc0, deliveryEvents, hobs, hqp, ht, List.count_cons]

/-- The last part of `doCancelAllOperations`, behind the two loops. -/
theorem cancelTail_fields (s2 : QueueHandler) :
    ∃ t : QueueHandler,
      ((if s2.m_currentOperation ≠ 0 then
          (s2.modifyOp s2.m_currentOperation (fun o => o.setStatus OperationCancelled)).log
            (Event.cancel s2.m_currentOperation)
        else s2).setCancelAllOperations false).operationFinished = t ∧
      t.m_normalPriorityQueue = s2.m_normalPriorityQueue ∧
      t.m_highPriorityQueue = s2.m_highPriorityQueue ∧
      t.heap = cancelledHeap s2.heap s2.m_currentOperation ∧
      t.trace = s2.trace ++ (currentCancelEvents s2 ++
        ((if s2.m_normalPriorityQueue.count = 0 ∧ s2.m_highPriorityQueue.count = 0
          then [Event.emit Signal.emptyQueue] else []) ++ [Event.emit Signal.operationNeeded])) ∧
      t.m_operationWait = s2.m_operationWait ∧
      t.m_currentOperation = 0 ∧
      t.m_cancelAllOperations = false ∧
      t.m_exitThread = s2.m_exitThread ∧
      t.m_timerId = (if s2.m_currentOperation = 0 then s2.m_timerId else 0) ∧
      t.m_currentOperationCanContinue = s2.m_currentOperationCanContinue ∧
      t.scheduledCancelAll = s2.scheduledCancelAll ∧
      t.machineState = s2.machineState ∧ t.machineEntering = s2.machineEntering ∧
      t.machineEvents = s2.machineEvents ++
        ((if s2.m_normalPriorityQueue.count = 0 ∧ s2.m_highPriorityQueue.count = 0
          then [Signal.emptyQueue] else []) ++ [Signal.operationNeeded]) := by
  refine ⟨_, rfl, ?_⟩
  have hst := status_setStatus_cancelled (s2.heap s2.m_currentOperation)
  by_cases hc0 : s2.m_currentOperation = 0 <;>
  by_cases ht : s2.m_timerId = 0 <;>
  by_cases hobs : (s2.heap s2.m_currentOperation).m_observer = 0 <;>
  by_cases hqe : s2.m_normalPriorityQueue.count = 0 ∧ s2.m_highPriorityQueue.count = 0 <;>
  simp [operationFinished, setCancelAllOperations, modifyOp, log, emit, endOperation, hc0, ht,
    hobs, hqe, hst, currentCancelEvents, deliveryEvents, cancelledHeap]

theorem currentCancelEvents_congr (s s2 : QueueHandler)
    (hc : s2.m_currentOperation = s.m_currentOperation) (ht : s2.m_timerId = s.m_timerId)
    (ho : ∀ p, (s2.heap p).m_observer = (s.heap p).m_observer)
    (hs : ∀ p, (s2.heap p).m_slotToBeCalled = (s.heap p).m_slotToBeCalled) :
    currentCancelEvents s2 = currentCancelEvents s := by
  simp only [currentCancelEvents, deliveryEvents, hc, ht, ho, hs]

/-- What `doCancelAllOperations` does in a state with well-formed queues and a
permit for every entry the loops remove. -/
theorem doCancelAllOperations_fields (s : QueueHandler) (hq : s.QueuesOk)
    (hperm : (cancelledIds s.m_normalPriorityQueue.m_queue).length +
      (cancelledIds s.m_highPriorityQueue.m_queue).length ≤ s.m_operationWait) :
    ∃ t : QueueHandler, s.doCancelAllOperations = some t ∧
      t.m_normalPriorityQueue.m_queue = survivingIds s.m_normalPriorityQueue.m_queue ∧
      t.m_normalPriorityQueue.m_hash = s.m_normalPriorityQueue.m_hash.filter
        (fun e => e.1 ∉ cancelledIds s.m_normalPriorityQueue.m_queue) ∧
      t.m_highPriorityQueue.m_queue = survivingIds s.m_highPriorityQueue.m_queue ∧
      t.m_highPriorityQueue.m_hash = s.m_highPriorityQueue.m_hash.filter
        (fun e => e.1 ∉ cancelledIds s.m_highPriorityQueue.m_queue) ∧
      t.heap = cancelledHeap
        (cancelledHeapAll
          (cancelledHeapAll s.heap
            ((cancelledIds s.m_normalPriorityQueue.m_queue).map s.m_normalPriorityQueue.value))
          ((cancelledIds s.m_highPriorityQueue.m_queue).map s.m_highPriorityQueue.value))
        s.m_currentOperation ∧
      t.trace = s.trace ++
        (removalEventsAll s
          ((cancelledIds s.m_normalPriorityQueue.m_queue).map s.m_normalPriorityQueue.value) ++
         (removalEventsAll s
          ((cancelledIds s.m_highPriorityQueue.m_queue).map s.m_highPriorityQueue.value) ++
         (currentCancelEvents s ++
         ((if survivingIds s.m_normalPriorityQueue.m_queue = [] ∧
              survivingIds s.m_highPriorityQueue.m_queue = []
            then [Event.emit Signal.emptyQueue] else []) ++
          [Event.emit Signal.operationNeeded])))) ∧
      t.m_operationWait = s.m_operationWait -
        (cancelledIds s.m_normalPriorityQueue.m_queue).length -
        (cancelledIds s.m_highPriorityQueue.m_queue).length ∧
      t.m_currentOperation = 0 ∧
      t.m_cancelAllOperations = false ∧
      t.m_exitThread = s.m_exitThread ∧
      t.m_timerId = (if s.m_currentOperation = 0 then s.m_timerId else 0) ∧
      t.m_currentOperationCanContinue = s.m_currentOperationCanContinue ∧
      t.scheduledCancelAll = s.scheduledCancelAll ∧
      t.machineState = s.machineState ∧ t.machineEntering = s.machineEntering ∧
      t.machineEvents = s.machineEvents ++
        ((if survivingIds s.m_normalPriorityQueue.m_queue = [] ∧
              survivingIds s.m_highPriorityQueue.m_queue = []
          then [Signal.emptyQueue] else []) ++ [Signal.operationNeeded]) := by
  have h1 := cancelLoop_eq QueueRef.normal s.m_normalPriorityQueue.count s
    (hq QueueRef.normal).1 (hq QueueRef.normal).2 (Nat.le_refl _)
    (by simp only [queue]; omega)
  have h2 := cancelLoop_eq QueueRef.high s.m_highPriorityQueue.count
    (afterCancelLoop s QueueRef.normal)
    (hq QueueRef.high).1 (hq QueueRef.high).2 (Nat.le_refl _)
    (by
      show (cancelledIds s.m_highPriorityQueue.m_queue).length ≤
        s.m_operationWait - (cancelledIds s.m_normalPriorityQueue.m_queue).length
      omega)
  obtain ⟨t, ht, hN, hH, hheap, htrace, hperm2, hcur, hca, hex, htim, hcc, hsc, hms, hme, hmev⟩ :=
    cancelTail_fields (afterCancelLoop (afterCancelLoop s QueueRef.normal) QueueRef.high)
  refine ⟨t, ?_, ?_, ?_, ?_, ?_, ?_, ?_, ?_, hcur, hca, ?_, ?_, ?_, ?_, ?_, ?_, ?_⟩
  · unfold doCancelAllOperations
    rw [h1]
    simp only
    have h2b : cancelLoop QueueRef.high
        (afterCancelLoop s QueueRef.normal).m_highPriorityQueue.count
        (afterCancelLoop s QueueRef.normal) =
        some (afterCancelLoop (afterCancelLoop s QueueRef.normal) QueueRef.high) := h2
    rw [h2b]
    simp only
    rw [← ht]
  · rw [hN]; rfl
  · rw [hN]; rfl
  · rw [hH]; rfl
  · rw [hH]; rfl
  · rw [hheap]; rfl
  · rw [htrace]
    have e1 : removalEventsAll (afterCancelLoop s QueueRef.normal)
        ((cancelledIds s.m_highPriorityQueue.m_queue).map s.m_highPriorityQueue.value) =
        removalEventsAll s
          ((cancelledIds s.m_highPriorityQueue.m_queue).map s.m_highPriorityQueue.value) :=
      removalEventsAll_congr _ _ _
        (fun p => (cancelledHeapAll_static _ s.heap p).2.1)
        (fun p => (cancelledHeapAll_static _ s.heap p).2.2)
    have e2 : currentCancelEvents
        (afterCancelLoop (afterCancelLoop s QueueRef.normal) QueueRef.high) =
        currentCancelEvents s :=
      currentCancelEvents_congr _ _ rfl rfl
        (fun p => ((cancelledHeapAll_static _ _ p).2.1).trans
          (cancelledHeapAll_static _ s.heap p).2.1)
        (fun p => ((cancelledHeapAll_static _ _ p).2.2).trans
          (cancelledHeapAll_static _ s.heap p).2.2)
    rw [e2]
    show (s.trace ++ removalEventsAll s _) ++ removalEventsAll (afterCancelLoop s QueueRef.normal)
        ((cancelledIds s.m_highPriorityQueue.m_queue).map s.m_highPriorityQueue.value) ++ _ = _
    rw [e1]
    simp only [List.append_assoc, OperationsQueue.count, List.length_eq_zero]
    rfl
  · rw [hperm2]; rfl
  · rw [hex]; rfl
  · rw [htim]; rfl
  · rw [hcc]; rfl
  · rw [hsc]; rfl
  · rw [hms]; rfl
  · rw [hme]; rfl
  · rw [hmev]
    simp only [OperationsQueue.count, List.length_eq_zero]
    rfl

end QueueHandler

namespace QueueHandler

theorem cancelled_disjoint_surviving (l : List Int) (hnd : l.Nodup) (k : Int)
    (h1 : k ∈ cancelledIds l) (h2 : k ∈ survivingIds l) : False := by
  have h := hnd
  rw [← cancelledIds_append_survivingIds l] at h
  exact (List.nodup_append.mp h).2.2 h1 h2

theorem filter_not_cancelled (q : OperationsQueue) (hc : q.Consistent) :
    q.m_hash.filter (fun e => e.1 ∉ cancelledIds q.m_queue) =
      q.m_hash.filter (fun e => e.1 ∈ survivingIds q.m_queue) := by
  apply List.filter_congr
  intro e he
  have hmem : e.1 ∈ q.m_queue := hc.2.2 _ (List.mem_map.mpr ⟨e, he, rfl⟩)
  have hsplit : e.1 ∈ cancelledIds q.m_queue ∨ e.1 ∈ survivingIds q.m_queue := by
    rw [← cancelledIds_append_survivingIds q.m_queue] at hmem
    exact List.mem_append.mp hmem
  by_cases h1 : e.1 ∈ cancelledIds q.m_queue
  · have h2 : e.1 ∉ survivingIds q.m_queue :=
      fun h2 => cancelled_disjoint_surviving _ hc.1 _ h1 h2
    simp [h1, h2]
  · have h2 : e.1 ∈ survivingIds q.m_queue := hsplit.resolve_left h1
    simp [h1, h2]

theorem removedOperations_nodup (s : QueueHandler) (w : QueueRef)
    (hc : (s.queue w).Consistent) (hn : (s.queue w).NonNull)
    (hk : (s.queue w).KeyedById s.heap) : (removedOperations s w).Nodup := by
  unfold removedOperations
  have hnd : (cancelledIds (s.queue w).m_queue).Nodup := by
    have h := hc.1
    rw [← cancelledIds_append_survivingIds (s.queue w).m_queue] at h
    exact (List.nodup_append.mp h).1
  refine List.Nodup.map_on ?_ hnd
  intro x hx y hy hxy
  have hvx := OperationsQueue.value_ne_zero_of_mem _ _ hc hn (mem_of_mem_cancelledIds _ _ hx)
  have hvy := OperationsQueue.value_ne_zero_of_mem _ _ hc hn (mem_of_mem_cancelledIds _ _ hy)
  have h1 := value_keyed _ _ x hk hvx
  have h2 := value_keyed _ _ y hk hvy
  rw [← h1, ← h2, hxy]

theorem survivor_not_removed (s : QueueHandler) (w : QueueRef)
    (hc : (s.queue w).Consistent) (hn : (s.queue w).NonNull)
    (hk : (s.queue w).KeyedById s.heap) (k : Int)
    (hks : k ∈ survivingIds (s.queue w).m_queue) :
    (s.queue w).value k ∉ removedOperations s w := by
  intro hmem
  obtain ⟨k', hk', heq⟩ := List.mem_map.mp hmem
  have hvx := OperationsQueue.value_ne_zero_of_mem _ _ hc hn (mem_of_mem_cancelledIds _ _ hk')
  have hvy := OperationsQueue.value_ne_zero_of_mem _ _ hc hn (mem_of_mem_survivingIds _ _ hks)
  have h1 := value_keyed _ _ k' hk hvx
  have h2 := value_keyed _ _ k hk hvy
  have : k' = k := by rw [← h1, ← h2, heq]
  subst this
  exact cancelled_disjoint_surviving _ hc.1 _ hk' hks

/-! ## `doCancelAllOperations` in well-formed states -/

/-- Bulk cancellation, per queue entry: in a handler state whose queues are
consistent, hold no null pointer and key every operation by its id, and whose
semaphore holds a permit per queued entry, `doCancelAllOperations` returns and,
for each of the two queues:

* when the ordered ids are `pre ++ [sentinel] ++ suf` with no sentinel id in
  `pre`, the loop removes the operations of `pre` and the sentinel, and the queue
  is left with the ids `suf`, in the same order, mapped as before;
* when the queue holds no sentinel id, every operation is removed and the queue
  is left empty;
* no operation is removed twice from the queue, every removed operation ends
  with status Cancelled, and no operation the queue keeps is among those removed
  from it.

Every removed operation is delivered once per removal with status Cancelled
(after its clean-up hook, normal queue first), followed by the cancellation of
the current operation. An operation object is left unchanged, status included,
when it is not among the operations removed from either queue and is not the
current operation; an operation that the queue keeps but that is also removed
from the other queue, or is current, is not covered. -/
theorem doCancelAllOperations_bounded_by_sentinel (s : QueueHandler)
    (hNc : s.m_normalPriorityQueue.Consistent) (hHc : s.m_highPriorityQueue.Consistent)
    (hNn : s.m_normalPriorityQueue.NonNull) (hHn : s.m_highPriorityQueue.NonNull)
    (hNk : s.m_normalPriorityQueue.KeyedById s.heap)
    (hHk : s.m_highPriorityQueue.KeyedById s.heap)
    (hperm : s.m_normalPriorityQueue.count + s.m_highPriorityQueue.count ≤ s.m_operationWait) :
    ∃ s1, s.doCancelAllOperations = some s1 ∧
      (∀ w pre suf, (s.queue w).m_queue = pre ++ KSENTINEL_OPERATION :: suf →
        KSENTINEL_OPERATION ∉ pre →
        removedOperations s w = (pre ++ [KSENTINEL_OPERATION]).map (s.queue w).value ∧
        (s1.queue w).m_queue = suf ∧
        (s1.queue w).m_hash = (s.queue w).m_hash.filter (fun e => e.1 ∈ suf)) ∧
      (∀ w, KSENTINEL_OPERATION ∉ (s.queue w).m_queue →
        removedOperations s w = (s.queue w).m_queue.map (s.queue w).value ∧
        s1.queue w = OperationsQueue.empty) ∧
      (∀ w, (removedOperations s w).Nodup ∧
        (∀ p ∈ removedOperations s w, p ≠ 0 ∧ (s1.heap p).status = OperationCancelled) ∧
        (∀ k ∈ (s1.queue w).m_queue, (s.queue w).value k ∉ removedOperations s w)) ∧
      s1.trace = s.trace ++
        (removalEventsAll s (removedOperations s QueueRef.normal) ++
         (removalEventsAll s (removedOperations s QueueRef.high) ++
         (currentCancelEvents s ++
         ((if s1.m_normalPriorityQueue.count = 0 ∧ s1.m_highPriorityQueue.count = 0
            then [Event.emit Signal.emptyQueue] else []) ++
          [Event.emit Signal.operationNeeded])))) ∧
      (∀ p, p ≠ 0 → s1.trace.count (Event.endOperation p OperationCancelled) =
        s.trace.count (Event.endOperation p OperationCancelled) +
          (removedOperations s QueueRef.normal).count p +
          (removedOperations s QueueRef.high).count p +
          (if s.m_currentOperation = p then 1 else 0)) ∧
      (∀ p, p ∉ removedOperations s QueueRef.normal → p ∉ removedOperations s QueueRef.high →
        p ≠ s.m_currentOperation → s1.heap p = s.heap p) := by
  have hq : s.QueuesOk := fun w => by
    cases w
    · exact ⟨hNc, hNn⟩
    · exact ⟨hHc, hHn⟩
  have hk : ∀ w, (s.queue w).KeyedById s.heap := fun w => by
    cases w
    · exact hNk
    · exact hHk
  have hl1 := cancelledIds_length_le s.m_normalPriorityQueue.m_queue
  have hl2 := cancelledIds_length_le s.m_highPriorityQueue.m_queue
  simp only [OperationsQueue.count] at hperm
  obtain ⟨t, ht, hNq, hNh, hHq, hHh, hheap, htrace, -, -, -, -, -, -, -, -, -, -⟩ :=
    doCancelAllOperations_fields s hq (by omega)
  have hqueue : ∀ w, (t.queue w).m_queue = survivingIds (s.queue w).m_queue ∧
      (t.queue w).m_hash = (s.queue w).m_hash.filter
        (fun e => e.1 ∈ survivingIds (s.queue w).m_queue) := fun w => by
    cases w
    · exact ⟨hNq, hNh.trans (filter_not_cancelled _ hNc)⟩
    · exact ⟨hHq, hHh.trans (filter_not_cancelled _ hHc)⟩
  have hnz : ∀ w, ∀ p ∈ removedOperations s w, p ≠ 0 := fun w p hp => by
    obtain ⟨k, hk1, rfl⟩ := List.mem_map.mp hp
    exact OperationsQueue.value_ne_zero_of_mem _ _ (hq w).1 (hq w).2
      (mem_of_mem_cancelledIds _ _ hk1)
  refine ⟨t, ht, ?_, ?_, ?_, ?_, ?_, ?_⟩
  · intro w pre suf hform hpre
    obtain ⟨h1, h2⟩ := cancelledIds_of_sentinel pre suf hpre
    rw [← hform] at h1 h2
    refine ⟨?_, ?_, ?_⟩
    · simp only [removedOperations, h1]
    · rw [(hqueue w).1, h2]
    · rw [(hqueue w).2, h2]
  · intro w hno
    obtain ⟨h1, h2⟩ := cancelledIds_of_no_sentinel _ hno
    refine ⟨?_, ?_⟩
    · simp only [removedOperations, h1]
    · have hm := (hqueue w).1
      have hh := (hqueue w).2
      rw [h2] at hm hh
      have hh2 : (t.queue w).m_hash = [] := by
        rw [hh]
        apply List.filter_eq_nil_iff.mpr
        intro e _
        simp
      cases hte : t.queue w with
      | mk a b =>
        rw [hte] at hm hh2
        simp only at hm hh2
        rw [hm, hh2]
        rfl
  · intro w
    refine ⟨removedOperations_nodup s w (hq w).1 (hq w).2 (hk w), ?_, ?_⟩
    · intro p hp
      refine ⟨hnz w p hp, ?_⟩
      rw [hheap]
      apply cancelledHeap_status_of_cancelled
      cases w
      · exact cancelledHeapAll_status_of_cancelled _ _ _
          (cancelledHeapAll_status _ _ _ hp (hnz _ p hp))
      · exact cancelledHeapAll_status _ _ _ hp (hnz _ p hp)
    · intro k hkm
      rw [(hqueue w).1] at hkm
      exact survivor_not_removed s w (hq w).1 (hq w).2 (hk w) k hkm
  · rw [htrace]
    have e1 : t.m_normalPriorityQueue.count = 0 ↔
        survivingIds s.m_normalPriorityQueue.m_queue = [] := by
      rw [OperationsQueue.count, hNq, List.length_eq_zero]
    have e2 : t.m_highPriorityQueue.count = 0 ↔
        survivingIds s.m_highPriorityQueue.m_queue = [] := by
      rw [OperationsQueue.count, hHq, List.length_eq_zero]
    simp only [e1, e2]
    rfl
  · intro p hp
    rw [htrace]
    have c1 := count_removalEventsAll s (removedOperations s QueueRef.normal) p hp
    have c2 := count_removalEventsAll s (removedOperations s QueueRef.high) p hp
    have c3 := count_currentCancelEvents s p hp
    simp only [removedOperations, queue] at c1 c2
    have c4 : ∀ (b : Prop) [Decidable b],
        (if b then [Event.emit Signal.emptyQueue] else []).count
          (Event.endOperation p OperationCancelled) = 0 := by
      intro b _
      split <;> simp
    have c5 : [Event.emit Signal.operationNeeded].count
        (Event.endOperation p OperationCancelled) = 0 := by simp
    simp only [List.count_append, c1, c2, c3, c4, c5, removedOperations, queue]
    omega
  · intro p h1 h2 h3
    have a1 := cancelledHeapAll_other (removedOperations s QueueRef.high)
      (cancelledHeapAll s.heap (removedOperations s QueueRef.normal)) p h2
    have a2 := cancelledHeapAll_other (removedOperations s QueueRef.normal) s.heap p h1
    rw [hheap, cancelledHeap_other _ _ _ (Or.inr h3)]
    exact a1.trans a2

/-- The three processing steps of the state machine that begin with a Waiting
entry under `m_exitThread`, from a state with well-formed queues that hold no
sentinel and with a permit left beyond those of the queued entries. -/
theorem shutdown_steps (s : QueueHandler) (timerId : Int) (hq : s.QueuesOk)
    (hns : ∀ w, KSENTINEL_OPERATION ∉ (s.queue w).m_queue)
    (hperm : s.queuedCount + 1 ≤ s.m_operationWait)
    (hc : s.m_cancelAllOperations = false) (he : s.m_exitThread = true)
    (hst : s.machineState = MachineState.waiting) (hent : s.machineEntering = true)
    (hev : s.machineEvents = []) :
    ∃ s1 s2 s3 : QueueHandler,
      s.machineStep timerId = some s1 ∧ s1.machineStep timerId = some s2 ∧
      s2.machineStep timerId = some s3 ∧
      (s1.trace = s.trace ++ [Event.emit Signal.cleanUpAndExit] ∧
        s1.m_normalPriorityQueue = s.m_normalPriorityQueue ∧
        s1.m_highPriorityQueue = s.m_highPriorityQueue ∧
        s1.m_currentOperation = s.m_currentOperation ∧ s1.heap = s.heap) ∧
      (s2.machineState = MachineState.exiting ∧ s2.machineEntering = true) ∧
      s3.m_normalPriorityQueue = OperationsQueue.empty ∧
      s3.m_highPriorityQueue = OperationsQueue.empty ∧
      s3.m_currentOperation = 0 ∧
      s3.trace = s.trace ++ ([Event.emit Signal.cleanUpAndExit] ++
        (removalEventsAll s (queuedOperations s QueueRef.normal) ++
        (removalEventsAll s (queuedOperations s QueueRef.high) ++
        (currentCancelEvents s ++
          [Event.emit Signal.emptyQueue, Event.emit Signal.operationNeeded,
            Event.emit Signal.exit])))) ∧
      (∀ p, p ≠ 0 → s3.trace.count (Event.endOperation p OperationCancelled) =
        s.trace.count (Event.endOperation p OperationCancelled) +
          (queuedOperations s QueueRef.normal).count p +
          (queuedOperations s QueueRef.high).count p +
          (if s.m_currentOperation = p then 1 else 0)) ∧
      (∀ p, p ≠ 0 → (p ∈ queuedOperations s QueueRef.normal ∨
          p ∈ queuedOperations s QueueRef.high ∨ p = s.m_currentOperation) →
        (s3.heap p).status = OperationCancelled) ∧
      (∀ w, ∀ p ∈ queuedOperations s w, p ≠ 0) ∧
      (s3.machineState = MachineState.exiting ∧ s3.machineEntering = false ∧
        s3.machineEvents = [Signal.emptyQueue, Signal.operationNeeded, Signal.exit]) := by
  have hperm1 : 1 ≤ s.m_operationWait := by omega
  have hcN := cancelledIds_of_no_sentinel _ (hns QueueRef.normal)
  have hcH := cancelledIds_of_no_sentinel _ (hns QueueRef.high)
  simp only [queue] at hcN hcH
  -- the state at the entry of Exiting
  have hq2 : QueuesOk
      { s with
        machineEntering := false
        machineState := MachineState.exiting
        machineEvents := []
        m_operationWait := s.m_operationWait - 1
        trace := s.trace ++ [Event.emit Signal.cleanUpAndExit] } :=
    queuesOk_congr (fun w => by cases w <;> rfl) hq
  have hlen : s.queuedCount =
      s.m_normalPriorityQueue.m_queue.length + s.m_highPriorityQueue.m_queue.length := rfl
  obtain ⟨t, ht, hNq, hNh, hHq, hHh, hheap, htrace, -, hcur, -, -, -, -, -, hms, hme, hmev⟩ :=
    doCancelAllOperations_fields _ hq2 (by
      show (cancelledIds s.m_normalPriorityQueue.m_queue).length +
        (cancelledIds s.m_highPriorityQueue.m_queue).length ≤ s.m_operationWait - 1
      rw [hcN.1, hcH.1]
      omega)
  simp only [hcN.1, hcN.2, hcH.1, hcH.2] at hNq hNh hHq hHh hheap htrace hmev
  have e1 : ∀ ps, removalEventsAll
      { s with
        machineEntering := false
        machineState := MachineState.exiting
        machineEvents := []
        m_operationWait := s.m_operationWait - 1
        trace := s.trace ++ [Event.emit Signal.cleanUpAndExit] } ps = removalEventsAll s ps :=
    fun ps => removalEventsAll_congr _ _ ps (fun _ => rfl) (fun _ => rfl)
  have htr3 : (t.emit Signal.exit).trace = s.trace ++ ([Event.emit Signal.cleanUpAndExit] ++
        (removalEventsAll s (queuedOperations s QueueRef.normal) ++
        (removalEventsAll s (queuedOperations s QueueRef.high) ++
        (currentCancelEvents s ++
          [Event.emit Signal.emptyQueue, Event.emit Signal.operationNeeded,
            Event.emit Signal.exit])))) := by
    show t.trace ++ [Event.emit Signal.exit] = _
    rw [htrace, e1, e1]
    simp only [queuedOperations, queue, List.append_assoc, and_self, ↓reduceIte,
      List.singleton_append, List.cons_append, List.nil_append]
    rfl
  refine ⟨
    { s with
      machineEntering := false
      m_operationWait := s.m_operationWait - 1
      trace := s.trace ++ [Event.emit Signal.cleanUpAndExit]
      machineEvents := [Signal.cleanUpAndExit] },
    { s with
      machineEntering := true
      machineState := MachineState.exiting
      machineEvents := []
      m_operationWait := s.m_operationWait - 1
      trace := s.trace ++ [Event.emit Signal.cleanUpAndExit] },
    t.emit Signal.exit, ?_, ?_, ?_, ⟨rfl, rfl, rfl, rfl, rfl⟩, ⟨rfl, rfl⟩, ?_, ?_, hcur, ?_, ?_, ?_,
    ?_, ?_⟩
  · simp [machineStep, hent, hst, onWaiting, acquire, hperm1, hc, he, emit, hev]
  · simp [machineStep, hst, transition]
  · simp only [machineStep, ↓reduceIte, onExiting]
    rw [ht]
    rfl
  · have hm : t.m_normalPriorityQueue.m_queue = [] := hNq
    have hh : t.m_normalPriorityQueue.m_hash = [] := by
      rw [hNh]
      apply List.filter_eq_nil_iff.mpr
      intro e hmem
      have : e.1 ∈ s.m_normalPriorityQueue.m_queue :=
        (hq QueueRef.normal).1.2.2 _ (List.mem_map.mpr ⟨e, hmem, rfl⟩)
      simpa using this
    show t.m_normalPriorityQueue = OperationsQueue.empty
    cases hte : t.m_normalPriorityQueue with
    | mk a b =>
      rw [hte] at hm hh
      simp only at hm hh
      rw [hm, hh]
      rfl
  · have hm : t.m_highPriorityQueue.m_queue = [] := hHq
    have hh : t.m_highPriorityQueue.m_hash = [] := by
      rw [hHh]
      apply List.filter_eq_nil_iff.mpr
      intro e hmem
      have : e.1 ∈ s.m_highPriorityQueue.m_queue :=
        (hq QueueRef.high).1.2.2 _ (List.mem_map.mpr ⟨e, hmem, rfl⟩)
      simpa using this
    show t.m_highPriorityQueue = OperationsQueue.empty
    cases hte : t.m_highPriorityQueue with
    | mk a b =>
      rw [hte] at hm hh
      simp only at hm hh
      rw [hm, hh]
      rfl
  · exact htr3
  · intro p hp
    rw [htr3]
    have c1 := count_removalEventsAll s (queuedOperations s QueueRef.normal) p hp
    have c2 := count_removalEventsAll s (queuedOperations s QueueRef.high) p hp
    have c3 := count_currentCancelEvents s p hp
    have c4 : [Event.emit Signal.cleanUpAndExit].count
        (Event.endOperation p OperationCancelled) = 0 := by simp
    have c5 : [Event.emit Signal.emptyQueue, Event.emit Signal.operationNeeded,
        Event.emit Signal.exit].count (Event.endOperation p OperationCancelled) = 0 := by simp
    simp only [List.count_append, c1, c2, c3, c4, c5]
    omega
  · intro p hp hmem
    show (t.heap p).status = OperationCancelled
    rw [hheap]
    rcases hmem with h | h | h
    · exact cancelledHeap_status_of_cancelled _ _ _
        (cancelledHeapAll_status_of_cancelled _ _ _ (cancelledHeapAll_status _ _ _ h hp))
    · exact cancelledHeap_status_of_cancelled _ _ _ (cancelledHeapAll_status _ _ _ h hp)
    · subst h
      exact cancelledHeap_self _ _ hp
  · intro w p hmem
    obtain ⟨k, hk1, rfl⟩ := List.mem_map.mp hmem
    exact OperationsQueue.value_ne_zero_of_mem _ _ (hq w).1 (hq w).2 hk1
  · refine ⟨hms, hme, ?_⟩
    show t.machineEvents ++ [Signal.exit] = _
    rw [hmev]
    simp

end QueueHandler

namespace QueueHandler

/-- Instance of the lemma on bulk cancellation, in the state
`sampleBulkCancel`: operations 1, 2 and 5 and both sentinels are removed and end
Cancelled, operations 3 and 6 stay queued and are unchanged. -/
theorem doCancelAllOperations_bounded_by_sentinel_witness :
    ∃ s1, sampleBulkCancel.doCancelAllOperations = some s1 ∧
      s1.m_normalPriorityQueue.m_queue = [3] ∧
      s1.m_highPriorityQueue.m_queue = [6] ∧
      removedOperations sampleBulkCancel QueueRef.normal = [1, 2, 8] ∧
      removedOperations sampleBulkCancel QueueRef.high = [5, 9] ∧
      (s1.heap 1).status = OperationCancelled ∧
      (s1.heap 5).status = OperationCancelled ∧
      s1.heap 3 = sampleBulkCancel.heap 3 ∧
      s1.heap 6 = sampleBulkCancel.heap 6 ∧
      s1.trace.count (Event.endOperation 2 OperationCancelled) = 1 :=
  have ⟨s1, h0, h1, _, h3, _, h5, h6⟩ :=
    doCancelAllOperations_bounded_by_sentinel sampleBulkCancel (by decide) (by decide)
      (by decide) (by decide) (by decide) (by decide) (by decide)
  ⟨s1, h0, (h1 QueueRef.normal [1, 2] [3] rfl (by decide)).2.1,
    (h1 QueueRef.high [5] [6] rfl (by decide)).2.1, rfl, rfl,
    ((h3 QueueRef.normal).2.1 1 (by decide)).2, ((h3 QueueRef.high).2.1 5 (by decide)).2,
    h6 3 (by decide) (by decide) (by decide), h6 6 (by decide) (by decide) (by decide),
    (h5 2 (by decide)).trans rfl⟩

end QueueHandler

/-! ## C17 : an operation object on both sides of the sentinels -/

/-- C17 (failing runs): two runs over `sampleHeap` in which one operation object
is submitted to both queues.

* Operation 3 is submitted to the high-priority queue, `cancelAllOperations()`
  is called, and operation 3 is submitted again, to the normal queue. Before the
  posted `doCancelAllOperations()` runs, the normal queue holds the ids `[0, 3]`,
  that is an empty prefix, the sentinel and the suffix `[3]`, and operation 3
  has status NotStarted. Afterwards the normal queue holds `[3]`, still mapped to
  operation 3, but the loop on the high-priority queue has removed the same
  object: the status of the operation the normal queue keeps is now Cancelled,
  and its completion has been delivered.
* Operation 3 is submitted to both queues while operation 1 executes, and
  `cancelAllOperations()` is called: both queues hold `[3, 0]`. The posted
  `doCancelAllOperations()` removes operation 3 from both: its clean-up hook
  runs twice and its completion is delivered twice with status Cancelled. -/
theorem bulk_cancel_changes_status_of_shared_survivor :
    ((System.init sampleHeap false 0).run sharedOperationStart).map (fun S =>
      (S.handler.m_normalPriorityQueue.m_queue, S.handler.m_normalPriorityQueue.value 3,
        S.handler.m_highPriorityQueue.m_queue, S.handler.m_highPriorityQueue.value 3,
        (S.handler.heap 3).status)) =
      some ([0, 3], 3, [3, 0], 3, OperationNotStarted) ∧
    ((System.init sampleHeap false 0).run sharedOperationRun).map (fun S =>
      (S.handler.m_normalPriorityQueue.m_queue, S.handler.m_normalPriorityQueue.value 3,
        (S.handler.heap 3).status,
        S.handler.trace.count (Event.endOperation 3 OperationCancelled))) =
      some ([3], 3, OperationCancelled, 1) ∧
    ((System.init sampleHeap false 0).run sharedBulkCancelStart).map (fun S =>
      (S.handler.m_normalPriorityQueue.m_queue, S.handler.m_normalPriorityQueue.value 3,
        S.handler.m_highPriorityQueue.m_queue, S.handler.m_highPriorityQueue.value 3,
        S.handler.trace.count (Event.endOperation 3 OperationCancelled))) =
      some ([3, 0], 3, [3, 0], 3, 0) ∧
    ((System.init sampleHeap false 0).run sharedBulkCancelRun).map (fun S =>
      (S.handler.m_normalPriorityQueue.m_queue, S.handler.m_highPriorityQueue.m_queue,
        S.handler.trace.count (Event.cleanThreadSpecificResources 3),
        S.handler.trace.count (Event.endOperation 3 OperationCancelled),
        S.handler.trace.count (Event.invokeMethod 100 ['d', 'o', 'n', 'e'] 3))) =
      some ([], [], 2, 2, 2) := by
  refine ⟨?_, ?_, ?_, ?_⟩ <;> rfl

/-! ## Shutdown from the states of the sequential runs -/

/-- Shutdown, per queue entry: in every state of every run of a freshly
constructed handler in which the Waiting entry is about to run with `m_exitThread` set and
`m_cancelAllOperations` not set, the next three processing steps of the state
machine are taken and

* `onWaiting` emits `cleanUpAndExit` only and leaves both queues, the current
  operation and all operation objects as they are;
* the state machine goes to Exiting, whose entry is pending;
* `onExiting` leaves both queues empty and no current operation; it removes
  every queued operation (normal queue first, each queue head first) and then
  cancels the current operation if there is one; each of these operations is
  non-null, ends with status Cancelled and has its completion delivered with
  status Cancelled once per queue entry that held it, plus once when it is
  current; then `emptyQueue`, `operationNeeded` and `exit` are emitted;
* three more processing steps take the state machine to its final state
  without further outgoing calls. -/
theorem shutdown_cancels_everything (heap : Nat → AbstractOperation) (canContinue : Bool)
    (timerId0 : Int) (acts : List Action) (S : System)
    (hrun : (System.init heap canContinue timerId0).run acts = some S)
    (hst : S.handler.machineState = MachineState.waiting)
    (hent : S.handler.machineEntering = true)
    (he : S.handler.m_exitThread = true) (hc : S.handler.m_cancelAllOperations = false)
    (timerId : Int) :
    ∃ s1 s2 s3 s4 : QueueHandler,
      S.handler.machineStep timerId = some s1 ∧ s1.machineStep timerId = some s2 ∧
      s2.machineStep timerId = some s3 ∧
      (s1.trace = S.handler.trace ++ [Event.emit Signal.cleanUpAndExit] ∧
        s1.m_normalPriorityQueue = S.handler.m_normalPriorityQueue ∧
        s1.m_highPriorityQueue = S.handler.m_highPriorityQueue ∧
        s1.m_currentOperation = S.handler.m_currentOperation ∧ s1.heap = S.handler.heap) ∧
      (s2.machineState = MachineState.exiting ∧ s2.machineEntering = true) ∧
      s3.m_normalPriorityQueue = OperationsQueue.empty ∧
      s3.m_highPriorityQueue = OperationsQueue.empty ∧
      s3.m_currentOperation = 0 ∧
      s3.trace = S.handler.trace ++ ([Event.emit Signal.cleanUpAndExit] ++
        (QueueHandler.removalEventsAll S.handler
          (QueueHandler.queuedOperations S.handler QueueRef.normal) ++
        (QueueHandler.removalEventsAll S.handler
          (QueueHandler.queuedOperations S.handler QueueRef.high) ++
        (QueueHandler.currentCancelEvents S.handler ++
          [Event.emit Signal.emptyQueue, Event.emit Signal.operationNeeded,
            Event.emit Signal.exit])))) ∧
      (∀ p, p ≠ 0 → s3.trace.count (Event.endOperation p OperationCancelled) =
        S.handler.trace.count (Event.endOperation p OperationCancelled) +
          (QueueHandler.queuedOperations S.handler QueueRef.normal).count p +
          (QueueHandler.queuedOperations S.handler QueueRef.high).count p +
          (if S.handler.m_currentOperation = p then 1 else 0)) ∧
      (∀ p, p ≠ 0 → (p ∈ QueueHandler.queuedOperations S.handler QueueRef.normal ∨
          p ∈ QueueHandler.queuedOperations S.handler QueueRef.high ∨
          p = S.handler.m_currentOperation) →
        (s3.heap p).status = OperationCancelled) ∧
      (∀ w, ∀ p ∈ QueueHandler.queuedOperations S.handler w, p ≠ 0) ∧
      machineSteps timerId 3 s3 = some s4 ∧ s4.machineState = MachineState.exit ∧
      s4.trace = s3.trace := by
  have hinv := System.inv_run acts _ S (System.init_inv heap canContinue timerId0) hrun
  obtain ⟨h1, h2, h3, _, h5, h6⟩ := hinv
  have hpseudo : S.pseudoPermits ≠ 0 := by
    intro h0
    rcases h6 he h0 with h | h | h
    · rw [hent] at h
      exact absurd h.2.1 (by decide)
    · rw [hst] at h
      cases h
    · rw [hst] at h
      cases h
  have hev : S.handler.machineEvents = [] := by
    rcases h5 with h | h
    · exact h
    · rw [hent] at h
      exact absurd h.1 (by decide)
  obtain ⟨s1, s2, s3, a1, a2, a3, a4, a5, a6, a7, a8, a9, a10, a11, a12, b1, b2, b3⟩ :=
    QueueHandler.shutdown_steps S.handler timerId h2 (h3 hc) (by omega) hc he hst hent hev
  refine ⟨s1, s2, s3,
    { s3 with
      machineState := MachineState.exit
      machineEntering := true
      machineEvents := [] },
    a1, a2, a3, a4, a5, a6, a7, a8, a9, a10, a11, a12, ?_, rfl, rfl⟩
  simp [machineSteps, QueueHandler.machineStep, b1, b2, b3, QueueHandler.transition]

/-- Instance of the lemma on shutdown, in the state `sampleShutdown`:
operation 3 waits in the normal queue and operation 7 in the high-priority queue
when the Waiting entry finds `m_exitThread` set. -/
theorem shutdown_cancels_everything_witness :
    (System.init sampleHeap false 0).run shutdownWhileRunningRun = some sampleShutdown ∧
    sampleShutdown.handler.machineState = MachineState.waiting ∧
    sampleShutdown.handler.machineEntering = true ∧
    sampleShutdown.handler.m_exitThread = true ∧
    sampleShutdown.handler.m_cancelAllOperations = false ∧
    sampleShutdown.handler.m_normalPriorityQueue.m_queue = [3] ∧
    sampleShutdown.handler.m_highPriorityQueue.m_queue = [7] ∧
    ∃ s1 s2 s3 s4 : QueueHandler,
      sampleShutdown.handler.machineStep 0 = some s1 ∧ s1.machineStep 0 = some s2 ∧
      s2.machineStep 0 = some s3 ∧
      s1.trace = sampleShutdown.handler.trace ++ [Event.emit Signal.cleanUpAndExit] ∧
      s3.m_normalPriorityQueue = OperationsQueue.empty ∧
      s3.m_highPriorityQueue = OperationsQueue.empty ∧
      s3.m_currentOperation = 0 ∧
      (s3.heap 3).status = OperationCancelled ∧ (s3.heap 7).status = OperationCancelled ∧
      s3.trace.count (Event.endOperation 3 OperationCancelled) = 1 ∧
      s3.trace.count (Event.endOperation 7 OperationCancelled) = 1 ∧
      machineSteps 0 3 s3 = some s4 ∧ s4.machineState = MachineState.exit :=
  have ⟨s1, s2, s3, s4, a1, a2, a3, a4, _, a6, a7, a8, _, a10, a11, _, a13, a14, _⟩ :=
    shutdown_cancels_everything sampleHeap false 0 shutdownWhileRunningRun sampleShutdown
      rfl rfl rfl rfl rfl 0
  ⟨rfl, rfl, rfl, rfl, rfl, rfl, rfl, s1, s2, s3, s4, a1, a2, a3, a4.1, a6, a7, a8,
    a11 3 (by decide) (Or.inl (by decide)), a11 7 (by decide) (Or.inr (Or.inl (by decide))),
    (a10 3 (by decide)).trans rfl, (a10 7 (by decide)).trans rfl, a13, a14⟩

/-! ## C9, C12 : an operation object that waits in both queues -/

/-- C9 (failing run): over `sampleHeap`, while operation 1 executes, operation 3
is submitted with `addOperation` and with `addHighPriorityOperation`, so that
both queues hold the id 3 mapped to the same object. `doCancelOperation(3)` then
removes the object from the normal queue and from the high-priority queue: its
clean-up hook runs twice, and its completion is delivered twice with status
Cancelled, the callback `done` being invoked twice on the observer. -/
theorem doCancelOperation_delivers_shared_operation_twice :
    ((System.init sampleHeap false 0).run sharedInBothQueuesStart).map (fun S =>
      (S.handler.m_normalPriorityQueue.m_queue, S.handler.m_normalPriorityQueue.value 3,
        S.handler.m_highPriorityQueue.m_queue, S.handler.m_highPriorityQueue.value 3,
        S.handler.m_currentOperation,
        S.handler.trace.count (Event.endOperation 3 OperationCancelled))) =
      some ([3], 3, [3], 3, 1, 0) ∧
    ((System.init sampleHeap false 0).run sharedCancelByIdRun).map (fun S =>
      (S.handler.m_normalPriorityQueue.m_queue, S.handler.m_highPriorityQueue.m_queue,
        (S.handler.heap 3).status,
        S.handler.trace.count (Event.cleanThreadSpecificResources 3),
        S.handler.trace.count (Event.endOperation 3 OperationCancelled),
        S.handler.trace.count (Event.invokeMethod 100 ['d', 'o', 'n', 'e'] 3))) =
      some ([], [], OperationCancelled, 2, 2, 2) := by
  constructor <;> rfl

/-- C12 (failing runs): two states in which the Waiting entry finds
`m_exitThread` set and `m_cancelAllOperations` not set.

* In the state the run `sharedShutdownStart` reaches, operation 3 waits in both
  queues. The Waiting entry, the transition to Exiting and the Exiting entry
  leave both queues empty and emit `exit`, but the clean-up hook of operation 3
  runs twice and its completion is delivered twice with status Cancelled.
* In the state `sampleSentinelShutdown` a sentinel is queued in front of
  operation 3. The same three steps end with `exit` emitted while operation 3 is
  still queued with status NotStarted and has not been handed back: the loop of
  `doCancelAllOperations` stops at the sentinel. Two more processing steps take
  the state machine to its final state with operation 3 still queued. -/
theorem shutdown_delivers_twice_or_leaves_queued :
    ((System.init sampleHeap false 0).run sharedShutdownStart).map (fun S =>
      (S.handler.machineState, S.handler.machineEntering, S.handler.m_exitThread,
        S.handler.m_cancelAllOperations,
        S.handler.m_normalPriorityQueue.m_queue, S.handler.m_normalPriorityQueue.value 3,
        S.handler.m_highPriorityQueue.m_queue, S.handler.m_highPriorityQueue.value 3,
        S.handler.trace.count (Event.endOperation 3 OperationCancelled))) =
      some (MachineState.waiting, true, true, false, [3], 3, [3], 3, 0) ∧
    ((System.init sampleHeap false 0).run sharedShutdownRun).map (fun S =>
      (S.handler.machineState, S.handler.machineEvents.getLast?,
        S.handler.m_normalPriorityQueue.m_queue, S.handler.m_highPriorityQueue.m_queue,
        (S.handler.heap 3).status,
        S.handler.trace.count (Event.cleanThreadSpecificResources 3),
        S.handler.trace.count (Event.endOperation 3 OperationCancelled),
        S.handler.trace.count (Event.invokeMethod 100 ['d', 'o', 'n', 'e'] 3))) =
      some (MachineState.exiting, some Signal.exit, [], [], OperationCancelled, 2, 2, 2) ∧
    (sampleSentinelShutdown.machineState, sampleSentinelShutdown.machineEntering,
      sampleSentinelShutdown.m_exitThread, sampleSentinelShutdown.m_cancelAllOperations,
      (sampleSentinelShutdown.heap 3).status) =
      (MachineState.waiting, true, true, false, OperationNotStarted) ∧
    (machineSteps 0 3 sampleSentinelShutdown).map (fun s =>
      (s.machineState, s.machineEvents.getLast?,
        s.m_normalPriorityQueue.m_queue, s.m_normalPriorityQueue.value 3,
        (s.heap 3).status, decide (Event.cleanThreadSpecificResources 3 ∈ s.trace))) =
      some (MachineState.exiting, some Signal.exit, [3], 3, OperationNotStarted, false) ∧
    (machineSteps 0 5 sampleSentinelShutdown).map (fun s =>
      (s.machineState, s.m_normalPriorityQueue.m_queue, (s.heap 3).status)) =
      some (MachineState.exit, [3], OperationNotStarted) := by
  refine ⟨?_, ?_, ?_, ?_, ?_⟩ <;> rfl

end WorkerThread
